import Mathlib

/-!
Verification development for the idjc streaming backend
(`src/c/recorder.c`, `src/c/live_webm_encoder.c`, `src/c/live_aac_encoder.c`,
`src/c/encoder.h`, `src/c/sourceclient.c`).

The C data model and operations are shallowly embedded: C structs become Lean
structures, the stateful thread bodies become explicit state-passing
functions, machine integers become `Int`/`Nat` (the quantities involved --
serials, byte counts, millisecond offsets -- stay far below any overflow
boundary on every path the theorems touch), C `double` values (packet
timestamps, seek-table interpolation) become `Rat`, and fallible operations
return `Option` or an explicit result code.  External libraries (libav,
libsndfile, jack) are opaque collaborators: the byte buffers they hand to the
callbacks in the source are universally quantified parameters.
-/

namespace Idjc

/-- Result code used throughout the C sources (`SUCCEEDED` / `FAILED`). -/
inductive CallResult where
  | SUCCEEDED : CallResult
  | FAILED : CallResult
deriving DecidableEq, Repr

/-- `enum packet_flags` from encoder.h:36-46, one field per bit of the C
bitset (`PF_INITIAL` .. `PF_WEBM`). -/
structure PacketFlags where
  pfInitial : Bool
  pfFinal : Bool
  pfOgg : Bool
  pfMp3 : Bool
  pfMetadata : Bool
  pfHeader : Bool
  pfMp2 : Bool
  pfAac : Bool
  pfAacp2 : Bool
  pfWebm : Bool
deriving DecidableEq, Repr

/-- The all-clear flag set (`PF_UNSET`). -/
def PacketFlags.unset : PacketFlags :=
  ⟨false, false, false, false, false, false, false, false, false, false⟩

/-- Bitwise or of two flag sets (`a | b` on the C bitset). -/
def PacketFlags.union (a b : PacketFlags) : PacketFlags :=
  ⟨a.pfInitial || b.pfInitial, a.pfFinal || b.pfFinal, a.pfOgg || b.pfOgg,
   a.pfMp3 || b.pfMp3, a.pfMetadata || b.pfMetadata, a.pfHeader || b.pfHeader,
   a.pfMp2 || b.pfMp2, a.pfAac || b.pfAac, a.pfAacp2 || b.pfAacp2,
   a.pfWebm || b.pfWebm⟩

/-- `flags & (PF_MP3 | PF_MP2 | PF_AAC | PF_AACP2)` (recorder.c:398): the
packet carries an MPEG-family audio payload. -/
def PacketFlags.isMpegAudio (f : PacketFlags) : Bool :=
  f.pfMp3 || f.pfMp2 || f.pfAac || f.pfAacp2

/-- `flags & (PF_WEBM | PF_OGG | PF_MP3 | PF_MP2 | PF_AAC | PF_AACP2)`
(recorder.c:610): the packet carries stream data to be written to the file. -/
def PacketFlags.isStreamData (f : PacketFlags) : Bool :=
  f.pfWebm || f.pfOgg || f.pfMp3 || f.pfMp2 || f.pfAac || f.pfAacp2

/-- `struct encoder_op_packet` with its header (encoder.h:89-106).  The magic
number and data-format triple are omitted: no modelled operation reads them.
`data` is the payload byte string; `data_size` is the header's size field
(set to the payload length at every packet-construction site in the
sources). -/
structure EncPacket where
  bit_rate : Nat
  sample_rate : Nat
  n_channels : Nat
  flags : PacketFlags
  serial : Int
  timestamp : Rat
  data_size : Nat
  data : List Nat
deriving DecidableEq, Repr

/-- `struct metadata_item` (chapter-style metadata boundary entry built by
`recorder_append_metadata`); strings are byte lists. -/
structure MetadataItem where
  artist : List Nat
  title : List Nat
  album : List Nat
  time_offset : Int
  byte_offset : Int
  time_offset_end : Int
  byte_offset_end : Int
deriving DecidableEq, Repr

/-- `struct metadata_item2` (byte/time segment entry built by
`recorder_append_metadata2`, consumed by `recorder_write_xing_tag`). -/
structure MetadataItem2 where
  bit_rate : Nat
  sample_rate : Nat
  start_offset_ms : Int
  finish_offset_ms : Int
  byte_offset : Int
  size_bytes : Int
deriving DecidableEq, Repr

/-- `enum` of recorder modes (`RM_STOPPED` etc. used in recorder.c). -/
inductive RecordMode where
  | RM_STOPPED : RecordMode
  | RM_RECORDING : RecordMode
  | RM_PAUSED : RecordMode
  | RM_STOPPING : RecordMode
deriving DecidableEq, Repr

/-- Truncation of a rational toward zero, the C `(int)` cast applied to a
`double` (recorder.c:619-620). -/
def truncQ (q : Rat) : Int := Int.tdiv q.num q.den

/-- The fields of `struct recorder` that the recorder thread's
attached-encoder path reads or writes.  The output file `fp` is modelled by
the byte string written so far (`fileBytes`, the file is opened fresh with
mode "w" and only appended to, so `ftell` is its length); the two intrusive
singly-linked metadata lists become Lean lists with their append-at-the-tail
discipline made explicit. -/
structure Recorder where
  record_mode : RecordMode
  initial_serial : Int
  final_serial : Int
  accumulated_time : Rat
  recording_length_s : Int
  recording_length_ms : Int
  bytes_written : Int
  fileBytes : List Nat
  mi : List MetadataItem
  mi2 : List MetadataItem2
  oldbitrate : Nat
  oldsamplerate : Nat
  is_vbr : Bool
  id3_mode : Bool
  include_xing_tag : Bool
  stop_request : Bool
  stop_pending : Bool
  pause_request : Bool
  pause_pending : Bool
  unpause_request : Bool
deriving DecidableEq, Repr

/-- Replace the last element of a list (the C code mutates the node pointed
to by `mi_last` / `mi2_last` in place). -/
def updateLast {α : Type} (f : α → α) : List α → List α
  | [] => []
  | [a] => [f a]
  | a :: b :: rest => a :: updateLast f (b :: rest)

/-- `recorder_append_metadata2` (recorder.c:358-408).  `packet = none`
corresponds to the `NULL` call made at stop time.  All fields of the fresh
node start at zero (`calloc`). -/
def recorder_append_metadata2 (self : Recorder) (packet : Option EncPacket) :
    Recorder :=
  let bitr : Nat := match packet with | some p => p.bit_rate | none => 0
  let samr : Nat := match packet with | some p => p.sample_rate | none => 0
  let self :=
    if self.mi2.isEmpty then
      let mi2 : MetadataItem2 :=
        ⟨bitr, samr, 0, 0, 0, 0⟩
      { self with mi2 := [mi2] }
    else
      let mi2 : MetadataItem2 :=
        ⟨bitr, samr, self.recording_length_ms, 0, self.bytes_written, 0⟩
      let patched := updateLast
        (fun last => { last with
            finish_offset_ms := mi2.start_offset_ms,
            size_bytes := mi2.byte_offset - last.byte_offset }) self.mi2
      if packet.isSome then
        { self with mi2 := patched ++ [mi2] }
      else
        { self with mi2 := patched }
  match packet with
  | some p =>
      if (p.bit_rate ≠ self.oldbitrate || p.sample_rate ≠ self.oldsamplerate)
          && p.flags.isMpegAudio then
        { self with
            is_vbr := if self.oldbitrate ≠ 0 && self.oldsamplerate ≠ 0 then
                true
              else self.is_vbr,
            oldbitrate := p.bit_rate,
            oldsamplerate := p.sample_rate }
      else self
  | none => self

/-- One `strsep(&p, "\n")` step on a byte string: the token before the first
newline (byte 10) and, when a newline was found, the remainder after it
(`none` models `strsep` leaving the string pointer `NULL`). -/
def strsepNL : List Nat → List Nat × Option (List Nat)
  | [] => ([], none)
  | c :: rest =>
      if c = 10 then ([], some rest)
      else
        let r := strsepNL rest
        (c :: r.1, r.2)

/-- The field extraction in `recorder_append_metadata` (recorder.c:444-448):
discard the first newline-separated value, then take artist, title, and the
whole remainder as album (`strsep(&p, "")`).  `none` when the payload has
fewer than three newlines, in which case the C code passes `NULL` on to
`strcmp`/`strdup` (undefined behaviour, unreachable for the packets the
encoders build). -/
def parseMeta (d : List Nat) : Option (List Nat × List Nat × List Nat) :=
  match (strsepNL d).2 with
  | none => none
  | some r1 =>
      let a := strsepNL r1
      match a.2 with
      | none => none
      | some r2 =>
          let t := strsepNL r2
          match t.2 with
          | none => none
          | some album => some (a.1, t.1, album)

/-- `recorder_append_metadata` (recorder.c:437-494).  `packet = none` is the
`NULL` call at stop time (all three strings empty).  Malformed payloads
(`parseMeta` fails) are left as a no-op: the source would dereference `NULL`
there.  Heap allocation is assumed to succeed. -/
def recorder_append_metadata (self : Recorder) (packet : Option EncPacket) :
    Recorder :=
  let fields := match packet with
    | some p => parseMeta p.data
    | none => some ([], [], [])
  match fields with
  | none => self
  | some (artist, title, album) =>
      let dup := packet.isSome && !self.mi.isEmpty &&
        match self.mi.getLast? with
        | some last =>
            decide (last.artist = artist) && decide (last.title = title) &&
            decide (last.album = album)
        | none => false
      if dup then self
      else
        let mi : MetadataItem :=
          ⟨artist, title, album, self.recording_length_ms, self.bytes_written,
           0, 0⟩
        if self.mi.isEmpty then
          { self with mi := [mi] }
        else
          let patched := updateLast
            (fun last => { last with
                time_offset_end := mi.time_offset,
                byte_offset_end := mi.byte_offset }) self.mi
          if packet.isSome then
            { self with mi := patched ++ [mi] }
          else
            { self with mi := patched }

/-- Modelled from the spec: `encoder_client_set_flush` lives in encoder.c,
which is not among the provided sources; per spec section 4.3 it "marks a cut
point -- returns the current serial so callers (e.g. a recorder about to
pause) can later recognize when playback has caught up to the moment the
flush was requested".  Its return value is the encoder's current serial at
the moment of the call; the cut-point mark itself is the encoder-side flush
flag, modelled in the encoder sessions below. -/
def encoder_client_set_flush (encoderSerial : Int) : Int := encoderSerial

/-- The serial-gated block of the `RM_RECORDING` packet handling
(recorder.c:606-634): metadata2 logging on `PF_INITIAL`, the payload write
for stream-data packets (with the failed-`fwrite` transition to
`RM_STOPPING`), and the `PF_FINAL` time accumulation with the
flush-synchronised transition to `RM_PAUSED`. -/
def recorder_gated (self : Recorder) (packet : EncPacket) (writeOk : Bool) :
    Recorder :=
  let self :=
    if packet.flags.pfInitial && self.id3_mode then
      recorder_append_metadata2 self (some packet)
    else self
  let self :=
    if packet.flags.isStreamData then
      if !writeOk then
        { self with record_mode := RecordMode.RM_STOPPING }
      else
        let fb := self.fileBytes ++ packet.data
        { self with
            fileBytes := fb,
            recording_length_s :=
              truncQ (self.accumulated_time + packet.timestamp),
            recording_length_ms :=
              truncQ ((self.accumulated_time + packet.timestamp) * 1000),
            bytes_written := (fb.length : Int) }
    else self
  if packet.flags.pfFinal then
    let self := { self with accumulated_time :=
      self.accumulated_time + packet.timestamp }
    if self.pause_pending && packet.serial ≥ self.final_serial then
      { self with record_mode := RecordMode.RM_PAUSED,
                  pause_pending := false }
    else self
  else self

/-- Handling of one packet delivered by `encoder_client_get_packet`
(recorder.c:604-637): the serial-gated block, then -- regardless of the
serial -- the chapter-metadata append for `PF_METADATA` packets. -/
def recorder_step_packet (self : Recorder) (packet : EncPacket)
    (writeOk : Bool) : Recorder :=
  let self :=
    if packet.serial ≥ self.initial_serial then
      recorder_gated self packet writeOk
    else self
  if packet.flags.pfMetadata then
    recorder_append_metadata self (some packet)
  else self

/-- The stop/pause request handling at the bottom of the attached
`RM_RECORDING` iteration (recorder.c:639-650). -/
def recorder_step_requests (self : Recorder) (encoderSerial : Int) :
    Recorder :=
  let self :=
    if self.stop_request then
      { self with stop_pending := true, pause_request := true,
                  stop_request := false }
    else self
  if self.pause_request then
    { self with pause_pending := true,
                final_serial := encoder_client_set_flush encoderSerial,
                pause_request := false }
  else self

/-- One iteration of the body of `recorder_main`'s switch (recorder.c:541-730)
for the attached-encoder paths.  `input` is what `encoder_client_get_packet`
returned this iteration; `writeOk` is whether the `fwrite` of the packet
payload transferred the full `data_size` (recorder.c:612); `encoderSerial` is
the attached encoder's current serial, read by `encoder_client_set_flush`.
The lossless local-encode branch (`initial_serial == -1`: jack ringbuffers
and libsndfile) and the `RM_STOPPING` teardown are external-I/O paths not
taken by any modelled claim; they leave the state unchanged here, and the
`RM_STOPPING` tag post-processing is modelled separately by
`recorder_apply_mp3_tags`. -/
def recorder_step (self : Recorder) (input : Option EncPacket)
    (writeOk : Bool) (encoderSerial : Int) : Recorder :=
  match self.record_mode with
  | RecordMode.RM_RECORDING =>
      if self.initial_serial = -1 then self
      else
        let self :=
          match input with
          | none => self
          | some packet => recorder_step_packet self packet writeOk
        recorder_step_requests self encoderSerial
  | RecordMode.RM_PAUSED =>
      if self.stop_request || self.stop_pending then
        { self with record_mode := RecordMode.RM_STOPPING }
      else
        if self.unpause_request then
          let self := { self with unpause_request := false }
          let self :=
            if self.initial_serial ≠ -1 then
              { self with initial_serial :=
                  encoder_client_set_flush encoderSerial + 1 }
            else self
          { self with record_mode := RecordMode.RM_RECORDING }
        else self
  | _ => self

/-- Iterated `recorder_step` over a list of (packet?, writeOk, encoderSerial)
iteration inputs. -/
def recorder_run (self : Recorder)
    (inputs : List (Option EncPacket × Bool × Int)) : Recorder :=
  inputs.foldl (fun s i => recorder_step s i.1 i.2.1 i.2.2) self

/-- `recorder_stop` (recorder.c:971-986): result code and poststate.  On an
already-stopped recorder it fails without touching the state; otherwise it
raises `stop_request` (the bounded-sleep wait for the thread to reach
`RM_STOPPED` is the thread's own work, not a mutation by this call). -/
def recorder_stop (self : Recorder) : CallResult × Recorder :=
  if self.record_mode = RecordMode.RM_STOPPED then
    (CallResult.FAILED, self)
  else
    (CallResult.SUCCEEDED, { self with stop_request := true })

/-- The serial watermark recorded by `recorder_start` when it attaches to an
encoder (recorder.c:905-909): the flush serial plus one. -/
def recorder_start_watermark (encoderSerial : Int) : Int :=
  encoder_client_set_flush encoderSerial + 1

/-- The tail of `recorder_start` on the attached-encoder path
(recorder.c:905-968): record the watermark and move to `RM_RECORDING`
(or `RM_PAUSED` when a pause was pre-requested). -/
def recorder_start_attach (self : Recorder) (encoderSerial : Int) : Recorder :=
  let self := { self with
    initial_serial := recorder_start_watermark encoderSerial }
  if self.pause_request then
    { self with record_mode := RecordMode.RM_PAUSED }
  else
    { self with record_mode := RecordMode.RM_RECORDING }

/-- A concrete parked recorder used to instantiate the theorems below. -/
def recorder0 : Recorder :=
  { record_mode := RecordMode.RM_STOPPED, initial_serial := -1,
    final_serial := 0, accumulated_time := 0, recording_length_s := 0,
    recording_length_ms := 0, bytes_written := 0, fileBytes := [],
    mi := [], mi2 := [], oldbitrate := 0, oldsamplerate := 0,
    is_vbr := false, id3_mode := false, include_xing_tag := false,
    stop_request := false, stop_pending := false, pause_request := false,
    pause_pending := false, unpause_request := false }

theorem recorder_append_metadata2_fileBytes (s : Recorder)
    (p : Option EncPacket) :
    (recorder_append_metadata2 s p).fileBytes = s.fileBytes := by
  unfold recorder_append_metadata2
  cases p <;> dsimp only <;> split_ifs <;> rfl

theorem recorder_append_metadata2_core (s : Recorder) (p : Option EncPacket) :
    (recorder_append_metadata2 s p).fileBytes = s.fileBytes ∧
    (recorder_append_metadata2 s p).initial_serial = s.initial_serial ∧
    (recorder_append_metadata2 s p).final_serial = s.final_serial ∧
    (recorder_append_metadata2 s p).unpause_request = s.unpause_request ∧
    (recorder_append_metadata2 s p).record_mode = s.record_mode ∧
    (recorder_append_metadata2 s p).mi = s.mi ∧
    (recorder_append_metadata2 s p).accumulated_time = s.accumulated_time ∧
    (recorder_append_metadata2 s p).recording_length_s =
      s.recording_length_s ∧
    (recorder_append_metadata2 s p).recording_length_ms =
      s.recording_length_ms ∧
    (recorder_append_metadata2 s p).bytes_written = s.bytes_written ∧
    (recorder_append_metadata2 s p).stop_request = s.stop_request ∧
    (recorder_append_metadata2 s p).pause_request = s.pause_request ∧
    (recorder_append_metadata2 s p).pause_pending = s.pause_pending ∧
    (recorder_append_metadata2 s p).stop_pending = s.stop_pending ∧
    (recorder_append_metadata2 s p).id3_mode = s.id3_mode ∧
    (recorder_append_metadata2 s p).include_xing_tag = s.include_xing_tag := by
  unfold recorder_append_metadata2
  cases p <;> dsimp only <;> split_ifs <;>
    exact ⟨rfl, rfl, rfl, rfl, rfl, rfl, rfl, rfl, rfl, rfl, rfl, rfl, rfl,
           rfl, rfl, rfl⟩

theorem recorder_append_metadata_core (s : Recorder) (p : Option EncPacket) :
    (recorder_append_metadata s p).fileBytes = s.fileBytes ∧
    (recorder_append_metadata s p).initial_serial = s.initial_serial ∧
    (recorder_append_metadata s p).final_serial = s.final_serial ∧
    (recorder_append_metadata s p).unpause_request = s.unpause_request ∧
    (recorder_append_metadata s p).record_mode = s.record_mode ∧
    (recorder_append_metadata s p).mi2 = s.mi2 ∧
    (recorder_append_metadata s p).is_vbr = s.is_vbr ∧
    (recorder_append_metadata s p).oldbitrate = s.oldbitrate ∧
    (recorder_append_metadata s p).oldsamplerate = s.oldsamplerate ∧
    (recorder_append_metadata s p).accumulated_time = s.accumulated_time ∧
    (recorder_append_metadata s p).recording_length_s =
      s.recording_length_s ∧
    (recorder_append_metadata s p).recording_length_ms =
      s.recording_length_ms ∧
    (recorder_append_metadata s p).bytes_written = s.bytes_written ∧
    (recorder_append_metadata s p).stop_request = s.stop_request ∧
    (recorder_append_metadata s p).pause_request = s.pause_request ∧
    (recorder_append_metadata s p).pause_pending = s.pause_pending ∧
    (recorder_append_metadata s p).stop_pending = s.stop_pending ∧
    (recorder_append_metadata s p).id3_mode = s.id3_mode ∧
    (recorder_append_metadata s p).include_xing_tag = s.include_xing_tag := by
  unfold recorder_append_metadata
  cases p <;> dsimp only <;>
    (first
      | exact ⟨rfl, rfl, rfl, rfl, rfl, rfl, rfl, rfl, rfl, rfl, rfl, rfl,
               rfl, rfl, rfl, rfl, rfl, rfl, rfl⟩
      | (split <;> (try split_ifs) <;>
          exact ⟨rfl, rfl, rfl, rfl, rfl, rfl, rfl, rfl, rfl, rfl, rfl, rfl,
                 rfl, rfl, rfl, rfl, rfl, rfl, rfl⟩))

theorem recorder_step_requests_core (s : Recorder) (es : Int) :
    (recorder_step_requests s es).fileBytes = s.fileBytes ∧
    (recorder_step_requests s es).initial_serial = s.initial_serial ∧
    (recorder_step_requests s es).unpause_request = s.unpause_request ∧
    (recorder_step_requests s es).record_mode = s.record_mode ∧
    (recorder_step_requests s es).mi = s.mi ∧
    (recorder_step_requests s es).mi2 = s.mi2 ∧
    (recorder_step_requests s es).is_vbr = s.is_vbr ∧
    (recorder_step_requests s es).oldbitrate = s.oldbitrate ∧
    (recorder_step_requests s es).oldsamplerate = s.oldsamplerate ∧
    (recorder_step_requests s es).accumulated_time = s.accumulated_time ∧
    (recorder_step_requests s es).recording_length_s = s.recording_length_s ∧
    (recorder_step_requests s es).recording_length_ms =
      s.recording_length_ms ∧
    (recorder_step_requests s es).bytes_written = s.bytes_written ∧
    (recorder_step_requests s es).id3_mode = s.id3_mode := by
  unfold recorder_step_requests
  dsimp only
  split_ifs <;>
    exact ⟨rfl, rfl, rfl, rfl, rfl, rfl, rfl, rfl, rfl, rfl, rfl, rfl, rfl,
           rfl⟩

theorem recorder_gated_serial_fields (s : Recorder) (p : EncPacket)
    (w : Bool) :
    (recorder_gated s p w).initial_serial = s.initial_serial ∧
    (recorder_gated s p w).final_serial = s.final_serial ∧
    (recorder_gated s p w).unpause_request = s.unpause_request ∧
    (recorder_gated s p w).stop_request = s.stop_request ∧
    (recorder_gated s p w).pause_request = s.pause_request ∧
    (recorder_gated s p w).stop_pending = s.stop_pending ∧
    (recorder_gated s p w).mi = s.mi ∧
    (recorder_gated s p w).id3_mode = s.id3_mode := by
  unfold recorder_gated
  dsimp only
  split_ifs <;>
    simp [recorder_append_metadata2_core]

theorem recorder_step_packet_below (s : Recorder) (p : EncPacket) (w : Bool)
    (h : p.serial < s.initial_serial) :
    recorder_step_packet s p w =
      if p.flags.pfMetadata then recorder_append_metadata s (some p)
      else s := by
  unfold recorder_step_packet
  dsimp only
  rw [if_neg (not_le.mpr h)]

theorem recorder_step_no_write (s : Recorder) (input : Option EncPacket)
    (w : Bool) (es : Int)
    (h : ∀ p, input = some p → p.serial < s.initial_serial) :
    (recorder_step s input w es).fileBytes = s.fileBytes := by
  unfold recorder_step
  cases hm : s.record_mode <;> dsimp only <;>
    first
    | rfl
    | (split_ifs <;> rfl)
    | skip
  by_cases hinit : s.initial_serial = -1
  · simp [hinit]
  · rw [if_neg hinit]
    cases input with
    | none => exact (recorder_step_requests_core s es).1
    | some p =>
        dsimp only
        rw [recorder_step_packet_below s p w (h p rfl)]
        split_ifs with hmf
        · rw [(recorder_step_requests_core _ es).1]
          exact (recorder_append_metadata_core s (some p)).1
        · exact (recorder_step_requests_core s es).1

theorem recorder_step_watermark_stable (s : Recorder)
    (input : Option EncPacket) (w : Bool) (es : Int)
    (h : s.unpause_request = false) :
    (recorder_step s input w es).initial_serial = s.initial_serial ∧
    (recorder_step s input w es).unpause_request = false := by
  unfold recorder_step
  cases hm : s.record_mode <;> dsimp only
  case RM_PAUSED => split_ifs <;> simp_all
  case RM_RECORDING =>
    by_cases hinit : s.initial_serial = -1
    · simp [hinit, h]
    · rw [if_neg hinit]
      cases input with
      | none =>
          refine ⟨(recorder_step_requests_core s es).2.1, ?_⟩
          rw [(recorder_step_requests_core s es).2.2.1, h]
      | some p =>
          dsimp only
          have hreq := recorder_step_requests_core
            (recorder_step_packet s p w) es
          have hpk : (recorder_step_packet s p w).initial_serial =
              s.initial_serial ∧
              (recorder_step_packet s p w).unpause_request =
                s.unpause_request := by
            unfold recorder_step_packet
            dsimp only
            split_ifs <;>
              simp [recorder_append_metadata_core,
                    recorder_gated_serial_fields]
          exact ⟨hreq.2.1.trans hpk.1, (hreq.2.2.1.trans hpk.2).trans h⟩
  all_goals exact ⟨rfl, h⟩

theorem updateLast_length {α : Type} (f : α → α) (l : List α) :
    (updateLast f l).length = l.length := by
  induction l with
  | nil => rfl
  | cons a rest ih =>
      cases rest with
      | nil => rfl
      | cons b t => simpa [updateLast] using ih

theorem recorder_gated_benign_mode (s : Recorder) (p : EncPacket) (w : Bool)
    (hs : p.flags.isStreamData = false) (hf : p.flags.pfFinal = false) :
    (recorder_gated s p w).record_mode = s.record_mode := by
  unfold recorder_gated
  dsimp only
  rw [hs, hf]
  simp only [Bool.false_eq_true, if_false]
  split_ifs <;> simp [recorder_append_metadata2_core]

theorem recorder_step_packet_initial (s : Recorder) (p : EncPacket)
    (w : Bool) :
    (recorder_step_packet s p w).initial_serial = s.initial_serial := by
  unfold recorder_step_packet
  dsimp only
  split_ifs <;>
    simp [recorder_append_metadata_core, recorder_gated_serial_fields]

theorem recorder_step_packet_mi (s : Recorder) (p : EncPacket) (w : Bool) :
    (recorder_step_packet s p w).mi =
      if p.flags.pfMetadata then
        (recorder_append_metadata
          (if p.serial ≥ s.initial_serial then recorder_gated s p w else s)
          (some p)).mi
      else
        (if p.serial ≥ s.initial_serial then recorder_gated s p w else s).mi
      := by
  unfold recorder_step_packet
  dsimp only
  split_ifs <;> rfl

theorem recorder_append_metadata_getLast (s : Recorder) (p : EncPacket)
    (a t b : List Nat) (hp : parseMeta p.data = some (a, t, b)) :
    ∃ item, (recorder_append_metadata s (some p)).mi.getLast? = some item ∧
      item.artist = a ∧ item.title = t ∧ item.album = b := by
  unfold recorder_append_metadata
  dsimp only
  rw [hp]
  dsimp only
  rcases hlast : s.mi.getLast? with _ | last
  · have hnil : s.mi = [] := by
      cases hm : s.mi with
      | nil => rfl
      | cons x xs => rw [hm] at hlast; simp at hlast
    simp [hlast, hnil]
  · have hne : s.mi ≠ [] := by
      intro hnil; rw [hnil] at hlast; simp at hlast
    have hemp : s.mi.isEmpty = false := by
      cases hm : s.mi with
      | nil => exact absurd hm hne
      | cons x xs => rfl
    cases hb : (decide (last.artist = a) && decide (last.title = t) &&
        decide (last.album = b)) with
    | true =>
        have hb2 := hb
        simp only [Bool.and_eq_true, decide_eq_true_eq] at hb2
        simp only [hlast, hemp, Option.isSome_some, Bool.not_false,
          Bool.true_and, hb, Bool.and_true]
        rw [if_pos trivial, hlast]
        exact ⟨last, rfl, hb2.1.1, hb2.1.2, hb2.2⟩
    | false =>
        simp only [hlast, hemp, Option.isSome_some, Bool.not_false,
          Bool.true_and, hb, Bool.and_false]
        rw [if_neg (by simp), if_neg (by simp), if_pos trivial]
        exact ⟨_, List.getLast?_concat _, rfl, rfl, rfl⟩

theorem recorder_append_metadata_dup (s : Recorder) (p : EncPacket)
    (a t b : List Nat) (last : MetadataItem)
    (hp : parseMeta p.data = some (a, t, b))
    (hl : s.mi.getLast? = some last)
    (ha : last.artist = a) (ht : last.title = t) (hb : last.album = b) :
    recorder_append_metadata s (some p) = s := by
  unfold recorder_append_metadata
  dsimp only
  rw [hp]
  dsimp only
  have hne : s.mi ≠ [] := by
    intro hnil; rw [hnil] at hl; simp at hl
  have hemp : s.mi.isEmpty = false := by
    cases hm : s.mi with
    | nil => exact absurd hm hne
    | cons x xs => rfl
  rw [if_pos]
  rw [hl, hemp]
  simp [ha, ht, hb]

theorem recorder_append_metadata_fresh (s : Recorder) (p : EncPacket)
    (a t b : List Nat) (hp : parseMeta p.data = some (a, t, b))
    (hnodup : s.mi = [] ∨ ∀ last, s.mi.getLast? = some last →
      ¬(last.artist = a ∧ last.title = t ∧ last.album = b)) :
    (recorder_append_metadata s (some p)).mi.length = s.mi.length + 1 := by
  unfold recorder_append_metadata
  dsimp only
  rw [hp]
  dsimp only
  rw [if_neg]
  · cases hemp : s.mi.isEmpty with
    | true =>
        have : s.mi = [] := List.isEmpty_iff.mp hemp
        simp [this]
    | false =>
        simp [updateLast_length]
  · rcases hlast : s.mi.getLast? with _ | last
    · simp
    · have hno : ¬(last.artist = a ∧ last.title = t ∧ last.album = b) := by
        rcases hnodup with hnil | hno
        · rw [hnil] at hlast; simp at hlast
        · exact hno last hlast
      simp only [hlast, Option.isSome_some, Bool.true_and, Bool.and_eq_true,
        decide_eq_true_eq]
      intro hcon
      tauto

/-- C1: a recorder attaching to an encoder records the watermark
`flush serial + 1` (recorder.c:905-909), the recorder iteration never
appends file bytes for a packet whose serial is below the watermark
(recorder.c:606), the watermark is stable across iterations (absent an
unpause), and hence a whole run over below-watermark packets leaves the
output file untouched: the recording contains no pre-attachment audio. -/
theorem C1_flush_fence :
    (∀ (s : Recorder) (es : Int),
      (recorder_start_attach s es).initial_serial =
        encoder_client_set_flush es + 1) ∧
    (∀ (s : Recorder) (p : EncPacket) (w : Bool) (es : Int),
      p.serial < s.initial_serial →
      (recorder_step s (some p) w es).fileBytes = s.fileBytes) ∧
    (∀ (s : Recorder) (input : Option EncPacket) (w : Bool) (es : Int),
      s.unpause_request = false →
      (recorder_step s input w es).initial_serial = s.initial_serial ∧
      (recorder_step s input w es).unpause_request = false) ∧
    (∀ (s : Recorder) (inputs : List (Option EncPacket × Bool × Int)),
      s.unpause_request = false →
      (∀ i ∈ inputs, ∀ p, i.1 = some p → p.serial < s.initial_serial) →
      (recorder_run s inputs).fileBytes = s.fileBytes) := by
  refine ⟨?_, ?_, ?_, ?_⟩
  · intro s es
    unfold recorder_start_attach recorder_start_watermark
    dsimp only
    split_ifs <;> rfl
  · intro s p w es h
    exact recorder_step_no_write s (some p) w es
      (by rintro q hq; cases Option.some.inj hq; exact h)
  · intro s input w es h
    exact recorder_step_watermark_stable s input w es h
  · intro s inputs
    induction inputs generalizing s with
    | nil => intro _ _; rfl
    | cons i rest ih =>
        intro hu hlow
        have hstable := recorder_step_watermark_stable s i.1 i.2.1 i.2.2 hu
        have hstep := recorder_step_no_write s i.1 i.2.1 i.2.2
          (fun p hp => hlow i (List.mem_cons_self i rest) p hp)
        have hrest := ih (recorder_step s i.1 i.2.1 i.2.2) hstable.2
          (fun j hj p hp => by
            rw [hstable.1]
            exact hlow j (List.mem_cons_of_mem i hj) p hp)
        calc (recorder_run (recorder_step s i.1 i.2.1 i.2.2) rest).fileBytes
            = (recorder_step s i.1 i.2.1 i.2.2).fileBytes := hrest
          _ = s.fileBytes := hstep

/-- Concrete metadata-only packet flag set (`PF_METADATA`). -/
def flagsMeta : PacketFlags :=
  ⟨false, false, false, false, true, false, false, false, false, false⟩

/-- Concrete MP3 audio packet flag set (`PF_MP3`). -/
def flagsMp3 : PacketFlags :=
  ⟨false, false, false, true, false, false, false, false, false, false⟩

/-- Concrete metadata payload "c\nA\nT\nB" as bytes. -/
def metaPayload : List Nat := [99, 10, 65, 10, 84, 10, 66]

/-- Concrete metadata packet with a given serial. -/
def pktMeta (serial : Int) : EncPacket :=
  ⟨128, 44100, 2, flagsMeta, serial, 0, 7, metaPayload⟩

/-- Concrete MP3 audio packet with a given serial. -/
def pktMp3 (serial : Int) : EncPacket :=
  ⟨128, 44100, 2, flagsMp3, serial, 0, 4, [1, 2, 3, 4]⟩

/-- A recorder in attached recording mode awaiting serial 5. -/
def recRecording : Recorder :=
  { recorder0 with record_mode := RecordMode.RM_RECORDING,
                   initial_serial := 5, id3_mode := true,
                   include_xing_tag := true }

theorem C1_flush_fence_witness :
    (recorder_start_attach recorder0 4).initial_serial = 5 ∧
    (recorder_run recRecording [(some (pktMp3 3), true, 7)]).fileBytes =
      recRecording.fileBytes :=
  ⟨by rw [C1_flush_fence.1 recorder0 4]; rfl,
   C1_flush_fence.2.2.2 recRecording [(some (pktMp3 3), true, 7)] rfl
     (by
       intro i hi p hp
       simp only [List.mem_singleton] at hi
       subst hi
       simp only [Option.some.injEq] at hp
       subst hp
       decide)⟩

/-- C4: `recorder_stop` on an already-stopped recorder (recorder.c:976-980)
returns `FAILED` and returns the state entirely unchanged. -/
theorem C4_recorder_stop_stopped (s : Recorder)
    (h : s.record_mode = RecordMode.RM_STOPPED) :
    recorder_stop s = (CallResult.FAILED, s) := by
  unfold recorder_stop
  rw [if_pos h]

theorem C4_recorder_stop_stopped_witness :
    recorder_stop recorder0 = (CallResult.FAILED, recorder0) :=
  C4_recorder_stop_stopped recorder0 rfl

theorem recorder_step_requests_mi (s : Recorder) (es : Int) :
    (recorder_step_requests s es).mi = s.mi :=
  (recorder_step_requests_core s es).2.2.2.2.1

theorem recorder_step_requests_mode (s : Recorder) (es : Int) :
    (recorder_step_requests s es).record_mode = s.record_mode :=
  (recorder_step_requests_core s es).2.2.2.1

theorem recorder_step_requests_initial (s : Recorder) (es : Int) :
    (recorder_step_requests s es).initial_serial = s.initial_serial :=
  (recorder_step_requests_core s es).2.1

theorem recorder_gated_mi (s : Recorder) (p : EncPacket) (w : Bool) :
    (recorder_gated s p w).mi = s.mi :=
  (recorder_gated_serial_fields s p w).2.2.2.2.2.2.1

theorem recorder_step_packet_mode_benign (s : Recorder) (p : EncPacket)
    (w : Bool) (hs : p.flags.isStreamData = false)
    (hf : p.flags.pfFinal = false) :
    (recorder_step_packet s p w).record_mode = s.record_mode := by
  unfold recorder_step_packet
  dsimp only
  split_ifs <;>
    simp [recorder_append_metadata_core, recorder_gated_benign_mode s p w hs hf]

/-- C9: two consecutive metadata packets bearing the same
(artist, title, album) triple produce a single chapter entry: the second
append is skipped by the duplicate check in `recorder_append_metadata`
(recorder.c:453-459), so the chapter list after the second recorder
iteration equals the list after the first. -/
theorem C9_duplicate_metadata_suppressed (s : Recorder) (p1 p2 : EncPacket)
    (w1 w2 : Bool) (es1 es2 : Int) (a t b : List Nat)
    (hm : s.record_mode = RecordMode.RM_RECORDING)
    (hi : s.initial_serial ≠ -1)
    (h1m : p1.flags.pfMetadata = true) (h2m : p2.flags.pfMetadata = true)
    (h1s : p1.flags.isStreamData = false) (h1f : p1.flags.pfFinal = false)
    (hp1 : parseMeta p1.data = some (a, t, b))
    (hp2 : parseMeta p2.data = some (a, t, b)) :
    (recorder_step (recorder_step s (some p1) w1 es1) (some p2) w2 es2).mi =
      (recorder_step s (some p1) w1 es1).mi := by
  have hstep1 : recorder_step s (some p1) w1 es1 =
      recorder_step_requests (recorder_step_packet s p1 w1) es1 := by
    unfold recorder_step
    rw [hm]
    dsimp only
    rw [if_neg hi]
  obtain ⟨item, hitem, hia, hit, hib⟩ :
      ∃ item, (recorder_step s (some p1) w1 es1).mi.getLast? = some item ∧
        item.artist = a ∧ item.title = t ∧ item.album = b := by
    rw [hstep1, recorder_step_requests_mi, recorder_step_packet_mi,
      if_pos h1m]
    exact recorder_append_metadata_getLast _ p1 a t b hp1
  have hmode : (recorder_step s (some p1) w1 es1).record_mode =
      RecordMode.RM_RECORDING := by
    rw [hstep1, recorder_step_requests_mode,
      recorder_step_packet_mode_benign s p1 w1 h1s h1f, hm]
  have hinit : (recorder_step s (some p1) w1 es1).initial_serial =
      s.initial_serial := by
    rw [hstep1, recorder_step_requests_initial, recorder_step_packet_initial]
  set s1 := recorder_step s (some p1) w1 es1 with hs1
  have hstep2 : recorder_step s1 (some p2) w2 es2 =
      recorder_step_requests (recorder_step_packet s1 p2 w2) es2 := by
    unfold recorder_step
    rw [hmode]
    dsimp only
    rw [if_neg (by rw [hinit]; exact hi)]
  rw [hstep2, recorder_step_requests_mi, recorder_step_packet_mi,
    if_pos h2m]
  have hinner_mi :
      (if p2.serial ≥ s1.initial_serial then recorder_gated s1 p2 w2
        else s1).mi = s1.mi := by
    split_ifs <;> simp [recorder_gated_mi]
  rw [recorder_append_metadata_dup _ p2 a t b item hp2
    (by rw [hinner_mi]; exact hitem) hia hit hib]
  exact hinner_mi

theorem C9_duplicate_metadata_suppressed_witness :
    (recorder_step (recorder_step recRecording (some (pktMeta 5)) true 7)
        (some (pktMeta 6)) true 7).mi =
      (recorder_step recRecording (some (pktMeta 5)) true 7).mi :=
  C9_duplicate_metadata_suppressed recRecording (pktMeta 5) (pktMeta 6)
    true true 7 7 [65] [84] [66] rfl (by decide) rfl rfl rfl rfl
    (by decide) (by decide)

/-- C10: a `PF_METADATA` packet is appended to the chapter metadata list by
`recorder_main` regardless of its serial (the check at recorder.c:635 sits
outside the serial gate of recorder.c:606), while no file bytes are written
for the below-watermark packet: pre-attachment metadata can enter the
chapter list. -/
theorem C10_metadata_below_watermark (s : Recorder) (p : EncPacket)
    (w : Bool) (es : Int) (a t b : List Nat)
    (hm : s.record_mode = RecordMode.RM_RECORDING)
    (hi : s.initial_serial ≠ -1)
    (hlow : p.serial < s.initial_serial)
    (hmd : p.flags.pfMetadata = true)
    (hp : parseMeta p.data = some (a, t, b))
    (hnodup : s.mi = [] ∨ ∀ last, s.mi.getLast? = some last →
      ¬(last.artist = a ∧ last.title = t ∧ last.album = b)) :
    (recorder_step s (some p) w es).mi.length = s.mi.length + 1 ∧
    (∃ item, (recorder_step s (some p) w es).mi.getLast? = some item ∧
      item.artist = a ∧ item.title = t ∧ item.album = b) ∧
    (recorder_step s (some p) w es).fileBytes = s.fileBytes := by
  have hstep : recorder_step s (some p) w es =
      recorder_step_requests (recorder_step_packet s p w) es := by
    unfold recorder_step
    rw [hm]
    dsimp only
    rw [if_neg hi]
  refine ⟨?_, ?_, ?_⟩
  · rw [hstep, recorder_step_requests_mi,
      recorder_step_packet_below s p w hlow, if_pos hmd]
    exact recorder_append_metadata_fresh s p a t b hp hnodup
  · rw [hstep, recorder_step_requests_mi,
      recorder_step_packet_below s p w hlow, if_pos hmd]
    exact recorder_append_metadata_getLast s p a t b hp
  · exact recorder_step_no_write s (some p) w es
      (by rintro q hq; cases Option.some.inj hq; exact hlow)

theorem C10_metadata_below_watermark_witness :
    (recorder_step recRecording (some (pktMeta 3)) true 7).mi.length =
      recRecording.mi.length + 1 ∧
    (recorder_step recRecording (some (pktMeta 3)) true 7).fileBytes =
      recRecording.fileBytes :=
  ⟨(C10_metadata_below_watermark recRecording (pktMeta 3) true 7
      [65] [84] [66] rfl (by decide) (by decide) rfl (by decide)
      (Or.inl rfl)).1,
   (C10_metadata_below_watermark recRecording (pktMeta 3) true 7
      [65] [84] [66] rfl (by decide) (by decide) rfl (by decide)
      (Or.inl rfl)).2.2⟩

/-- A flat filesystem: association list from path to file contents. -/
def FS : Type := List (String × List Nat)

/-- Contents of a path, first binding wins. -/
def fsLookup : FS → String → Option (List Nat)
  | [], _ => none
  | (k, v) :: rest, n => if k = n then some v else fsLookup rest n

/-- `unlink`: remove every binding of a path. -/
def fsErase : FS → String → FS
  | [], _ => []
  | (k, v) :: rest, n =>
      if k = n then fsErase rest n else (k, v) :: fsErase rest n

/-- Create or truncate-and-write a path (`fopen(...,"w")` plus writes). -/
def fsSet (fs : FS) (n : String) (v : List Nat) : FS := (n, v) :: fsErase fs n

theorem fsLookup_fsErase_self (fs : FS) (n : String) :
    fsLookup (fsErase fs n) n = none := by
  induction fs with
  | nil => rfl
  | cons e rest ih =>
      unfold fsErase
      split_ifs with h
      · exact ih
      · unfold fsLookup
        rw [if_neg h]
        exact ih

theorem fsLookup_fsErase_other (fs : FS) (n m : String) (h : m ≠ n) :
    fsLookup (fsErase fs n) m = fsLookup fs m := by
  induction fs with
  | nil => rfl
  | cons e rest ih =>
      obtain ⟨k, v⟩ := e
      by_cases h1 : k = n
      · subst h1
        have h2 : ¬k = m := fun hh => h hh.symm
        simp [fsErase, fsLookup, h2, ih]
      · by_cases h2 : k = m
        · simp [fsErase, fsLookup, h1, h2, h]
        · simp [fsErase, fsLookup, h1, h2, ih]

theorem fsLookup_fsSet_self (fs : FS) (n : String) (v : List Nat) :
    fsLookup (fsSet fs n v) n = some v := by
  unfold fsSet fsLookup
  rw [if_pos rfl]

theorem fsLookup_fsSet_other (fs : FS) (n m : String) (v : List Nat)
    (h : m ≠ n) :
    fsLookup (fsSet fs n v) m = fsLookup fs m := by
  unfold fsSet
  have hnm : ¬n = m := fun hh => h hh.symm
  simp only [fsLookup, if_neg hnm]
  exact fsLookup_fsErase_other fs n m h

/-- Outcome of one `recorder_apply_mp3_tags` run; everything except
`success` is reported on the error stream by the source. -/
inductive TagOutcome where
  | success : TagOutcome
  | failMalloc : TagOutcome
  | failOpenTmp : TagOutcome
  | failOpenSrc : TagOutcome
  | failRead : TagOutcome
  | failTag : TagOutcome
  | failCopy : TagOutcome
  | failRename : TagOutcome
deriving DecidableEq, Repr

/-- `recorder_apply_mp3_tags` (recorder.c:282-356) as a filesystem
transformer.  `tagBytes` is what `recorder_write_id3_tag` plus
`recorder_write_xing_tag` write to the temporary file (the id3 writer is an
external collaborator; the Xing writer is modelled separately below);
`mallocFail`, `openTmpFail`, `tagFail`, `copyFail` and `renameFail` inject
the corresponding C failure conditions.  Opening the source file fails when
the path is absent; the initial four-byte `fread` fails when the file is
shorter than four bytes.  On the failed-copy and failed-source paths the
temporary file is `unlink`ed; on a failed rename the source returns without
unlinking it. -/
def recorder_apply_mp3_tags (fs : FS) (pathname : String)
    (tagBytes : List Nat)
    (mallocFail openTmpFail tagFail copyFail renameFail : Bool) :
    TagOutcome × FS :=
  if mallocFail then (TagOutcome.failMalloc, fs)
  else
    let tmpname := pathname ++ ".tmp"
    if openTmpFail then (TagOutcome.failOpenTmp, fs)
    else
      let fs1 := fsSet fs tmpname []
      match fsLookup fs1 pathname with
      | none => (TagOutcome.failOpenSrc, fsErase fs1 tmpname)
      | some src =>
          if src.length < 4 then (TagOutcome.failRead, fsErase fs1 tmpname)
          else
            if tagFail then (TagOutcome.failTag, fsErase fs1 tmpname)
            else
              let fs2 := fsSet fs1 tmpname tagBytes
              if copyFail then (TagOutcome.failCopy, fsErase fs2 tmpname)
              else
                let fs3 := fsSet fs2 tmpname (tagBytes ++ src)
                if renameFail then (TagOutcome.failRename, fs3)
                else
                  (TagOutcome.success,
                   fsSet (fsErase fs3 tmpname) pathname (tagBytes ++ src))

theorem path_ne_tmp (p : String) : p ≠ p ++ ".tmp" := by
  intro h
  have hlen := congrArg String.length h
  rw [String.length_append] at hlen
  have h4 : (".tmp" : String).length = 4 := rfl
  omega

/-- A concrete filesystem holding one recorded MP3 file. -/
def fs0 : FS := [("a.mp3", [255, 251, 144, 0, 1, 2])]

/-- C3 counterexample: when the final `rename` fails, the source reports and
returns without unlinking the temporary file (recorder.c:348-353), so the
temporary file is left behind -- contradicting the claim that every failure
path removes it.  (The original file is still intact.) -/
theorem C3_rename_failure_leaves_temp :
    (recorder_apply_mp3_tags fs0 "a.mp3" [73, 68, 51]
        false false false false true).1 ≠ TagOutcome.success ∧
    fsLookup (recorder_apply_mp3_tags fs0 "a.mp3" [73, 68, 51]
        false false false false true).2 "a.mp3.tmp" ≠ none := by
  decide

/-- C3 (amended): every failure of the MP3 tag rewrite is reported (the
outcome is not `success`) and leaves the original file byte-for-byte intact;
the temporary file is removed on the failed-source-open, failed-read,
failed-tag-write and failed-copy paths, while a failed `rename` leaves the
temporary file behind (containing the tagged copy); the malloc and
temp-open failures touch nothing. -/
theorem C3_mp3_tag_failure (fs : FS) (pathname : String)
    (tagBytes : List Nat) (mF oF tF cF rF : Bool) :
    ((recorder_apply_mp3_tags fs pathname tagBytes mF oF tF cF rF).1 ≠
        TagOutcome.success →
      fsLookup (recorder_apply_mp3_tags fs pathname tagBytes mF oF tF cF
          rF).2 pathname = fsLookup fs pathname) ∧
    (((recorder_apply_mp3_tags fs pathname tagBytes mF oF tF cF rF).1 =
          TagOutcome.failOpenSrc ∨
      (recorder_apply_mp3_tags fs pathname tagBytes mF oF tF cF rF).1 =
          TagOutcome.failRead ∨
      (recorder_apply_mp3_tags fs pathname tagBytes mF oF tF cF rF).1 =
          TagOutcome.failTag ∨
      (recorder_apply_mp3_tags fs pathname tagBytes mF oF tF cF rF).1 =
          TagOutcome.failCopy) →
      fsLookup (recorder_apply_mp3_tags fs pathname tagBytes mF oF tF cF
          rF).2 (pathname ++ ".tmp") = none) ∧
    (((recorder_apply_mp3_tags fs pathname tagBytes mF oF tF cF rF).1 =
          TagOutcome.failMalloc ∨
      (recorder_apply_mp3_tags fs pathname tagBytes mF oF tF cF rF).1 =
          TagOutcome.failOpenTmp) →
      (recorder_apply_mp3_tags fs pathname tagBytes mF oF tF cF rF).2 =
        fs) ∧
    ((recorder_apply_mp3_tags fs pathname tagBytes mF oF tF cF rF).1 =
        TagOutcome.failRename →
      ∃ src, fsLookup fs pathname = some src ∧
        fsLookup (recorder_apply_mp3_tags fs pathname tagBytes mF oF tF cF
            rF).2 (pathname ++ ".tmp") = some (tagBytes ++ src)) := by
  have hne := path_ne_tmp pathname
  unfold recorder_apply_mp3_tags
  dsimp only
  rcases hsrc : fsLookup (fsSet fs (pathname ++ ".tmp") []) pathname
    with _ | src
  · dsimp only
    split_ifs with hmF hoF
    · refine ⟨fun _ => rfl, ?_, fun _ => rfl, ?_⟩
      · intro h; rcases h with h | h | h | h <;> simp_all
      · intro h; simp_all
    · refine ⟨fun _ => rfl, ?_, fun _ => rfl, ?_⟩
      · intro h; rcases h with h | h | h | h <;> simp_all
      · intro h; simp_all
    · refine ⟨fun _ => ?_, fun _ => fsLookup_fsErase_self _ _, ?_, ?_⟩
      · rw [fsLookup_fsErase_other _ _ _ hne,
          fsLookup_fsSet_other _ _ _ _ hne]
      · intro h; rcases h with h | h <;> simp_all
      · intro h; simp_all
  · dsimp only
    split_ifs with hmF hoF hlen htF hcF hrF
    · refine ⟨fun _ => rfl, ?_, fun _ => rfl, ?_⟩
      · intro h; rcases h with h | h | h | h <;> simp_all
      · intro h; simp_all
    · refine ⟨fun _ => rfl, ?_, fun _ => rfl, ?_⟩
      · intro h; rcases h with h | h | h | h <;> simp_all
      · intro h; simp_all
    · refine ⟨fun _ => ?_, fun _ => fsLookup_fsErase_self _ _, ?_, ?_⟩
      · rw [fsLookup_fsErase_other _ _ _ hne,
          fsLookup_fsSet_other _ _ _ _ hne]
      · intro h; rcases h with h | h <;> simp_all
      · intro h; simp_all
    · refine ⟨fun _ => ?_, fun _ => fsLookup_fsErase_self _ _, ?_, ?_⟩
      · rw [fsLookup_fsErase_other _ _ _ hne,
          fsLookup_fsSet_other _ _ _ _ hne]
      · intro h; rcases h with h | h <;> simp_all
      · intro h; simp_all
    · refine ⟨fun _ => ?_, fun _ => fsLookup_fsErase_self _ _, ?_, ?_⟩
      · rw [fsLookup_fsErase_other _ _ _ hne,
          fsLookup_fsSet_other _ _ _ _ hne,
          fsLookup_fsSet_other _ _ _ _ hne]
      · intro h; rcases h with h | h <;> simp_all
      · intro h; simp_all
    · have hsrc2 : fsLookup fs pathname = some src := by
        rw [fsLookup_fsSet_other _ _ _ _ hne] at hsrc
        exact hsrc
      refine ⟨fun _ => ?_, ?_, ?_,
        fun _ => ⟨src, hsrc2, fsLookup_fsSet_self _ _ _⟩⟩
      · rw [fsLookup_fsSet_other _ _ _ _ hne,
          fsLookup_fsSet_other _ _ _ _ hne,
          fsLookup_fsSet_other _ _ _ _ hne]
      · intro h; rcases h with h | h | h | h <;> simp_all
      · intro h; rcases h with h | h <;> simp_all
    · refine ⟨fun h => absurd rfl h, ?_, ?_, ?_⟩
      · intro h; rcases h with h | h | h | h <;> simp_all
      · intro h; rcases h with h | h <;> simp_all
      · intro h; simp_all

theorem C3_mp3_tag_failure_witness :
    fsLookup (recorder_apply_mp3_tags fs0 "a.mp3" [73, 68, 51]
        false false true false false).2 "a.mp3" = fsLookup fs0 "a.mp3" ∧
    fsLookup (recorder_apply_mp3_tags fs0 "a.mp3" [73, 68, 51]
        false false true false false).2 "a.mp3.tmp" = none :=
  ⟨(C3_mp3_tag_failure fs0 "a.mp3" [73, 68, 51] false false true false
      false).1 (by decide),
   (C3_mp3_tag_failure fs0 "a.mp3" [73, 68, 51] false false true false
      false).2.1 (by decide)⟩

/-- `enum encoder_codec` (encoder.h:34). -/
inductive EncoderCodec where
  | UNHANDLED : EncoderCodec
  | MP3 : EncoderCodec
  | VORBIS : EncoderCodec
  | FLAC : EncoderCodec
  | SPEEX : EncoderCodec
  | OPUS : EncoderCodec
  | MP2 : EncoderCodec
  | AAC : EncoderCodec
  | AACPLUSV2 : EncoderCodec
deriving DecidableEq, Repr

/-- The ADTS sample-rate-index switch of the AAC back end's `setup`
(live_aac_encoder.c:468-512): the 13 standard rates map to indices 0..12,
anything else is the `default:` fatal case. -/
def aac_sample_rate_index (sr : Nat) : Option Nat :=
  match sr with
  | 96000 => some 0
  | 88200 => some 1
  | 64000 => some 2
  | 48000 => some 3
  | 44100 => some 4
  | 32000 => some 5
  | 24000 => some 6
  | 22050 => some 7
  | 16000 => some 8
  | 12000 => some 9
  | 11025 => some 10
  | 8000 => some 11
  | 7350 => some 12
  | _ => none

/-- Which libav-side resources an AAC encoder instance currently holds. -/
structure AacResources where
  oc : Bool
  avio_buffer : Bool
  avio_ctx : Bool
  codec_ctx : Bool
  frames : Bool
  swr : Bool
deriving DecidableEq, Repr

/-- No resource held. -/
def AacResources.none : AacResources := ⟨false, false, false, false, false,
  false⟩

/-- Every setup resource held. -/
def AacResources.all : AacResources := ⟨true, true, true, true, true, true⟩

/-- Outcomes of the external libav allocation/open calls made by the AAC
`setup`; the libraries are opaque collaborators, so success of each call is
a parameter. -/
structure AacSetupEnv where
  alloc_oc_ok : Bool
  guess_format_ok : Bool
  avio_malloc_ok : Bool
  avio_alloc_ok : Bool
  add_stream_ok : Bool
  open_stream_ok : Bool
  header_ok : Bool
deriving DecidableEq, Repr

/-- An `AacSetupEnv` in which every external call succeeds. -/
def AacSetupEnv.allOk : AacSetupEnv := ⟨true, true, true, true, true, true,
  true⟩

/-- The body of the AAC `setup` after the codec switch
(live_aac_encoder.c:428-528) as control flow over the injected
external-call outcomes: returns the result code, the stored `sri` field
(`sri << 2`, 0 while untouched) and the set of resources still held on
return.  `open_stream` frees the codec context itself on its internal
failure paths (`avcodec_safe_close`), so a false `open_stream_ok` leaves no
codec context; the `fail5` path (header failure or unrecognized sample
rate) runs `close_stream` then frees the avio buffer and context and the
format context, i.e. tears down everything allocated so far. -/
def live_aac_setup_tail (sr : Nat) (env : AacSetupEnv) :
    CallResult × Nat × AacResources :=
  if !env.alloc_oc_ok then (CallResult.FAILED, 0, AacResources.none)
  else if !env.guess_format_ok then
    (CallResult.FAILED, 0, AacResources.none)
  else if !env.avio_malloc_ok then
    (CallResult.FAILED, 0, AacResources.none)
  else if !env.avio_alloc_ok then
    (CallResult.FAILED, 0, AacResources.none)
  else if !env.add_stream_ok then
    (CallResult.FAILED, 0, AacResources.none)
  else if !env.open_stream_ok then
    (CallResult.FAILED, 0, AacResources.none)
  else if !env.header_ok then
    (CallResult.FAILED, 0, AacResources.none)
  else
    match aac_sample_rate_index sr with
    | some sri => (CallResult.SUCCEEDED, sri <<< 2, AacResources.all)
    | none => (CallResult.FAILED, 0, AacResources.none)

/-- `setup` of the AAC back end (live_aac_encoder.c:405-529): the codec
switch (`fail1` for a non-AAC codec) followed by `live_aac_setup_tail`. -/
def live_aac_setup (codec : EncoderCodec) (target_samplerate : Nat)
    (env : AacSetupEnv) : CallResult × Nat × AacResources :=
  match codec with
  | EncoderCodec.AAC => live_aac_setup_tail target_samplerate env
  | EncoderCodec.AACPLUSV2 => live_aac_setup_tail target_samplerate env
  | _ => (CallResult.FAILED, 0, AacResources.none)

/-- C5: the AAC back end maps the target sample rate to an ADTS index via
exactly the fixed 13-entry table 96000..7350 -> 0..12, and an unrecognized
rate makes `setup` fail with every resource it had allocated torn down
(the `fail5` cascade of live_aac_encoder.c:509-528). -/
theorem C5_aac_sample_rate_table :
    (∀ sr i, aac_sample_rate_index sr = some i ↔
      (sr, i) ∈ [(96000, 0), (88200, 1), (64000, 2), (48000, 3), (44100, 4),
        (32000, 5), (24000, 6), (22050, 7), (16000, 8), (12000, 9),
        (11025, 10), (8000, 11), (7350, 12)]) ∧
    (∀ sr, aac_sample_rate_index sr = none →
      live_aac_setup EncoderCodec.AAC sr AacSetupEnv.allOk =
        (CallResult.FAILED, 0, AacResources.none)) ∧
    (∀ sr i, aac_sample_rate_index sr = some i →
      live_aac_setup EncoderCodec.AAC sr AacSetupEnv.allOk =
        (CallResult.SUCCEEDED, i <<< 2, AacResources.all)) := by
  refine ⟨?_, ?_, ?_⟩
  · intro sr i
    constructor
    · intro h
      unfold aac_sample_rate_index at h
      split at h
      all_goals first
        | exact Option.noConfusion h
        | (cases Option.some.inj h; decide)
    · intro hm
      unfold aac_sample_rate_index
      fin_cases hm <;> rfl
  · intro sr h
    show live_aac_setup_tail sr AacSetupEnv.allOk = _
    unfold live_aac_setup_tail
    rw [h]
    rfl
  · intro sr i h
    show live_aac_setup_tail sr AacSetupEnv.allOk = _
    unfold live_aac_setup_tail
    rw [h]
    rfl

theorem C5_aac_sample_rate_table_witness :
    aac_sample_rate_index 44100 = some 4 ∧
    live_aac_setup EncoderCodec.AAC 44000 AacSetupEnv.allOk =
      (CallResult.FAILED, 0, AacResources.none) ∧
    live_aac_setup EncoderCodec.AAC 48000 AacSetupEnv.allOk =
      (CallResult.SUCCEEDED, 12, AacResources.all) :=
  ⟨by decide,
   C5_aac_sample_rate_table.2.1 44000 (by decide),
   C5_aac_sample_rate_table.2.2 48000 3 (by decide)⟩

/-- `PF_INITIAL` as a flag set. -/
def PF_INITIAL : PacketFlags :=
  ⟨true, false, false, false, false, false, false, false, false, false⟩

/-- `PF_FINAL` as a flag set. -/
def PF_FINAL : PacketFlags :=
  ⟨false, true, false, false, false, false, false, false, false, false⟩

/-- `PF_METADATA` as a flag set. -/
def PF_METADATA : PacketFlags :=
  ⟨false, false, false, false, true, false, false, false, false, false⟩

/-- `PF_HEADER` as a flag set. -/
def PF_HEADER : PacketFlags :=
  ⟨false, false, false, false, false, true, false, false, false, false⟩

/-- `PF_AAC` as a flag set. -/
def PF_AAC : PacketFlags :=
  ⟨false, false, false, false, false, false, false, true, false, false⟩

/-- `PF_WEBM` as a flag set. -/
def PF_WEBM : PacketFlags :=
  ⟨false, false, false, false, false, false, false, false, false, true⟩

/-- The state a live libav-backed encoder (WebM or AAC back end) carries for
packet emission: fields of `struct encoder` (bit rate, rates, serial,
timestamp) and of the back end's private `State`/`WebMState`
(`serial_samples`, `packet_flags`, and for AAC `const_packet_flags` and
`sri`), plus the list of packets pushed so far through
`encoder_write_packet_all` (the output chain delivers this sequence to every
attached client in order). -/
structure LavEnc where
  bitrate : Nat
  target_samplerate : Nat
  n_channels : Nat
  oggserial : Int
  timestamp : Rat
  serial_samples : Nat
  packet_flags : PacketFlags
  const_packet_flags : PacketFlags
  sri : Nat
  emitted : List EncPacket
deriving DecidableEq, Repr

/-- `write_packet` (live_webm_encoder.c:304-321, live_aac_encoder.c:332-349):
build the packet header from the encoder fields, set the timestamp to
`serial_samples / target_samplerate`, push to every client, and clear
`PF_INITIAL`.  The WebM back end has `const_packet_flags = PF_WEBM` and
always passes `pf = PF_UNSET`; the AAC back end has `PF_AAC`/`PF_AACP2`. -/
def enc_write_packet (e : LavEnc) (buf : List Nat) (size : Nat)
    (pf : PacketFlags) : LavEnc :=
  let ts : Rat := (e.serial_samples : Rat) / (e.target_samplerate : Rat)
  let pkt : EncPacket :=
    ⟨e.bitrate, e.target_samplerate, e.n_channels,
     (e.const_packet_flags.union e.packet_flags).union pf,
     e.oggserial, ts, size, buf⟩
  { e with timestamp := ts,
           emitted := e.emitted ++ [pkt],
           packet_flags := { e.packet_flags with pfInitial := false } }

/-- The ADTS frame header synthesized by `write_packet_wrapper`
(live_aac_encoder.c:362-372); `sri` is the stored `self->sri` (already
shifted left by 2). -/
def adts_header (sri : Nat) (n_channels : Nat) (buf_size : Nat) : List Nat :=
  let s := 7 + buf_size
  [0xff, 0xf1, 0x40 ||| sri,
   ((n_channels <<< 6) ||| (s >>> 11)) % 256,
   (s >>> 3) % 256,
   ((s <<< 5) % 256) ||| 0x1f,
   0xfc]

/-- `write_packet_wrapper` (live_aac_encoder.c:351-376): prefix the codec
buffer with a 7-byte ADTS header and emit. -/
def aac_write_packet_wrapper (e : LavEnc) (buf : List Nat) : LavEnc :=
  enc_write_packet e (adts_header e.sri e.n_channels buf.length ++ buf)
    (7 + buf.length) PacketFlags.unset

/-- The avio write callback used by the WebM back end (`write_packet`
itself). -/
def webm_cb (e : LavEnc) (buf : List Nat) : LavEnc :=
  enc_write_packet e buf buf.length PacketFlags.unset

/-- `write_header` (live_webm_encoder.c:324-335, live_aac_encoder.c:378-389):
increment the serial, reset `serial_samples`, raise `PF_HEADER|PF_INITIAL`,
let `avformat_write_header` push its bytes through the avio callback `cb`
(`bufs` is the byte stream the muxer chooses to write -- empty for ADTS,
nonempty EBML headers for WebM), then clear `PF_HEADER`. -/
def enc_write_header (cb : LavEnc → List Nat → LavEnc) (e : LavEnc)
    (bufs : List (List Nat)) : LavEnc :=
  let e := { e with oggserial := e.oggserial + 1, serial_samples := 0,
                    packet_flags := PF_HEADER.union PF_INITIAL }
  let e := bufs.foldl cb e
  { e with packet_flags := { e.packet_flags with pfHeader := false } }

/-- `write_trailer` (live_webm_encoder.c:338-348, live_aac_encoder.c:392-402):
let `av_write_trailer` flush its remaining bytes through the callback, set
`packet_flags = PF_FINAL`, emit one zero-payload packet, then clear the
flags. -/
def enc_write_trailer (cb : LavEnc → List Nat → LavEnc) (e : LavEnc)
    (bufs : List (List Nat)) : LavEnc :=
  let e := bufs.foldl cb e
  let e := { e with packet_flags := PF_FINAL }
  let e := enc_write_packet e [] 0 PacketFlags.unset
  { e with packet_flags := PacketFlags.unset }

/-- One `ES_RUNNING` iteration's observable action of the WebM main loop
(live_webm_encoder.c:456-480): pull-and-encode audio (`n` samples pulled by
`get_audio_frame`, then the muxer pushes `bufs` through the callback), a
metadata retag (write trailer, retag the dictionary, write header), or a
flush (write trailer, write header). -/
inductive WebmEvent where
  | audio : Nat → List (List Nat) → WebmEvent
  | retag : List (List Nat) → List (List Nat) → WebmEvent
  | flush : List (List Nat) → List (List Nat) → WebmEvent

/-- Apply one WebM main-loop event; for `retag hdrBufs trailerBufs` this is
`write_trailer` followed by `write_header` (live_webm_encoder.c:457-464),
and `flush` is the identical sequence of live_webm_encoder.c:466-470. -/
def webm_event_step (e : LavEnc) : WebmEvent → LavEnc
  | WebmEvent.audio n bufs =>
      bufs.foldl webm_cb { e with serial_samples := e.serial_samples + n }
  | WebmEvent.retag h tr => enc_write_header webm_cb (enc_write_trailer webm_cb e tr) h
  | WebmEvent.flush h tr => enc_write_header webm_cb (enc_write_trailer webm_cb e tr) h

/-- Run a list of WebM main-loop events. -/
def webm_run (e : LavEnc) (evs : List WebmEvent) : LavEnc :=
  evs.foldl webm_event_step e

/-- One WebM encoder session: the `setup` header write, the running events,
and the final `write_trailer` on stop. -/
def webm_session (e : LavEnc) (hdr : List (List Nat)) (evs : List WebmEvent)
    (tr : List (List Nat)) : LavEnc :=
  enc_write_trailer webm_cb (webm_run (enc_write_header webm_cb e hdr) evs) tr

/-- One `ES_RUNNING` iteration's observable action of the AAC main loop
(live_aac_encoder.c:562-578): pull-and-encode audio (each codec output
buffer goes through `write_packet_wrapper`), or a metadata update, which --
unlike WebM -- emits a single `PF_METADATA` packet without touching the
container (live_aac_encoder.c:563-567). -/
inductive AacEvent where
  | audio : Nat → List (List Nat) → AacEvent
  | meta : List Nat → AacEvent

/-- Apply one AAC main-loop event.  The metadata branch is guarded by
`!(self->packet_flags & (PF_INITIAL | PF_FINAL))` (live_aac_encoder.c:563):
while the initial packet is still pending the update is deferred (the
`new_metadata` flag stays set and the branch is retried next iteration;
deferral is the observable effect here). -/
def aac_event_step (e : LavEnc) : AacEvent → LavEnc
  | AacEvent.audio n bufs =>
      bufs.foldl aac_write_packet_wrapper
        { e with serial_samples := e.serial_samples + n }
  | AacEvent.meta mdata =>
      if e.packet_flags.pfInitial || e.packet_flags.pfFinal then e
      else enc_write_packet e mdata mdata.length PF_METADATA

/-- Run a list of AAC main-loop events. -/
def aac_run (e : LavEnc) (evs : List AacEvent) : LavEnc :=
  evs.foldl aac_event_step e

/-- One AAC encoder session: header write (ADTS emits no header bytes, but
the muxer's choice is kept as a parameter), the running events, and the
final `write_trailer`. -/
def aac_session (e : LavEnc) (hdr : List (List Nat)) (evs : List AacEvent)
    (tr : List (List Nat)) : LavEnc :=
  enc_write_trailer aac_write_packet_wrapper
    (aac_run (enc_write_header aac_write_packet_wrapper e hdr) evs) tr

/-- Sum of inter-packet timestamp deltas, taken between consecutive packets
of the same serial segment (timestamps restart at a serial boundary). -/
def interDeltaSum : List EncPacket → Rat
  | [] => 0
  | [_] => 0
  | a :: b :: rest =>
      (if b.serial = a.serial then b.timestamp - a.timestamp else 0) +
        interDeltaSum (b :: rest)

/-- Number of packets flagged both `PF_HEADER` and `PF_INITIAL`. -/
def countHI (ps : List EncPacket) : Nat :=
  ps.countP (fun p => p.flags.pfHeader && p.flags.pfInitial)

/-- Timestamp of the last emitted packet (0 when none). -/
def lastTs (e : LavEnc) : Rat :=
  match e.emitted.getLast? with
  | some p => p.timestamp
  | none => 0

/-- The packet built by `enc_write_packet`. -/
def encPkt (e : LavEnc) (buf : List Nat) (size : Nat) (pf : PacketFlags) :
    EncPacket :=
  ⟨e.bitrate, e.target_samplerate, e.n_channels,
   (e.const_packet_flags.union e.packet_flags).union pf,
   e.oggserial, (e.serial_samples : Rat) / (e.target_samplerate : Rat),
   size, buf⟩

theorem enc_write_packet_emitted (e : LavEnc) (buf : List Nat) (size : Nat)
    (pf : PacketFlags) :
    (enc_write_packet e buf size pf).emitted =
      e.emitted ++ [encPkt e buf size pf] := rfl

theorem enc_write_packet_statics (e : LavEnc) (buf : List Nat) (size : Nat)
    (pf : PacketFlags) :
    (enc_write_packet e buf size pf).bitrate = e.bitrate ∧
    (enc_write_packet e buf size pf).target_samplerate =
      e.target_samplerate ∧
    (enc_write_packet e buf size pf).n_channels = e.n_channels ∧
    (enc_write_packet e buf size pf).const_packet_flags =
      e.const_packet_flags ∧
    (enc_write_packet e buf size pf).sri = e.sri ∧
    (enc_write_packet e buf size pf).oggserial = e.oggserial ∧
    (enc_write_packet e buf size pf).serial_samples = e.serial_samples ∧
    (enc_write_packet e buf size pf).packet_flags =
      { e.packet_flags with pfInitial := false } :=
  ⟨rfl, rfl, rfl, rfl, rfl, rfl, rfl, rfl⟩

theorem PacketFlags.union_fields (a b : PacketFlags) :
    (a.union b).pfInitial = (a.pfInitial || b.pfInitial) ∧
    (a.union b).pfFinal = (a.pfFinal || b.pfFinal) ∧
    (a.union b).pfHeader = (a.pfHeader || b.pfHeader) ∧
    (a.union b).pfMetadata = (a.pfMetadata || b.pfMetadata) :=
  ⟨rfl, rfl, rfl, rfl⟩

theorem interDeltaSum_append (l : List EncPacket) (x : EncPacket) :
    interDeltaSum (l ++ [x]) = interDeltaSum l +
      (match l.getLast? with
       | none => 0
       | some p =>
           if x.serial = p.serial then x.timestamp - p.timestamp else 0) := by
  induction l with
  | nil => simp [interDeltaSum]
  | cons a t ih =>
      cases t with
      | nil => simp [interDeltaSum]
      | cons b t2 =>
          simp only [List.cons_append, List.append_eq, interDeltaSum] at *
          rw [ih, List.getLast?_cons_cons]
          ring

theorem countHI_append (l : List EncPacket) (x : EncPacket) :
    countHI (l ++ [x]) = countHI l +
      (if x.flags.pfHeader && x.flags.pfInitial then 1 else 0) := by
  simp [countHI, List.countP_append, List.countP_cons]

/-- The avio callbacks of both back ends emit through `enc_write_packet`
with no extra flag. -/
def CbOk (cb : LavEnc → List Nat → LavEnc) : Prop :=
  ∀ e buf, ∃ data size, cb e buf = enc_write_packet e data size
    PacketFlags.unset

theorem webm_cb_ok : CbOk webm_cb := fun _ buf => ⟨buf, buf.length, rfl⟩

theorem aac_cb_ok : CbOk aac_write_packet_wrapper := fun e buf =>
  ⟨adts_header e.sri e.n_channels buf.length ++ buf, 7 + buf.length, rfl⟩

theorem foldCb_statics (cb : LavEnc → List Nat → LavEnc) (hcb : CbOk cb)
    (bufs : List (List Nat)) (e : LavEnc) :
    (bufs.foldl cb e).bitrate = e.bitrate ∧
    (bufs.foldl cb e).target_samplerate = e.target_samplerate ∧
    (bufs.foldl cb e).n_channels = e.n_channels ∧
    (bufs.foldl cb e).const_packet_flags = e.const_packet_flags ∧
    (bufs.foldl cb e).sri = e.sri ∧
    (bufs.foldl cb e).oggserial = e.oggserial ∧
    (bufs.foldl cb e).serial_samples = e.serial_samples ∧
    ((bufs.foldl cb e).packet_flags = e.packet_flags ∨
      (bufs.foldl cb e).packet_flags =
        { e.packet_flags with pfInitial := false }) := by
  induction bufs generalizing e with
  | nil => exact ⟨rfl, rfl, rfl, rfl, rfl, rfl, rfl, Or.inl rfl⟩
  | cons b rest ih =>
      obtain ⟨data, size, hb⟩ := hcb e b
      have h1 := ih (cb e b)
      rw [hb] at h1
      have h2 := enc_write_packet_statics e data size PacketFlags.unset
      simp only [List.foldl_cons, hb]
      refine ⟨h1.1.trans h2.1, h1.2.1.trans h2.2.1, h1.2.2.1.trans h2.2.2.1,
        h1.2.2.2.1.trans h2.2.2.2.1, h1.2.2.2.2.1.trans h2.2.2.2.2.1,
        h1.2.2.2.2.2.1.trans h2.2.2.2.2.2.1,
        h1.2.2.2.2.2.2.1.trans h2.2.2.2.2.2.2.1, ?_⟩
      rcases h1.2.2.2.2.2.2.2 with hfl | hfl <;>
        · right
          rw [hfl, h2.2.2.2.2.2.2.2]

/-- Timestamp the next emitted packet would carry
(`serial_samples / target_samplerate`). -/
def curTs (e : LavEnc) : Rat :=
  (e.serial_samples : Rat) / (e.target_samplerate : Rat)

/-- Inter-packet delta sum of the emitted stream, completed by the pending
delta of the current segment; invariant under packet emission. -/
def encPhi (e : LavEnc) : Rat :=
  interDeltaSum e.emitted + (curTs e - lastTs e)

/-- The emitted stream is nonempty and its last packet carries the current
serial. -/
def LInv (e : LavEnc) : Prop :=
  ∃ p, e.emitted.getLast? = some p ∧ p.serial = e.oggserial

theorem enc_write_packet_LInv (e : LavEnc) (buf : List Nat) (size : Nat)
    (pf : PacketFlags) :
    LInv (enc_write_packet e buf size pf) ∧
    lastTs (enc_write_packet e buf size pf) = curTs e ∧
    curTs (enc_write_packet e buf size pf) = curTs e := by
  refine ⟨⟨encPkt e buf size pf, ?_, rfl⟩, ?_, rfl⟩
  · rw [enc_write_packet_emitted]
    exact List.getLast?_concat _
  · unfold lastTs
    rw [enc_write_packet_emitted, List.getLast?_concat]
    rfl

theorem enc_write_packet_phi (e : LavEnc) (buf : List Nat) (size : Nat)
    (pf : PacketFlags) (h : LInv e) :
    encPhi (enc_write_packet e buf size pf) = encPhi e := by
  obtain ⟨p, hp, hser⟩ := h
  unfold encPhi
  rw [enc_write_packet_emitted, interDeltaSum_append, hp,
    (enc_write_packet_LInv e buf size pf).2.1,
    (enc_write_packet_LInv e buf size pf).2.2]
  have hts : lastTs e = p.timestamp := by unfold lastTs; rw [hp]
  have hpkts : (encPkt e buf size pf).serial = p.serial := hser.symm
  dsimp only
  rw [if_pos hpkts]
  have hpktts : (encPkt e buf size pf).timestamp = curTs e := rfl
  rw [hpktts, hts]
  ring

theorem enc_write_packet_phi_empty (e : LavEnc) (buf : List Nat) (size : Nat)
    (pf : PacketFlags) (h : e.emitted = []) :
    encPhi (enc_write_packet e buf size pf) = 0 := by
  unfold encPhi
  rw [enc_write_packet_emitted, h,
    (enc_write_packet_LInv e buf size pf).2.1,
    (enc_write_packet_LInv e buf size pf).2.2]
  simp [interDeltaSum]

theorem foldCb_phi (cb : LavEnc → List Nat → LavEnc) (hcb : CbOk cb)
    (bufs : List (List Nat)) (e : LavEnc) (h : LInv e) :
    encPhi (bufs.foldl cb e) = encPhi e ∧ LInv (bufs.foldl cb e) := by
  induction bufs generalizing e with
  | nil => exact ⟨rfl, h⟩
  | cons b rest ih =>
      obtain ⟨data, size, hb⟩ := hcb e b
      have h1 := ih (cb e b) (by rw [hb]; exact
        (enc_write_packet_LInv e data size PacketFlags.unset).1)
      rw [List.foldl_cons]
      refine ⟨?_, h1.2⟩
      rw [h1.1, hb, enc_write_packet_phi e data size PacketFlags.unset h]

theorem foldCb_phi_from_empty (cb : LavEnc → List Nat → LavEnc)
    (hcb : CbOk cb) (b : List Nat) (rest : List (List Nat)) (e : LavEnc)
    (h : e.emitted = []) :
    encPhi ((b :: rest).foldl cb e) = 0 ∧ LInv ((b :: rest).foldl cb e) := by
  obtain ⟨data, size, hb⟩ := hcb e b
  have h0 : encPhi (cb e b) = 0 := by
    rw [hb]; exact enc_write_packet_phi_empty e data size PacketFlags.unset h
  have hL : LInv (cb e b) := by
    rw [hb]; exact (enc_write_packet_LInv e data size PacketFlags.unset).1
  rw [List.foldl_cons]
  have h1 := foldCb_phi cb hcb rest (cb e b) hL
  exact ⟨h1.1.trans h0, h1.2⟩

theorem enc_write_trailer_statics (cb : LavEnc → List Nat → LavEnc)
    (hcb : CbOk cb) (e : LavEnc) (tr : List (List Nat)) :
    (enc_write_trailer cb e tr).bitrate = e.bitrate ∧
    (enc_write_trailer cb e tr).target_samplerate = e.target_samplerate ∧
    (enc_write_trailer cb e tr).n_channels = e.n_channels ∧
    (enc_write_trailer cb e tr).const_packet_flags = e.const_packet_flags ∧
    (enc_write_trailer cb e tr).sri = e.sri ∧
    (enc_write_trailer cb e tr).oggserial = e.oggserial ∧
    (enc_write_trailer cb e tr).serial_samples = e.serial_samples ∧
    (enc_write_trailer cb e tr).packet_flags = PacketFlags.unset := by
  unfold enc_write_trailer
  dsimp only
  have h1 := foldCb_statics cb hcb tr e
  exact ⟨h1.1, h1.2.1, h1.2.2.1, h1.2.2.2.1, h1.2.2.2.2.1,
    h1.2.2.2.2.2.1, h1.2.2.2.2.2.2.1, rfl⟩

theorem enc_write_header_statics (cb : LavEnc → List Nat → LavEnc)
    (hcb : CbOk cb) (e : LavEnc) (bufs : List (List Nat)) :
    (enc_write_header cb e bufs).bitrate = e.bitrate ∧
    (enc_write_header cb e bufs).target_samplerate = e.target_samplerate ∧
    (enc_write_header cb e bufs).n_channels = e.n_channels ∧
    (enc_write_header cb e bufs).const_packet_flags =
      e.const_packet_flags ∧
    (enc_write_header cb e bufs).sri = e.sri ∧
    (enc_write_header cb e bufs).oggserial = e.oggserial + 1 ∧
    (enc_write_header cb e bufs).serial_samples = 0 ∧
    (enc_write_header cb e bufs).packet_flags.pfHeader = false := by
  unfold enc_write_header
  dsimp only
  have h1 := foldCb_statics cb hcb bufs
    { e with oggserial := e.oggserial + 1, serial_samples := 0,
             packet_flags := PF_HEADER.union PF_INITIAL }
  exact ⟨h1.1, h1.2.1, h1.2.2.1, h1.2.2.2.1, h1.2.2.2.2.1,
    h1.2.2.2.2.2.1, h1.2.2.2.2.2.2.1, rfl⟩

theorem enc_write_trailer_phi (cb : LavEnc → List Nat → LavEnc)
    (hcb : CbOk cb) (e : LavEnc) (tr : List (List Nat)) (h : LInv e) :
    encPhi (enc_write_trailer cb e tr) = encPhi e ∧
    LInv (enc_write_trailer cb e tr) ∧
    lastTs (enc_write_trailer cb e tr) = curTs (enc_write_trailer cb e tr) := by
  unfold enc_write_trailer
  dsimp only
  have h1 := foldCb_phi cb hcb tr e h
  set e1 := tr.foldl cb e with he1
  have h2 : LInv { e1 with packet_flags := PF_FINAL } := h1.2
  have h3 := enc_write_packet_phi { e1 with packet_flags := PF_FINAL }
    [] 0 PacketFlags.unset h2
  have h4 := enc_write_packet_LInv { e1 with packet_flags := PF_FINAL }
    [] 0 PacketFlags.unset
  exact ⟨h3.trans h1.1, h4.1, h4.2.1.trans h4.2.2.symm⟩

theorem header_fold_phi (cb : LavEnc → List Nat → LavEnc) (hcb : CbOk cb)
    (e e1 : LavEnc) (b : List Nat) (rest : List (List Nat))
    (h : LInv e) (hts : lastTs e = curTs e)
    (hem : e1.emitted = e.emitted) (hser : e1.oggserial = e.oggserial + 1)
    (hss : e1.serial_samples = 0) :
    encPhi ((b :: rest).foldl cb e1) = encPhi e ∧
    LInv ((b :: rest).foldl cb e1) := by
  obtain ⟨p, hp, hserp⟩ := h
  obtain ⟨data, size, hb⟩ := hcb e1 b
  have hc1 : curTs e1 = 0 := by
    unfold curTs
    rw [hss]
    simp
  have hphi1 : encPhi (cb e1 b) = encPhi e := by
    rw [hb]
    unfold encPhi
    rw [enc_write_packet_emitted,
      (enc_write_packet_LInv e1 data size PacketFlags.unset).2.1,
      (enc_write_packet_LInv e1 data size PacketFlags.unset).2.2,
      hem, interDeltaSum_append, hp]
    dsimp only
    rw [if_neg (by
      show ¬(encPkt e1 data size PacketFlags.unset).serial = p.serial
      have h2 : (encPkt e1 data size PacketFlags.unset).serial =
        e1.oggserial := rfl
      rw [h2, hser, hserp]
      omega)]
    rw [hc1, hts]
    ring
  have hL1 : LInv (cb e1 b) := by
    rw [hb]
    exact (enc_write_packet_LInv e1 data size PacketFlags.unset).1
  rw [List.foldl_cons]
  have h2 := foldCb_phi cb hcb rest (cb e1 b) hL1
  exact ⟨h2.1.trans hphi1, h2.2⟩

theorem enc_write_header_phi (cb : LavEnc → List Nat → LavEnc)
    (hcb : CbOk cb) (e : LavEnc) (b : List Nat) (rest : List (List Nat))
    (h : LInv e) (hts : lastTs e = curTs e) :
    encPhi (enc_write_header cb e (b :: rest)) = encPhi e ∧
    LInv (enc_write_header cb e (b :: rest)) := by
  unfold enc_write_header
  dsimp only
  have hk := header_fold_phi cb hcb e
    { e with oggserial := e.oggserial + 1, serial_samples := 0,
             packet_flags := PF_HEADER.union PF_INITIAL }
    b rest h hts rfl rfl rfl
  exact ⟨hk.1, hk.2⟩

theorem ss_bump_phi (e : LavEnc) (n : Nat) :
    encPhi { e with serial_samples := e.serial_samples + n } =
      encPhi e + (n : Rat) / (e.target_samplerate : Rat) := by
  unfold encPhi curTs lastTs
  dsimp only
  push_cast
  ring

/-- Samples pulled by one WebM main-loop event. -/
def evSamples : WebmEvent → Nat
  | WebmEvent.audio n _ => n
  | _ => 0

/-- Serial increments performed by one WebM main-loop event. -/
def webmBump : WebmEvent → Int
  | WebmEvent.audio _ _ => 0
  | _ => 1

/-- Retag/flush events must let the muxer emit at least one header buffer
(the WebM muxer always writes EBML headers). -/
def webmRetagOk : WebmEvent → Prop
  | WebmEvent.retag h _ => h ≠ []
  | WebmEvent.flush h _ => h ≠ []
  | _ => True

/-- Total logical audio duration pulled by a WebM event list. -/
def webmDur (r : Rat) (evs : List WebmEvent) : Rat :=
  (evs.map (fun ev => (evSamples ev : Rat) / r)).sum

/-- Total serial increments of a WebM event list. -/
def webmBumps (evs : List WebmEvent) : Int := (evs.map webmBump).sum

theorem webm_event_phi (e : LavEnc) (ev : WebmEvent) (hL : LInv e)
    (hok : webmRetagOk ev) :
    encPhi (webm_event_step e ev) =
      encPhi e + (evSamples ev : Rat) / (e.target_samplerate : Rat) ∧
    LInv (webm_event_step e ev) ∧
    (webm_event_step e ev).target_samplerate = e.target_samplerate ∧
    (webm_event_step e ev).oggserial = e.oggserial + webmBump ev := by
  cases ev with
  | audio n bufs =>
      obtain ⟨p, hp, hs⟩ := hL
      have hL2 : LInv { e with serial_samples := e.serial_samples + n } :=
        ⟨p, hp, hs⟩
      have h1 := foldCb_phi webm_cb webm_cb_ok bufs
        { e with serial_samples := e.serial_samples + n } hL2
      have h2 := foldCb_statics webm_cb webm_cb_ok bufs
        { e with serial_samples := e.serial_samples + n }
      refine ⟨?_, h1.2, h2.2.1, ?_⟩
      · show encPhi (bufs.foldl webm_cb _) = _
        rw [h1.1, ss_bump_phi]
        rfl
      · show (bufs.foldl webm_cb _).oggserial = _
        rw [h2.2.2.2.2.2.1]
        show e.oggserial = e.oggserial + webmBump (WebmEvent.audio n bufs)
        simp [webmBump]
  | retag h tr =>
      cases h with
      | nil => exact absurd rfl hok
      | cons b hrest =>
          have ht := enc_write_trailer_phi webm_cb webm_cb_ok e tr hL
          have hts := enc_write_trailer_statics webm_cb webm_cb_ok e tr
          have hh := enc_write_header_phi webm_cb webm_cb_ok
            (enc_write_trailer webm_cb e tr) b hrest ht.2.1 ht.2.2
          have hhs := enc_write_header_statics webm_cb webm_cb_ok
            (enc_write_trailer webm_cb e tr) (b :: hrest)
          refine ⟨?_, hh.2, ?_, ?_⟩
          · show encPhi (enc_write_header webm_cb _ _) = _
            rw [hh.1, ht.1]
            show encPhi e = encPhi e +
              ((evSamples (WebmEvent.retag (b :: hrest) tr) : Rat)) / _
            unfold evSamples
            simp
          · show (enc_write_header webm_cb _ _).target_samplerate = _
            rw [hhs.2.1, hts.2.1]
          · show (enc_write_header webm_cb _ _).oggserial = _
            rw [hhs.2.2.2.2.2.1, hts.2.2.2.2.2.1]
            rfl
  | flush h tr =>
      cases h with
      | nil => exact absurd rfl hok
      | cons b hrest =>
          have ht := enc_write_trailer_phi webm_cb webm_cb_ok e tr hL
          have hts := enc_write_trailer_statics webm_cb webm_cb_ok e tr
          have hh := enc_write_header_phi webm_cb webm_cb_ok
            (enc_write_trailer webm_cb e tr) b hrest ht.2.1 ht.2.2
          have hhs := enc_write_header_statics webm_cb webm_cb_ok
            (enc_write_trailer webm_cb e tr) (b :: hrest)
          refine ⟨?_, hh.2, ?_, ?_⟩
          · show encPhi (enc_write_header webm_cb _ _) = _
            rw [hh.1, ht.1]
            show encPhi e = encPhi e +
              ((evSamples (WebmEvent.flush (b :: hrest) tr) : Rat)) / _
            unfold evSamples
            simp
          · show (enc_write_header webm_cb _ _).target_samplerate = _
            rw [hhs.2.1, hts.2.1]
          · show (enc_write_header webm_cb _ _).oggserial = _
            rw [hhs.2.2.2.2.2.1, hts.2.2.2.2.2.1]
            rfl

theorem webm_run_phi (evs : List WebmEvent) (e : LavEnc) (hL : LInv e)
    (hok : ∀ ev ∈ evs, webmRetagOk ev) :
    encPhi (webm_run e evs) =
      encPhi e + webmDur (e.target_samplerate : Rat) evs ∧
    LInv (webm_run e evs) ∧
    (webm_run e evs).target_samplerate = e.target_samplerate ∧
    (webm_run e evs).oggserial = e.oggserial + webmBumps evs := by
  induction evs generalizing e with
  | nil =>
      refine ⟨?_, hL, rfl, ?_⟩
      · show encPhi e = encPhi e + webmDur _ []
        unfold webmDur
        simp
      · show e.oggserial = e.oggserial + webmBumps []
        unfold webmBumps
        simp
  | cons ev rest ih =>
      have h1 := webm_event_phi e ev hL (hok ev (List.mem_cons_self ev rest))
      have h2 := ih (webm_event_step e ev) h1.2.1
        (fun x hx => hok x (List.mem_cons_of_mem ev hx))
      have hstep : webm_run e (ev :: rest) =
          webm_run (webm_event_step e ev) rest := rfl
      rw [hstep]
      refine ⟨?_, h2.2.1, ?_, ?_⟩
      · rw [h2.1, h1.1, h1.2.2.1]
        unfold webmDur
        simp only [List.map_cons, List.sum_cons]
        ring
      · rw [h2.2.2.1, h1.2.2.1]
      · rw [h2.2.2.2, h1.2.2.2]
        unfold webmBumps
        simp only [List.map_cons, List.sum_cons]
        omega

theorem enc_write_header_phi_empty (cb : LavEnc → List Nat → LavEnc)
    (hcb : CbOk cb) (e : LavEnc) (b : List Nat) (rest : List (List Nat))
    (hem : e.emitted = []) :
    encPhi (enc_write_header cb e (b :: rest)) = 0 ∧
    LInv (enc_write_header cb e (b :: rest)) := by
  unfold enc_write_header
  dsimp only
  have hk := foldCb_phi_from_empty cb hcb b rest
    { e with oggserial := e.oggserial + 1, serial_samples := 0,
             packet_flags := PF_HEADER.union PF_INITIAL } hem
  exact ⟨hk.1, hk.2⟩

/-- Master duration formula for a WebM session: the inter-packet delta sum
of the whole emitted stream equals the total pulled audio over the sample
rate, retags and flushes notwithstanding. -/
theorem webm_session_D (e0 : LavEnc) (hdr : List (List Nat))
    (evs : List WebmEvent) (tr : List (List Nat)) (hem : e0.emitted = [])
    (hhdr : hdr ≠ []) (hok : ∀ ev ∈ evs, webmRetagOk ev) :
    interDeltaSum (webm_session e0 hdr evs tr).emitted =
      webmDur (e0.target_samplerate : Rat) evs := by
  cases hdr with
  | nil => exact absurd rfl hhdr
  | cons b hrest =>
      have hh := enc_write_header_phi_empty webm_cb webm_cb_ok e0 b hrest hem
      have hhs := enc_write_header_statics webm_cb webm_cb_ok e0 (b :: hrest)
      have hr := webm_run_phi evs (enc_write_header webm_cb e0 (b :: hrest))
        hh.2 hok
      have ht := enc_write_trailer_phi webm_cb webm_cb_ok
        (webm_run (enc_write_header webm_cb e0 (b :: hrest)) evs) tr hr.2.1
      show interDeltaSum (enc_write_trailer webm_cb _ tr).emitted = _
      have hD : interDeltaSum (enc_write_trailer webm_cb
          (webm_run (enc_write_header webm_cb e0 (b :: hrest)) evs)
          tr).emitted =
          encPhi (enc_write_trailer webm_cb
            (webm_run (enc_write_header webm_cb e0 (b :: hrest)) evs) tr) := by
        unfold encPhi
        rw [ht.2.2]
        ring
      rw [hD, ht.1, hr.1, hh.1, hhs.2.1]
      ring

theorem enc_write_packet_countHI (e : LavEnc) (buf : List Nat) (size : Nat)
    (pf : PacketFlags) :
    countHI (enc_write_packet e buf size pf).emitted =
      countHI e.emitted +
        (if ((e.const_packet_flags.union e.packet_flags).union pf).pfHeader &&
            ((e.const_packet_flags.union e.packet_flags).union pf).pfInitial
          then 1 else 0) := by
  rw [enc_write_packet_emitted, countHI_append]
  rfl

theorem enc_write_packet_countHI_noheader (e : LavEnc) (buf : List Nat)
    (size : Nat) (pf : PacketFlags)
    (h1 : e.const_packet_flags.pfHeader = false)
    (h2 : e.packet_flags.pfHeader = false) (h3 : pf.pfHeader = false) :
    countHI (enc_write_packet e buf size pf).emitted = countHI e.emitted := by
  rw [enc_write_packet_countHI]
  have : ((e.const_packet_flags.union e.packet_flags).union pf).pfHeader =
      false := by
    simp [PacketFlags.union, h1, h2, h3]
  rw [this]
  simp

theorem enc_write_packet_countHI_noinitial (e : LavEnc) (buf : List Nat)
    (size : Nat) (pf : PacketFlags)
    (h1 : e.const_packet_flags.pfInitial = false)
    (h2 : e.packet_flags.pfInitial = false) (h3 : pf.pfInitial = false) :
    countHI (enc_write_packet e buf size pf).emitted = countHI e.emitted := by
  rw [enc_write_packet_countHI]
  have : ((e.const_packet_flags.union e.packet_flags).union pf).pfInitial =
      false := by
    simp [PacketFlags.union, h1, h2, h3]
  rw [this]
  simp

theorem foldCb_countHI_noheader (cb : LavEnc → List Nat → LavEnc)
    (hcb : CbOk cb) (bufs : List (List Nat)) (e : LavEnc)
    (h1 : e.const_packet_flags.pfHeader = false)
    (h2 : e.packet_flags.pfHeader = false) :
    countHI (bufs.foldl cb e).emitted = countHI e.emitted := by
  induction bufs generalizing e with
  | nil => rfl
  | cons b rest ih =>
      obtain ⟨data, size, hb⟩ := hcb e b
      have hst := enc_write_packet_statics e data size PacketFlags.unset
      have hh2 : (cb e b).packet_flags.pfHeader = false := by
        rw [hb, hst.2.2.2.2.2.2.2]
        exact h2
      have hh1 : (cb e b).const_packet_flags.pfHeader = false := by
        rw [hb, hst.2.2.2.1]
        exact h1
      rw [List.foldl_cons, ih (cb e b) hh1 hh2, hb,
        enc_write_packet_countHI_noheader e data size PacketFlags.unset h1 h2
          rfl]

theorem foldCb_countHI_noinitial (cb : LavEnc → List Nat → LavEnc)
    (hcb : CbOk cb) (bufs : List (List Nat)) (e : LavEnc)
    (h1 : e.const_packet_flags.pfInitial = false)
    (h2 : e.packet_flags.pfInitial = false) :
    countHI (bufs.foldl cb e).emitted = countHI e.emitted := by
  induction bufs generalizing e with
  | nil => rfl
  | cons b rest ih =>
      obtain ⟨data, size, hb⟩ := hcb e b
      have hst := enc_write_packet_statics e data size PacketFlags.unset
      have hh2 : (cb e b).packet_flags.pfInitial = false := by
        rw [hb, hst.2.2.2.2.2.2.2]
      have hh1 : (cb e b).const_packet_flags.pfInitial = false := by
        rw [hb, hst.2.2.2.1]
        exact h1
      rw [List.foldl_cons, ih (cb e b) hh1 hh2, hb,
        enc_write_packet_countHI_noinitial e data size PacketFlags.unset h1 h2
          rfl]

theorem header_fold_countHI (cb : LavEnc → List Nat → LavEnc)
    (hcb : CbOk cb) (e e1 : LavEnc) (b : List Nat) (rest : List (List Nat))
    (hem : e1.emitted = e.emitted)
    (hflags : e1.packet_flags = PF_HEADER.union PF_INITIAL)
    (hconst : e1.const_packet_flags = e.const_packet_flags)
    (h2 : e.const_packet_flags.pfInitial = false) :
    countHI (((b :: rest).foldl cb e1)).emitted = countHI e.emitted + 1 := by
  obtain ⟨data, size, hb⟩ := hcb e1 b
  have hst := enc_write_packet_statics e1 data size PacketFlags.unset
  have hcnt1 : countHI (cb e1 b).emitted = countHI e.emitted + 1 := by
    rw [hb, enc_write_packet_countHI]
    have hflag :
        ((e1.const_packet_flags.union e1.packet_flags).union
          PacketFlags.unset).pfHeader = true ∧
        ((e1.const_packet_flags.union e1.packet_flags).union
          PacketFlags.unset).pfInitial = true := by
      rw [hflags]
      constructor <;>
        simp [PacketFlags.union, PF_HEADER, PF_INITIAL, PacketFlags.unset]
    rw [hflag.1, hflag.2, hem]
    rfl
  have hini : (cb e1 b).packet_flags.pfInitial = false := by
    rw [hb, hst.2.2.2.2.2.2.2]
  have hco : (cb e1 b).const_packet_flags.pfInitial = false := by
    rw [hb, hst.2.2.2.1, hconst]
    exact h2
  rw [List.foldl_cons,
    foldCb_countHI_noinitial cb hcb rest (cb e1 b) hco hini, hcnt1]

theorem enc_write_header_countHI (cb : LavEnc → List Nat → LavEnc)
    (hcb : CbOk cb) (e : LavEnc) (bufs : List (List Nat))
    (_h1 : e.const_packet_flags.pfHeader = false)
    (h2 : e.const_packet_flags.pfInitial = false) :
    countHI (enc_write_header cb e bufs).emitted =
      countHI e.emitted + (if bufs.isEmpty then 0 else 1) := by
  unfold enc_write_header
  dsimp only
  cases bufs with
  | nil => simp
  | cons b rest =>
      have hk := header_fold_countHI cb hcb e
        { e with oggserial := e.oggserial + 1, serial_samples := 0,
                 packet_flags := PF_HEADER.union PF_INITIAL }
        b rest rfl rfl rfl h2
      rw [hk]
      rfl

theorem enc_write_trailer_countHI (cb : LavEnc → List Nat → LavEnc)
    (hcb : CbOk cb) (e : LavEnc) (tr : List (List Nat))
    (h1 : e.const_packet_flags.pfHeader = false)
    (h2 : e.packet_flags.pfHeader = false) :
    countHI (enc_write_trailer cb e tr).emitted = countHI e.emitted := by
  unfold enc_write_trailer
  dsimp only
  have hfold := foldCb_countHI_noheader cb hcb tr e h1 h2
  have hst := foldCb_statics cb hcb tr e
  have hch : (tr.foldl cb e).const_packet_flags.pfHeader = false := by
    rw [hst.2.2.2.1]
    exact h1
  rw [enc_write_packet_countHI_noheader
    { tr.foldl cb e with packet_flags := PF_FINAL } [] 0 PacketFlags.unset
    hch rfl rfl]
  exact hfold

/-- `HEADER∧INITIAL` packets contributed by one WebM event. -/
def evHI : WebmEvent → Nat
  | WebmEvent.audio _ _ => 0
  | WebmEvent.retag h _ => if h.isEmpty then 0 else 1
  | WebmEvent.flush h _ => if h.isEmpty then 0 else 1

/-- Total `HEADER∧INITIAL` packets contributed by a WebM event list. -/
def webmHIs (evs : List WebmEvent) : Nat := (evs.map evHI).sum

theorem webm_event_countHI (e : LavEnc) (ev : WebmEvent)
    (h1 : e.const_packet_flags.pfHeader = false)
    (h2 : e.const_packet_flags.pfInitial = false)
    (h3 : e.packet_flags.pfHeader = false) :
    countHI (webm_event_step e ev).emitted = countHI e.emitted + evHI ev ∧
    (webm_event_step e ev).packet_flags.pfHeader = false ∧
    (webm_event_step e ev).const_packet_flags = e.const_packet_flags := by
  cases ev with
  | audio n bufs =>
      have hst := foldCb_statics webm_cb webm_cb_ok bufs
        { e with serial_samples := e.serial_samples + n }
      refine ⟨?_, ?_, hst.2.2.2.1⟩
      · show countHI (bufs.foldl webm_cb _).emitted = _
        rw [foldCb_countHI_noheader webm_cb webm_cb_ok bufs
          { e with serial_samples := e.serial_samples + n } h1 h3]
        show countHI e.emitted = countHI e.emitted +
          evHI (WebmEvent.audio n bufs)
        simp [evHI]
      · rcases hst.2.2.2.2.2.2.2 with hfl | hfl <;>
          · show (bufs.foldl webm_cb _).packet_flags.pfHeader = false
            rw [hfl]
            exact h3
  | retag h tr =>
      have htc := enc_write_trailer_countHI webm_cb webm_cb_ok e tr h1 h3
      have hts := enc_write_trailer_statics webm_cb webm_cb_ok e tr
      have hhc := enc_write_header_countHI webm_cb webm_cb_ok
        (enc_write_trailer webm_cb e tr) h
        (by rw [hts.2.2.2.1]; exact h1) (by rw [hts.2.2.2.1]; exact h2)
      have hhs := enc_write_header_statics webm_cb webm_cb_ok
        (enc_write_trailer webm_cb e tr) h
      refine ⟨?_, hhs.2.2.2.2.2.2.2, ?_⟩
      · show countHI (enc_write_header webm_cb _ _).emitted = _
        rw [hhc, htc]
        rfl
      · show (enc_write_header webm_cb _ _).const_packet_flags = _
        rw [hhs.2.2.2.1, hts.2.2.2.1]
  | flush h tr =>
      have htc := enc_write_trailer_countHI webm_cb webm_cb_ok e tr h1 h3
      have hts := enc_write_trailer_statics webm_cb webm_cb_ok e tr
      have hhc := enc_write_header_countHI webm_cb webm_cb_ok
        (enc_write_trailer webm_cb e tr) h
        (by rw [hts.2.2.2.1]; exact h1) (by rw [hts.2.2.2.1]; exact h2)
      have hhs := enc_write_header_statics webm_cb webm_cb_ok
        (enc_write_trailer webm_cb e tr) h
      refine ⟨?_, hhs.2.2.2.2.2.2.2, ?_⟩
      · show countHI (enc_write_header webm_cb _ _).emitted = _
        rw [hhc, htc]
        rfl
      · show (enc_write_header webm_cb _ _).const_packet_flags = _
        rw [hhs.2.2.2.1, hts.2.2.2.1]

theorem webm_run_countHI (evs : List WebmEvent) (e : LavEnc)
    (h1 : e.const_packet_flags.pfHeader = false)
    (h2 : e.const_packet_flags.pfInitial = false)
    (h3 : e.packet_flags.pfHeader = false) :
    countHI (webm_run e evs).emitted = countHI e.emitted + webmHIs evs ∧
    (webm_run e evs).packet_flags.pfHeader = false ∧
    (webm_run e evs).const_packet_flags = e.const_packet_flags := by
  induction evs generalizing e with
  | nil =>
      refine ⟨?_, h3, rfl⟩
      show countHI e.emitted = countHI e.emitted + webmHIs []
      simp [webmHIs]
  | cons ev rest ih =>
      have h4 := webm_event_countHI e ev h1 h2 h3
      have h5 := ih (webm_event_step e ev)
        (by rw [h4.2.2]; exact h1) (by rw [h4.2.2]; exact h2) h4.2.1
      have hstep : webm_run e (ev :: rest) =
          webm_run (webm_event_step e ev) rest := rfl
      rw [hstep]
      refine ⟨?_, h5.2.1, h5.2.2.trans h4.2.2⟩
      rw [h5.1, h4.1]
      unfold webmHIs
      simp only [List.map_cons, List.sum_cons]
      omega

/-- Master `HEADER∧INITIAL` count for a WebM session. -/
theorem webm_session_countHI (e0 : LavEnc) (hdr : List (List Nat))
    (evs : List WebmEvent) (tr : List (List Nat))
    (h1 : e0.const_packet_flags.pfHeader = false)
    (h2 : e0.const_packet_flags.pfInitial = false) :
    countHI (webm_session e0 hdr evs tr).emitted =
      countHI e0.emitted + (if hdr.isEmpty then 0 else 1) + webmHIs evs := by
  have hhc := enc_write_header_countHI webm_cb webm_cb_ok e0 hdr h1 h2
  have hhs := enc_write_header_statics webm_cb webm_cb_ok e0 hdr
  have hrc := webm_run_countHI evs (enc_write_header webm_cb e0 hdr)
    (by rw [hhs.2.2.2.1]; exact h1) (by rw [hhs.2.2.2.1]; exact h2)
    hhs.2.2.2.2.2.2.2
  have hrun := webm_run_countHI evs (enc_write_header webm_cb e0 hdr)
  have htc := enc_write_trailer_countHI webm_cb webm_cb_ok
    (webm_run (enc_write_header webm_cb e0 hdr) evs) tr
    (by rw [hrc.2.2, hhs.2.2.2.1]; exact h1) hrc.2.1
  show countHI (enc_write_trailer webm_cb _ tr).emitted = _
  rw [htc, hrc.1, hhc]

/-- The serial increment performed by one WebM main-loop event (no
invariants needed). -/
theorem webm_event_serial (e : LavEnc) (ev : WebmEvent) :
    (webm_event_step e ev).oggserial = e.oggserial + webmBump ev := by
  cases ev with
  | audio n bufs =>
      have hst := foldCb_statics webm_cb webm_cb_ok bufs
        { e with serial_samples := e.serial_samples + n }
      show (bufs.foldl webm_cb _).oggserial = _
      rw [hst.2.2.2.2.2.1]
      simp [webmBump]
  | retag h tr =>
      have hts := enc_write_trailer_statics webm_cb webm_cb_ok e tr
      have hhs := enc_write_header_statics webm_cb webm_cb_ok
        (enc_write_trailer webm_cb e tr) h
      show (enc_write_header webm_cb _ _).oggserial = _
      rw [hhs.2.2.2.2.2.1, hts.2.2.2.2.2.1]
      rfl
  | flush h tr =>
      have hts := enc_write_trailer_statics webm_cb webm_cb_ok e tr
      have hhs := enc_write_header_statics webm_cb webm_cb_ok
        (enc_write_trailer webm_cb e tr) h
      show (enc_write_header webm_cb _ _).oggserial = _
      rw [hhs.2.2.2.2.2.1, hts.2.2.2.2.2.1]
      rfl

/-- Samples pulled by one AAC main-loop event. -/
def aacSamples : AacEvent → Nat
  | AacEvent.audio n _ => n
  | AacEvent.meta _ => 0

/-- Total logical audio duration pulled by an AAC event list. -/
def aacDur (r : Rat) (evs : List AacEvent) : Rat :=
  (evs.map (fun ev => (aacSamples ev : Rat) / r)).sum

theorem foldCb_flags_false (cb : LavEnc → List Nat → LavEnc)
    (hcb : CbOk cb) (bufs : List (List Nat)) (e : LavEnc)
    (hi : e.packet_flags.pfInitial = false)
    (hf : e.packet_flags.pfFinal = false) :
    (bufs.foldl cb e).packet_flags.pfInitial = false ∧
    (bufs.foldl cb e).packet_flags.pfFinal = false := by
  rcases (foldCb_statics cb hcb bufs e).2.2.2.2.2.2.2 with h | h
  · rw [h]
    exact ⟨hi, hf⟩
  · rw [h]
    exact ⟨rfl, hf⟩

theorem aac_event_phi (e : LavEnc) (ev : AacEvent) (hL : LInv e)
    (hi : e.packet_flags.pfInitial = false)
    (hf : e.packet_flags.pfFinal = false) :
    encPhi (aac_event_step e ev) =
      encPhi e + (aacSamples ev : Rat) / (e.target_samplerate : Rat) ∧
    LInv (aac_event_step e ev) ∧
    (aac_event_step e ev).target_samplerate = e.target_samplerate ∧
    (aac_event_step e ev).oggserial = e.oggserial ∧
    (aac_event_step e ev).packet_flags.pfInitial = false ∧
    (aac_event_step e ev).packet_flags.pfFinal = false := by
  cases ev with
  | audio n bufs =>
      obtain ⟨p, hp, hs⟩ := hL
      have hL2 : LInv { e with serial_samples := e.serial_samples + n } :=
        ⟨p, hp, hs⟩
      have h1 := foldCb_phi aac_write_packet_wrapper aac_cb_ok bufs
        { e with serial_samples := e.serial_samples + n } hL2
      have h2 := foldCb_statics aac_write_packet_wrapper aac_cb_ok bufs
        { e with serial_samples := e.serial_samples + n }
      have h3 := foldCb_flags_false aac_write_packet_wrapper aac_cb_ok bufs
        { e with serial_samples := e.serial_samples + n } hi hf
      refine ⟨?_, h1.2, h2.2.1, h2.2.2.2.2.2.1, h3.1, h3.2⟩
      show encPhi (bufs.foldl aac_write_packet_wrapper _) = _
      rw [h1.1, ss_bump_phi]
      rfl
  | meta mdata =>
      have hcond : (e.packet_flags.pfInitial || e.packet_flags.pfFinal) =
          false := by rw [hi, hf]; rfl
      have hstep : aac_event_step e (AacEvent.meta mdata) =
          enc_write_packet e mdata mdata.length PF_METADATA := by
        unfold aac_event_step
        rw [hcond]
        rfl
      have hst := enc_write_packet_statics e mdata mdata.length PF_METADATA
      rw [hstep]
      refine ⟨?_, (enc_write_packet_LInv e mdata mdata.length PF_METADATA).1,
        hst.2.1, hst.2.2.2.2.2.1, ?_, ?_⟩
      · rw [enc_write_packet_phi e mdata mdata.length PF_METADATA hL]
        show encPhi e = encPhi e +
          (aacSamples (AacEvent.meta mdata) : Rat) / _
        simp [aacSamples]
      · rw [hst.2.2.2.2.2.2.2]
      · rw [hst.2.2.2.2.2.2.2]
        exact hf

theorem aac_run_phi (evs : List AacEvent) (e : LavEnc) (hL : LInv e)
    (hi : e.packet_flags.pfInitial = false)
    (hf : e.packet_flags.pfFinal = false) :
    encPhi (aac_run e evs) =
      encPhi e + aacDur (e.target_samplerate : Rat) evs ∧
    LInv (aac_run e evs) ∧
    (aac_run e evs).target_samplerate = e.target_samplerate ∧
    (aac_run e evs).oggserial = e.oggserial ∧
    (aac_run e evs).packet_flags.pfInitial = false ∧
    (aac_run e evs).packet_flags.pfFinal = false := by
  induction evs generalizing e with
  | nil =>
      refine ⟨?_, hL, rfl, rfl, hi, hf⟩
      show encPhi e = encPhi e + aacDur _ []
      unfold aacDur
      simp
  | cons ev rest ih =>
      have h1 := aac_event_phi e ev hL hi hf
      have h2 := ih (aac_event_step e ev) h1.2.1 h1.2.2.2.2.1 h1.2.2.2.2.2
      have hstep : aac_run e (ev :: rest) =
          aac_run (aac_event_step e ev) rest := rfl
      rw [hstep]
      refine ⟨?_, h2.2.1, h2.2.2.1.trans h1.2.2.1,
        h2.2.2.2.1.trans h1.2.2.2.1, h2.2.2.2.2.1, h2.2.2.2.2.2⟩
      rw [h2.1, h1.1, h1.2.2.1]
      unfold aacDur
      simp only [List.map_cons, List.sum_cons]
      ring

/-- The first audio event from a fresh (nothing-emitted) state: the fold from
empty resets the pending delta, clears `PF_INITIAL`, and establishes the
last-packet invariant. -/
theorem aac_first_audio (e : LavEnc) (n : Nat) (b : List Nat)
    (bs : List (List Nat)) (hem : e.emitted = [])
    (hf : e.packet_flags.pfFinal = false) :
    encPhi (aac_event_step e (AacEvent.audio n (b :: bs))) = 0 ∧
    LInv (aac_event_step e (AacEvent.audio n (b :: bs))) ∧
    (aac_event_step e (AacEvent.audio n (b :: bs))).target_samplerate =
      e.target_samplerate ∧
    (aac_event_step e (AacEvent.audio n (b :: bs))).oggserial = e.oggserial ∧
    (aac_event_step e
      (AacEvent.audio n (b :: bs))).packet_flags.pfInitial = false ∧
    (aac_event_step e
      (AacEvent.audio n (b :: bs))).packet_flags.pfFinal = false := by
  have h1 := foldCb_phi_from_empty aac_write_packet_wrapper aac_cb_ok b bs
    { e with serial_samples := e.serial_samples + n } hem
  have h2 := foldCb_statics aac_write_packet_wrapper aac_cb_ok (b :: bs)
    { e with serial_samples := e.serial_samples + n }
  refine ⟨h1.1, h1.2, h2.2.1, h2.2.2.2.2.2.1, ?_⟩
  have hb := aac_cb_ok { e with serial_samples := e.serial_samples + n } b
  obtain ⟨data, size, hcb⟩ := hb
  have hone := enc_write_packet_statics
    { e with serial_samples := e.serial_samples + n } data size
    PacketFlags.unset
  have hini : (aac_write_packet_wrapper
      { e with serial_samples := e.serial_samples + n }
      b).packet_flags.pfInitial = false := by
    rw [hcb, hone.2.2.2.2.2.2.2]
  have hfin : (aac_write_packet_wrapper
      { e with serial_samples := e.serial_samples + n }
      b).packet_flags.pfFinal = false := by
    rw [hcb, hone.2.2.2.2.2.2.2]
    exact hf
  have h3 := foldCb_flags_false aac_write_packet_wrapper aac_cb_ok bs
    (aac_write_packet_wrapper
      { e with serial_samples := e.serial_samples + n } b) hini hfin
  exact h3

/-- Master duration formula for an AAC (ADTS) session: no header bytes are
emitted, so the inter-packet delta sum counts the audio pulled after the
first audio event; metadata events contribute nothing. -/
theorem aac_session_D (e0 : LavEnc) (n : Nat) (b : List Nat)
    (bs : List (List Nat)) (evs : List AacEvent) (tr : List (List Nat))
    (hem : e0.emitted = []) :
    interDeltaSum (aac_session e0 []
        (AacEvent.audio n (b :: bs) :: evs) tr).emitted =
      aacDur (e0.target_samplerate : Rat) evs := by
  have hhdr : enc_write_header aac_write_packet_wrapper e0 [] =
      { e0 with oggserial := e0.oggserial + 1, serial_samples := 0,
                packet_flags :=
                  { PF_HEADER.union PF_INITIAL with pfHeader := false } } :=
    rfl
  have h1 := aac_first_audio (enc_write_header aac_write_packet_wrapper e0 [])
    n b bs (by rw [hhdr]; exact hem) (by rw [hhdr]; rfl)
  have h2 := aac_run_phi evs
    (aac_event_step (enc_write_header aac_write_packet_wrapper e0 [])
      (AacEvent.audio n (b :: bs))) h1.2.1 h1.2.2.2.2.1 h1.2.2.2.2.2
  have ht := enc_write_trailer_phi aac_write_packet_wrapper aac_cb_ok
    (aac_run (aac_event_step (enc_write_header aac_write_packet_wrapper e0 [])
      (AacEvent.audio n (b :: bs))) evs) tr h2.2.1
  have hsession : aac_session e0 [] (AacEvent.audio n (b :: bs) :: evs) tr =
      enc_write_trailer aac_write_packet_wrapper
        (aac_run (aac_event_step
          (enc_write_header aac_write_packet_wrapper e0 [])
          (AacEvent.audio n (b :: bs))) evs) tr := rfl
  rw [hsession]
  have hD : interDeltaSum (enc_write_trailer aac_write_packet_wrapper
      (aac_run (aac_event_step
        (enc_write_header aac_write_packet_wrapper e0 [])
        (AacEvent.audio n (b :: bs))) evs) tr).emitted =
      encPhi (enc_write_trailer aac_write_packet_wrapper
        (aac_run (aac_event_step
          (enc_write_header aac_write_packet_wrapper e0 [])
          (AacEvent.audio n (b :: bs))) evs) tr) := by
    unfold encPhi
    rw [ht.2.2]
    ring
  rw [hD, ht.1, h2.1, h1.1, h1.2.2.1]
  have hrate : (enc_write_header aac_write_packet_wrapper
      e0 []).target_samplerate = e0.target_samplerate := rfl
  rw [hrate]
  ring

theorem aac_event_countHI (e : LavEnc) (ev : AacEvent)
    (h1 : e.const_packet_flags.pfHeader = false)
    (h3 : e.packet_flags.pfHeader = false) :
    countHI (aac_event_step e ev).emitted = countHI e.emitted ∧
    (aac_event_step e ev).packet_flags.pfHeader = false ∧
    (aac_event_step e ev).const_packet_flags = e.const_packet_flags := by
  cases ev with
  | audio n bufs =>
      have hst := foldCb_statics aac_write_packet_wrapper aac_cb_ok bufs
        { e with serial_samples := e.serial_samples + n }
      refine ⟨?_, ?_, hst.2.2.2.1⟩
      · show countHI (bufs.foldl aac_write_packet_wrapper _).emitted = _
        exact foldCb_countHI_noheader aac_write_packet_wrapper aac_cb_ok bufs
          { e with serial_samples := e.serial_samples + n } h1 h3
      · rcases hst.2.2.2.2.2.2.2 with hfl | hfl <;>
          · show (bufs.foldl aac_write_packet_wrapper _).packet_flags.pfHeader
              = false
            rw [hfl]
            exact h3
  | meta mdata =>
      unfold aac_event_step
      cases hc : e.packet_flags.pfInitial || e.packet_flags.pfFinal with
      | true => exact ⟨rfl, h3, rfl⟩
      | false =>
          have hred : (if (false = true) then e else
              enc_write_packet e mdata mdata.length PF_METADATA) =
              enc_write_packet e mdata mdata.length PF_METADATA := rfl
          dsimp only
          rw [hred]
          have hst := enc_write_packet_statics e mdata mdata.length
            PF_METADATA
          refine ⟨?_, ?_, hst.2.2.2.1⟩
          · exact enc_write_packet_countHI_noheader e mdata mdata.length
              PF_METADATA h1 h3 rfl
          · rw [hst.2.2.2.2.2.2.2]
            exact h3

theorem aac_run_countHI (evs : List AacEvent) (e : LavEnc)
    (h1 : e.const_packet_flags.pfHeader = false)
    (h3 : e.packet_flags.pfHeader = false) :
    countHI (aac_run e evs).emitted = countHI e.emitted ∧
    (aac_run e evs).packet_flags.pfHeader = false ∧
    (aac_run e evs).const_packet_flags = e.const_packet_flags := by
  induction evs generalizing e with
  | nil => exact ⟨rfl, h3, rfl⟩
  | cons ev rest ih =>
      have h4 := aac_event_countHI e ev h1 h3
      have h5 := ih (aac_event_step e ev) (by rw [h4.2.2]; exact h1) h4.2.1
      have hstep : aac_run e (ev :: rest) =
          aac_run (aac_event_step e ev) rest := rfl
      rw [hstep]
      exact ⟨h5.1.trans h4.1, h5.2.1, h5.2.2.trans h4.2.2⟩

/-- An ADTS (headerless) AAC session never emits a `HEADER∧INITIAL` packet
beyond whatever the starting stream already contains. -/
theorem aac_session_countHI (e0 : LavEnc) (evs : List AacEvent)
    (tr : List (List Nat))
    (h1 : e0.const_packet_flags.pfHeader = false) :
    countHI (aac_session e0 [] evs tr).emitted = countHI e0.emitted := by
  have hhdr : enc_write_header aac_write_packet_wrapper e0 [] =
      { e0 with oggserial := e0.oggserial + 1, serial_samples := 0,
                packet_flags :=
                  { PF_HEADER.union PF_INITIAL with pfHeader := false } } :=
    rfl
  have hr := aac_run_countHI evs (enc_write_header aac_write_packet_wrapper
    e0 []) (by rw [hhdr]; exact h1) (by rw [hhdr])
  have ht := enc_write_trailer_countHI aac_write_packet_wrapper aac_cb_ok
    (aac_run (enc_write_header aac_write_packet_wrapper e0 []) evs) tr
    (by rw [hr.2.2, hhdr]; exact h1) hr.2.1
  show countHI (enc_write_trailer aac_write_packet_wrapper _ tr).emitted = _
  rw [ht, hr.1, hhdr]

/-- A passed-guard AAC metadata update emits exactly one packet: flagged
`PF_METADATA`, neither `HEADER` nor `INITIAL`, carrying the unchanged
serial. -/
theorem aac_meta_packet (e : LavEnc) (m : List Nat)
    (hi : e.packet_flags.pfInitial = false)
    (hf : e.packet_flags.pfFinal = false)
    (hch : e.const_packet_flags.pfHeader = false)
    (hci : e.const_packet_flags.pfInitial = false)
    (hph : e.packet_flags.pfHeader = false) :
    (aac_event_step e (AacEvent.meta m)).emitted =
      e.emitted ++ [encPkt e m m.length PF_METADATA] ∧
    (encPkt e m m.length PF_METADATA).flags.pfMetadata = true ∧
    (encPkt e m m.length PF_METADATA).flags.pfHeader = false ∧
    (encPkt e m m.length PF_METADATA).flags.pfInitial = false ∧
    (encPkt e m m.length PF_METADATA).serial = e.oggserial ∧
    (aac_event_step e (AacEvent.meta m)).oggserial = e.oggserial := by
  have hcond : (e.packet_flags.pfInitial || e.packet_flags.pfFinal) =
      false := by rw [hi, hf]; rfl
  have hstep : aac_event_step e (AacEvent.meta m) =
      enc_write_packet e m m.length PF_METADATA := by
    unfold aac_event_step
    rw [hcond]
    rfl
  rw [hstep]
  refine ⟨enc_write_packet_emitted e m m.length PF_METADATA, ?_, ?_, ?_,
    rfl, (enc_write_packet_statics e m m.length PF_METADATA).2.2.2.2.2.1⟩
  · show ((e.const_packet_flags.union e.packet_flags).union
      PF_METADATA).pfMetadata = true
    simp [PacketFlags.union, PF_METADATA]
  · show ((e.const_packet_flags.union e.packet_flags).union
      PF_METADATA).pfHeader = false
    simp [PacketFlags.union, PF_METADATA, hch, hph]
  · show ((e.const_packet_flags.union e.packet_flags).union
      PF_METADATA).pfInitial = false
    simp [PacketFlags.union, PF_METADATA, hci, hi]

theorem webmHIs_insert (pre post : List WebmEvent) (ev : WebmEvent) :
    webmHIs (pre ++ ev :: post) = webmHIs pre + evHI ev + webmHIs post := by
  unfold webmHIs
  simp [List.map_append]
  omega

theorem webmDur_insert (r : Rat) (pre post : List WebmEvent)
    (ev : WebmEvent) (h : evSamples ev = 0) :
    webmDur r (pre ++ ev :: post) = webmDur r (pre ++ post) := by
  unfold webmDur
  simp [List.map_append, h]

theorem aacDur_insert (r : Rat) (pre post : List AacEvent) (ev : AacEvent)
    (h : aacSamples ev = 0) :
    aacDur r (pre ++ ev :: post) = aacDur r (pre ++ post) := by
  unfold aacDur
  simp [List.map_append, h]

theorem webmHIs_append (l1 l2 : List WebmEvent) :
    webmHIs (l1 ++ l2) = webmHIs l1 + webmHIs l2 := by
  unfold webmHIs
  simp [List.map_append]

/-- A fresh AAC encoder state: `const_packet_flags = PF_AAC`, nothing
emitted, serial 0, sample rate 10 (kept tiny so the session evaluates). -/
def aacE0 : LavEnc :=
  ⟨128, 10, 1, 0, 0, 0, PacketFlags.unset, PF_AAC, 12, []⟩

/-- Event lists for one AAC session with and without a mid-stream metadata
update. -/
def aacEvsMeta : List AacEvent :=
  [AacEvent.audio 10 [[1, 2]], AacEvent.meta [77], AacEvent.audio 10 [[3]]]

/-- The same session without the metadata update. -/
def aacEvsNoMeta : List AacEvent :=
  [AacEvent.audio 10 [[1, 2]], AacEvent.audio 10 [[3]]]

/-- C6 counterexample: an AAC session in which a metadata update occurs
emits no additional `HEADER∧INITIAL` packet and leaves the serial number
unchanged -- the retag behaviour described by the claim is WebM-only.  The
AAC update instead appends exactly one packet (shown by the stream growing
by one packet whose `pfMetadata` flag is set). -/
theorem C6_aac_meta_no_retag :
    countHI (aac_session aacE0 [] aacEvsMeta []).emitted =
      countHI (aac_session aacE0 [] aacEvsNoMeta []).emitted ∧
    (aac_session aacE0 [] aacEvsMeta []).oggserial =
      (aac_session aacE0 [] aacEvsNoMeta []).oggserial ∧
    (aac_session aacE0 [] aacEvsMeta []).emitted.length =
      (aac_session aacE0 [] aacEvsNoMeta []).emitted.length + 1 ∧
    ((aac_session aacE0 [] aacEvsMeta []).emitted[1]?).map
      (fun p => p.flags.pfMetadata) = some true := by
  decide

/-- C6 (amended): a WebM session with a metadata retag carries exactly one
additional `HEADER∧INITIAL` packet, the serial is incremented by exactly 1
at the retag point, and the total inter-packet delta sum is unaffected; an
AAC session instead handles a metadata update (once the initial packet is
out and no final packet is pending) by appending exactly one `PF_METADATA`
packet -- not flagged `HEADER` or `INITIAL` -- with the serial unchanged,
and both the session's `HEADER∧INITIAL` count and its inter-packet delta
sum are unaffected. -/
theorem C6_metadata_retag (e0 : LavEnc) (hdr rh rt tr : List (List Nat))
    (pre post : List WebmEvent)
    (hem : e0.emitted = []) (hhdr : hdr ≠ []) (hrh : rh ≠ [])
    (hch : e0.const_packet_flags.pfHeader = false)
    (hci : e0.const_packet_flags.pfInitial = false)
    (hok : ∀ ev ∈ pre ++ post, webmRetagOk ev)
    (a : LavEnc) (m : List Nat)
    (hai : a.packet_flags.pfInitial = false)
    (haf : a.packet_flags.pfFinal = false)
    (hach : a.const_packet_flags.pfHeader = false)
    (haci : a.const_packet_flags.pfInitial = false)
    (haph : a.packet_flags.pfHeader = false)
    (b0 : LavEnc) (n : Nat) (b : List Nat) (bs : List (List Nat))
    (pre2 post2 : List AacEvent) (m2 : List Nat) (tr2 : List (List Nat))
    (hbem : b0.emitted = [])
    (hbch : b0.const_packet_flags.pfHeader = false) :
    countHI (webm_session e0 hdr
        (pre ++ WebmEvent.retag rh rt :: post) tr).emitted =
      countHI (webm_session e0 hdr (pre ++ post) tr).emitted + 1 ∧
    (webm_run (enc_write_header webm_cb e0 hdr)
        (pre ++ [WebmEvent.retag rh rt])).oggserial =
      (webm_run (enc_write_header webm_cb e0 hdr) pre).oggserial + 1 ∧
    interDeltaSum (webm_session e0 hdr
        (pre ++ WebmEvent.retag rh rt :: post) tr).emitted =
      interDeltaSum (webm_session e0 hdr (pre ++ post) tr).emitted ∧
    (aac_event_step a (AacEvent.meta m)).emitted =
      a.emitted ++ [encPkt a m m.length PF_METADATA] ∧
    (encPkt a m m.length PF_METADATA).flags.pfMetadata = true ∧
    (encPkt a m m.length PF_METADATA).flags.pfHeader = false ∧
    (encPkt a m m.length PF_METADATA).flags.pfInitial = false ∧
    (encPkt a m m.length PF_METADATA).serial = a.oggserial ∧
    (aac_event_step a (AacEvent.meta m)).oggserial = a.oggserial ∧
    countHI (aac_session b0 [] (AacEvent.audio n (b :: bs) ::
        (pre2 ++ AacEvent.meta m2 :: post2)) tr2).emitted =
      countHI (aac_session b0 [] (AacEvent.audio n (b :: bs) ::
        (pre2 ++ post2)) tr2).emitted ∧
    interDeltaSum (aac_session b0 [] (AacEvent.audio n (b :: bs) ::
        (pre2 ++ AacEvent.meta m2 :: post2)) tr2).emitted =
      interDeltaSum (aac_session b0 [] (AacEvent.audio n (b :: bs) ::
        (pre2 ++ post2)) tr2).emitted := by
  have hok2 : ∀ ev ∈ pre ++ WebmEvent.retag rh rt :: post,
      webmRetagOk ev := by
    intro ev hev
    rcases List.mem_append.1 hev with h | h
    · exact hok ev (List.mem_append.2 (Or.inl h))
    · rcases List.mem_cons.1 h with h2 | h2
      · rw [h2]
        exact hrh
      · exact hok ev (List.mem_append.2 (Or.inr h2))
  have hone : evHI (WebmEvent.retag rh rt) = 1 := by
    cases rh with
    | nil => exact absurd rfl hrh
    | cons x xs => rfl
  have hM := aac_meta_packet a m hai haf hach haci haph
  refine ⟨?_, ?_, ?_, hM.1, hM.2.1, hM.2.2.1, hM.2.2.2.1, hM.2.2.2.2.1,
    hM.2.2.2.2.2, ?_, ?_⟩
  · rw [webm_session_countHI e0 hdr _ tr hch hci,
      webm_session_countHI e0 hdr _ tr hch hci,
      webmHIs_insert, webmHIs_append, hone]
    omega
  · have hsplit : webm_run (enc_write_header webm_cb e0 hdr)
        (pre ++ [WebmEvent.retag rh rt]) =
        webm_event_step (webm_run (enc_write_header webm_cb e0 hdr) pre)
          (WebmEvent.retag rh rt) := by
      unfold webm_run
      rw [List.foldl_append]
      rfl
    rw [hsplit, webm_event_serial]
    rfl
  · rw [webm_session_D e0 hdr _ tr hem hhdr hok2,
      webm_session_D e0 hdr _ tr hem hhdr hok,
      webmDur_insert (e0.target_samplerate : Rat) pre post
        (WebmEvent.retag rh rt) rfl]
  · rw [aac_session_countHI b0 _ tr2 hbch, aac_session_countHI b0 _ tr2 hbch]
  · rw [aac_session_D b0 n b bs _ tr2 hbem,
      aac_session_D b0 n b bs _ tr2 hbem,
      aacDur_insert (b0.target_samplerate : Rat) pre2 post2
        (AacEvent.meta m2) rfl]

/-- Concrete instantiation of the amended C6 statement: a one-retag WebM
session and a one-update AAC session at tiny sample rates. -/
theorem C6_metadata_retag_witness :
    countHI (webm_session ⟨128, 10, 1, 0, 0, 0, PacketFlags.unset,
        PF_WEBM, 0, []⟩ [[0]] [WebmEvent.retag [[0]] []] []).emitted =
      countHI (webm_session ⟨128, 10, 1, 0, 0, 0, PacketFlags.unset,
        PF_WEBM, 0, []⟩ [[0]] [] []).emitted + 1 ∧
    (webm_run (enc_write_header webm_cb ⟨128, 10, 1, 0, 0, 0,
        PacketFlags.unset, PF_WEBM, 0, []⟩ [[0]])
        [WebmEvent.retag [[0]] []]).oggserial =
      (webm_run (enc_write_header webm_cb ⟨128, 10, 1, 0, 0, 0,
        PacketFlags.unset, PF_WEBM, 0, []⟩ [[0]]) []).oggserial + 1 ∧
    interDeltaSum (webm_session ⟨128, 10, 1, 0, 0, 0, PacketFlags.unset,
        PF_WEBM, 0, []⟩ [[0]] [WebmEvent.retag [[0]] []] []).emitted =
      interDeltaSum (webm_session ⟨128, 10, 1, 0, 0, 0, PacketFlags.unset,
        PF_WEBM, 0, []⟩ [[0]] [] []).emitted ∧
    (aac_event_step ⟨128, 10, 1, 3, 0, 0, PacketFlags.unset, PF_AAC, 12, []⟩
        (AacEvent.meta [5])).emitted =
      [encPkt ⟨128, 10, 1, 3, 0, 0, PacketFlags.unset, PF_AAC, 12, []⟩
        [5] 1 PF_METADATA] ∧
    (encPkt ⟨128, 10, 1, 3, 0, 0, PacketFlags.unset, PF_AAC, 12, []⟩
        [5] 1 PF_METADATA).flags.pfMetadata = true ∧
    (encPkt ⟨128, 10, 1, 3, 0, 0, PacketFlags.unset, PF_AAC, 12, []⟩
        [5] 1 PF_METADATA).flags.pfHeader = false ∧
    (encPkt ⟨128, 10, 1, 3, 0, 0, PacketFlags.unset, PF_AAC, 12, []⟩
        [5] 1 PF_METADATA).flags.pfInitial = false ∧
    (encPkt ⟨128, 10, 1, 3, 0, 0, PacketFlags.unset, PF_AAC, 12, []⟩
        [5] 1 PF_METADATA).serial = 3 ∧
    (aac_event_step ⟨128, 10, 1, 3, 0, 0, PacketFlags.unset, PF_AAC, 12, []⟩
        (AacEvent.meta [5])).oggserial = 3 ∧
    countHI (aac_session ⟨128, 10, 1, 0, 0, 0, PacketFlags.unset, PF_AAC,
        12, []⟩ [] [AacEvent.audio 1 [[0]], AacEvent.meta [6]] []).emitted =
      countHI (aac_session ⟨128, 10, 1, 0, 0, 0, PacketFlags.unset, PF_AAC,
        12, []⟩ [] [AacEvent.audio 1 [[0]]] []).emitted ∧
    interDeltaSum (aac_session ⟨128, 10, 1, 0, 0, 0, PacketFlags.unset,
        PF_AAC, 12, []⟩ []
        [AacEvent.audio 1 [[0]], AacEvent.meta [6]] []).emitted =
      interDeltaSum (aac_session ⟨128, 10, 1, 0, 0, 0, PacketFlags.unset,
        PF_AAC, 12, []⟩ [] [AacEvent.audio 1 [[0]]] []).emitted :=
  C6_metadata_retag ⟨128, 10, 1, 0, 0, 0, PacketFlags.unset, PF_WEBM, 0, []⟩
    [[0]] [[0]] [] [] [] [] rfl (by decide) (by decide) rfl rfl (by simp)
    ⟨128, 10, 1, 3, 0, 0, PacketFlags.unset, PF_AAC, 12, []⟩ [5]
    rfl rfl rfl rfl rfl
    ⟨128, 10, 1, 0, 0, 0, PacketFlags.unset, PF_AAC, 12, []⟩ 1 [0] []
    [] [] [6] [] rfl rfl

/-- The emitted stream has non-decreasing serials, all bounded by the
encoder's current serial. -/
def SerialMono (e : LavEnc) : Prop :=
  e.emitted.Chain' (fun p q => p.serial ≤ q.serial) ∧
  ∀ p ∈ e.emitted, p.serial ≤ e.oggserial

theorem serialMono_transport (e e1 : LavEnc) (hem : e1.emitted = e.emitted)
    (hser : e1.oggserial = e.oggserial) (h : SerialMono e) :
    SerialMono e1 := by
  obtain ⟨hc, hb⟩ := h
  refine ⟨?_, ?_⟩
  · rw [hem]
    exact hc
  · intro p hp
    rw [hem] at hp
    rw [hser]
    exact hb p hp

theorem serialMono_bump (e e1 : LavEnc) (hem : e1.emitted = e.emitted)
    (hser : e1.oggserial = e.oggserial + 1) (h : SerialMono e) :
    SerialMono e1 := by
  obtain ⟨hc, hb⟩ := h
  refine ⟨?_, ?_⟩
  · rw [hem]
    exact hc
  · intro p hp
    rw [hem] at hp
    rw [hser]
    have := hb p hp
    omega

theorem enc_write_packet_serialMono (e : LavEnc) (buf : List Nat)
    (size : Nat) (pf : PacketFlags) (h : SerialMono e) :
    SerialMono (enc_write_packet e buf size pf) := by
  obtain ⟨hc, hb⟩ := h
  refine ⟨?_, ?_⟩
  · rw [enc_write_packet_emitted]
    refine List.Chain'.append hc (List.chain'_singleton _) ?_
    intro x hx y hy
    have hxm : x ∈ e.emitted := by
      obtain ⟨hne, hxe⟩ := List.mem_getLast?_eq_getLast hx
      rw [hxe]
      exact List.getLast_mem hne
    have hym : y = encPkt e buf size pf := by
      cases hy
      rfl
    rw [hym]
    exact hb x hxm
  · intro p hp
    rw [enc_write_packet_emitted] at hp
    rw [(enc_write_packet_statics e buf size pf).2.2.2.2.2.1]
    rcases List.mem_append.1 hp with h1 | h1
    · exact hb p h1
    · rcases List.mem_singleton.1 h1 with rfl
      exact le_refl _

theorem foldCb_serialMono (cb : LavEnc → List Nat → LavEnc) (hcb : CbOk cb)
    (bufs : List (List Nat)) (e : LavEnc) (h : SerialMono e) :
    SerialMono (bufs.foldl cb e) := by
  induction bufs generalizing e with
  | nil => exact h
  | cons b rest ih =>
      obtain ⟨data, size, hb⟩ := hcb e b
      rw [List.foldl_cons]
      refine ih (cb e b) ?_
      rw [hb]
      exact enc_write_packet_serialMono e data size PacketFlags.unset h

theorem enc_write_header_serialMono (cb : LavEnc → List Nat → LavEnc)
    (hcb : CbOk cb) (e : LavEnc) (bufs : List (List Nat))
    (h : SerialMono e) : SerialMono (enc_write_header cb e bufs) := by
  have h1 : SerialMono
      { e with oggserial := e.oggserial + 1, serial_samples := 0,
               packet_flags := PF_HEADER.union PF_INITIAL } :=
    serialMono_bump e _ rfl rfl h
  have h2 := foldCb_serialMono cb hcb bufs _ h1
  exact serialMono_transport _ _ rfl rfl h2

theorem enc_write_trailer_serialMono (cb : LavEnc → List Nat → LavEnc)
    (hcb : CbOk cb) (e : LavEnc) (tr : List (List Nat))
    (h : SerialMono e) : SerialMono (enc_write_trailer cb e tr) := by
  have h1 := foldCb_serialMono cb hcb tr e h
  have h2 : SerialMono { tr.foldl cb e with packet_flags := PF_FINAL } :=
    serialMono_transport _ _ rfl rfl h1
  have h3 := enc_write_packet_serialMono
    { tr.foldl cb e with packet_flags := PF_FINAL } [] 0
    PacketFlags.unset h2
  exact serialMono_transport _ _ rfl rfl h3

theorem webm_event_serialMono (e : LavEnc) (ev : WebmEvent)
    (h : SerialMono e) : SerialMono (webm_event_step e ev) := by
  cases ev with
  | audio n bufs =>
      have h1 : SerialMono { e with
          serial_samples := e.serial_samples + n } :=
        serialMono_transport e _ rfl rfl h
      exact foldCb_serialMono webm_cb webm_cb_ok bufs _ h1
  | retag hd tr =>
      exact enc_write_header_serialMono webm_cb webm_cb_ok _ hd
        (enc_write_trailer_serialMono webm_cb webm_cb_ok e tr h)
  | flush hd tr =>
      exact enc_write_header_serialMono webm_cb webm_cb_ok _ hd
        (enc_write_trailer_serialMono webm_cb webm_cb_ok e tr h)

theorem webm_run_serialMono (evs : List WebmEvent) (e : LavEnc)
    (h : SerialMono e) : SerialMono (webm_run e evs) := by
  induction evs generalizing e with
  | nil => exact h
  | cons ev rest ih => exact ih _ (webm_event_serialMono e ev h)

theorem aac_event_serialMono (e : LavEnc) (ev : AacEvent)
    (h : SerialMono e) : SerialMono (aac_event_step e ev) := by
  cases ev with
  | audio n bufs =>
      have h1 : SerialMono { e with
          serial_samples := e.serial_samples + n } :=
        serialMono_transport e _ rfl rfl h
      exact foldCb_serialMono aac_write_packet_wrapper aac_cb_ok bufs _ h1
  | meta mdata =>
      unfold aac_event_step
      cases hc : e.packet_flags.pfInitial || e.packet_flags.pfFinal with
      | true => exact h
      | false =>
          have hred : (if (false = true) then e else
              enc_write_packet e mdata mdata.length PF_METADATA) =
              enc_write_packet e mdata mdata.length PF_METADATA := rfl
          dsimp only
          rw [hred]
          exact enc_write_packet_serialMono e mdata mdata.length
            PF_METADATA h

theorem aac_run_serialMono (evs : List AacEvent) (e : LavEnc)
    (h : SerialMono e) : SerialMono (aac_run e evs) := by
  induction evs generalizing e with
  | nil => exact h
  | cons ev rest ih => exact ih _ (aac_event_serialMono e ev h)

theorem serialMono_empty (e : LavEnc) (hem : e.emitted = []) :
    SerialMono e := by
  refine ⟨?_, ?_⟩
  · rw [hem]
    exact List.chain'_nil
  · intro p hp
    rw [hem] at hp
    cases hp

theorem head_append_of_head {α : Type} (l1 l2 : List α) (p : α)
    (h : l1.head? = some p) : (l1 ++ l2).head? = some p := by
  cases l1 with
  | nil => cases h
  | cons a t => exact h

theorem foldCb_emitted_append (cb : LavEnc → List Nat → LavEnc)
    (hcb : CbOk cb) (bufs : List (List Nat)) (e : LavEnc) :
    ∃ l, (bufs.foldl cb e).emitted = e.emitted ++ l := by
  induction bufs generalizing e with
  | nil => exact ⟨[], (List.append_nil _).symm⟩
  | cons b rest ih =>
      obtain ⟨data, size, hb⟩ := hcb e b
      obtain ⟨l, hl⟩ := ih (cb e b)
      refine ⟨encPkt e data size PacketFlags.unset :: l, ?_⟩
      rw [List.foldl_cons, hl, hb, enc_write_packet_emitted,
        List.append_assoc]
      rfl

theorem enc_write_header_emitted_append (cb : LavEnc → List Nat → LavEnc)
    (hcb : CbOk cb) (e : LavEnc) (bufs : List (List Nat)) :
    ∃ l, (enc_write_header cb e bufs).emitted = e.emitted ++ l := by
  obtain ⟨l, hl⟩ := foldCb_emitted_append cb hcb bufs
    { e with oggserial := e.oggserial + 1, serial_samples := 0,
             packet_flags := PF_HEADER.union PF_INITIAL }
  exact ⟨l, hl⟩

theorem enc_write_trailer_emitted_append (cb : LavEnc → List Nat → LavEnc)
    (hcb : CbOk cb) (e : LavEnc) (tr : List (List Nat)) :
    ∃ l, (enc_write_trailer cb e tr).emitted = e.emitted ++ l := by
  obtain ⟨l, hl⟩ := foldCb_emitted_append cb hcb tr e
  refine ⟨l ++ [encPkt { tr.foldl cb e with packet_flags := PF_FINAL }
    [] 0 PacketFlags.unset], ?_⟩
  show (enc_write_packet { tr.foldl cb e with packet_flags := PF_FINAL }
    [] 0 PacketFlags.unset).emitted = _
  rw [enc_write_packet_emitted]
  show (tr.foldl cb e).emitted ++ _ = _
  rw [hl, List.append_assoc]

theorem webm_event_emitted_append (e : LavEnc) (ev : WebmEvent) :
    ∃ l, (webm_event_step e ev).emitted = e.emitted ++ l := by
  cases ev with
  | audio n bufs =>
      obtain ⟨l, hl⟩ := foldCb_emitted_append webm_cb webm_cb_ok bufs
        { e with serial_samples := e.serial_samples + n }
      exact ⟨l, hl⟩
  | retag hd tr =>
      obtain ⟨l1, hl1⟩ := enc_write_trailer_emitted_append webm_cb
        webm_cb_ok e tr
      obtain ⟨l2, hl2⟩ := enc_write_header_emitted_append webm_cb
        webm_cb_ok (enc_write_trailer webm_cb e tr) hd
      refine ⟨l1 ++ l2, ?_⟩
      show (enc_write_header webm_cb _ hd).emitted = _
      rw [hl2, hl1, List.append_assoc]
  | flush hd tr =>
      obtain ⟨l1, hl1⟩ := enc_write_trailer_emitted_append webm_cb
        webm_cb_ok e tr
      obtain ⟨l2, hl2⟩ := enc_write_header_emitted_append webm_cb
        webm_cb_ok (enc_write_trailer webm_cb e tr) hd
      refine ⟨l1 ++ l2, ?_⟩
      show (enc_write_header webm_cb _ hd).emitted = _
      rw [hl2, hl1, List.append_assoc]

theorem webm_run_emitted_append (evs : List WebmEvent) (e : LavEnc) :
    ∃ l, (webm_run e evs).emitted = e.emitted ++ l := by
  induction evs generalizing e with
  | nil => exact ⟨[], (List.append_nil _).symm⟩
  | cons ev rest ih =>
      obtain ⟨l1, hl1⟩ := webm_event_emitted_append e ev
      obtain ⟨l2, hl2⟩ := ih (webm_event_step e ev)
      refine ⟨l1 ++ l2, ?_⟩
      show (webm_run (webm_event_step e ev) rest).emitted = _
      rw [hl2, hl1, List.append_assoc]

theorem aac_event_emitted_append (e : LavEnc) (ev : AacEvent) :
    ∃ l, (aac_event_step e ev).emitted = e.emitted ++ l := by
  cases ev with
  | audio n bufs =>
      obtain ⟨l, hl⟩ := foldCb_emitted_append aac_write_packet_wrapper
        aac_cb_ok bufs { e with serial_samples := e.serial_samples + n }
      exact ⟨l, hl⟩
  | meta mdata =>
      unfold aac_event_step
      cases hc : e.packet_flags.pfInitial || e.packet_flags.pfFinal with
      | true => exact ⟨[], (List.append_nil _).symm⟩
      | false =>
          have hred : (if (false = true) then e else
              enc_write_packet e mdata mdata.length PF_METADATA) =
              enc_write_packet e mdata mdata.length PF_METADATA := rfl
          dsimp only
          rw [hred]
          exact ⟨[encPkt e mdata mdata.length PF_METADATA],
            enc_write_packet_emitted e mdata mdata.length PF_METADATA⟩

theorem aac_run_emitted_append (evs : List AacEvent) (e : LavEnc) :
    ∃ l, (aac_run e evs).emitted = e.emitted ++ l := by
  induction evs generalizing e with
  | nil => exact ⟨[], (List.append_nil _).symm⟩
  | cons ev rest ih =>
      obtain ⟨l1, hl1⟩ := aac_event_emitted_append e ev
      obtain ⟨l2, hl2⟩ := ih (aac_event_step e ev)
      refine ⟨l1 ++ l2, ?_⟩
      show (aac_run (aac_event_step e ev) rest).emitted = _
      rw [hl2, hl1, List.append_assoc]

/-- The first packet emitted by a nonempty callback fold from a
nothing-emitted state carries the union of the state's flag sets. -/
theorem fold_first_from_empty (cb : LavEnc → List Nat → LavEnc)
    (hcb : CbOk cb) (e1 : LavEnc) (b : List Nat) (bs : List (List Nat))
    (hem : e1.emitted = []) :
    ∃ p, ((b :: bs).foldl cb e1).emitted.head? = some p ∧
      p.flags = (e1.const_packet_flags.union e1.packet_flags).union
        PacketFlags.unset := by
  obtain ⟨data, size, hb⟩ := hcb e1 b
  refine ⟨encPkt e1 data size PacketFlags.unset, ?_, rfl⟩
  rw [List.foldl_cons]
  obtain ⟨l, hl⟩ := foldCb_emitted_append cb hcb bs (cb e1 b)
  rw [hl, hb, enc_write_packet_emitted, hem]
  simp

/-- The last packet emitted by `write_trailer` is the zero-payload
`PF_FINAL` packet. -/
theorem enc_write_trailer_last (cb : LavEnc → List Nat → LavEnc)
    (_hcb : CbOk cb) (e : LavEnc) (tr : List (List Nat)) :
    ∃ q, (enc_write_trailer cb e tr).emitted.getLast? = some q ∧
      q.flags.pfFinal = true ∧ q.data_size = 0 ∧ q.data = [] := by
  refine ⟨encPkt { tr.foldl cb e with packet_flags := PF_FINAL } [] 0
    PacketFlags.unset, ?_, ?_, rfl, rfl⟩
  · show (enc_write_packet { tr.foldl cb e with packet_flags := PF_FINAL }
      [] 0 PacketFlags.unset).emitted.getLast? = _
    rw [enc_write_packet_emitted]
    exact List.getLast?_concat _
  · show (((tr.foldl cb e).const_packet_flags.union PF_FINAL).union
      PacketFlags.unset).pfFinal = true
    simp [PacketFlags.union, PF_FINAL, PacketFlags.unset]

/-- First packet of a WebM session: the muxer's first header byte run
produces a packet flagged both `INITIAL` and `HEADER`. -/
theorem webm_session_first (e0 : LavEnc) (b : List Nat)
    (bs : List (List Nat)) (evs : List WebmEvent) (tr : List (List Nat))
    (hem : e0.emitted = []) :
    ∃ p, (webm_session e0 (b :: bs) evs tr).emitted.head? = some p ∧
      p.flags.pfInitial = true ∧ p.flags.pfHeader = true := by
  obtain ⟨p, hp, hfl⟩ := fold_first_from_empty webm_cb webm_cb_ok
    { e0 with oggserial := e0.oggserial + 1, serial_samples := 0,
              packet_flags := PF_HEADER.union PF_INITIAL } b bs hem
  have hph : (enc_write_header webm_cb e0 (b :: bs)).emitted.head? =
      some p := hp
  obtain ⟨l1, hl1⟩ := webm_run_emitted_append evs
    (enc_write_header webm_cb e0 (b :: bs))
  obtain ⟨l2, hl2⟩ := enc_write_trailer_emitted_append webm_cb webm_cb_ok
    (webm_run (enc_write_header webm_cb e0 (b :: bs)) evs) tr
  refine ⟨p, ?_, ?_, ?_⟩
  · show (enc_write_trailer webm_cb _ tr).emitted.head? = some p
    rw [hl2, hl1]
    exact head_append_of_head _ l2 p (head_append_of_head _ l1 p hph)
  · rw [hfl]
    simp [PacketFlags.union, PF_HEADER, PF_INITIAL, PacketFlags.unset]
  · rw [hfl]
    simp [PacketFlags.union, PF_HEADER, PF_INITIAL, PacketFlags.unset]

/-- First packet of an ADTS AAC session whose first running event encodes
audio: it carries `INITIAL` (ADTS emits no header bytes, so no `HEADER`
packet exists to carry it). -/
theorem aac_session_first (a0 : LavEnc) (n : Nat) (c : List Nat)
    (cs : List (List Nat)) (evs : List AacEvent) (tr : List (List Nat))
    (hem : a0.emitted = []) :
    ∃ p, (aac_session a0 [] (AacEvent.audio n (c :: cs) :: evs)
        tr).emitted.head? = some p ∧ p.flags.pfInitial = true := by
  obtain ⟨p, hp, hfl⟩ := fold_first_from_empty aac_write_packet_wrapper
    aac_cb_ok
    { enc_write_header aac_write_packet_wrapper a0 [] with
        serial_samples :=
          (enc_write_header aac_write_packet_wrapper a0 []).serial_samples
            + n } c cs hem
  have hstep : (aac_event_step (enc_write_header aac_write_packet_wrapper
      a0 []) (AacEvent.audio n (c :: cs))).emitted.head? = some p := hp
  obtain ⟨l1, hl1⟩ := aac_run_emitted_append evs
    (aac_event_step (enc_write_header aac_write_packet_wrapper a0 [])
      (AacEvent.audio n (c :: cs)))
  obtain ⟨l2, hl2⟩ := enc_write_trailer_emitted_append
    aac_write_packet_wrapper aac_cb_ok
    (aac_run (aac_event_step (enc_write_header aac_write_packet_wrapper
      a0 []) (AacEvent.audio n (c :: cs))) evs) tr
  refine ⟨p, ?_, ?_⟩
  · show (enc_write_trailer aac_write_packet_wrapper
      (aac_run (aac_event_step (enc_write_header aac_write_packet_wrapper
        a0 []) (AacEvent.audio n (c :: cs))) evs) tr).emitted.head? =
      some p
    rw [hl2, hl1]
    exact head_append_of_head _ l2 p (head_append_of_head _ l1 p hstep)
  · rw [hfl]
    show ((a0.const_packet_flags.union
      { PF_HEADER.union PF_INITIAL with pfHeader := false }).union
        PacketFlags.unset).pfInitial = true
    simp [PacketFlags.union, PF_HEADER, PF_INITIAL, PacketFlags.unset]

/-- C2: over one WebM encoder session the first emitted packet carries
`INITIAL` and `HEADER`, the last carries `FINAL` with zero payload, and
serials never decrease; over one ADTS AAC session (no header bytes, first
running event encodes audio) the first packet carries `INITIAL`, the last
carries `FINAL` with zero payload, and serials never decrease. -/
theorem C2_session_invariants (e0 : LavEnc) (b : List Nat)
    (bs : List (List Nat)) (evs : List WebmEvent) (tr : List (List Nat))
    (hem : e0.emitted = [])
    (a0 : LavEnc) (n : Nat) (c : List Nat) (cs : List (List Nat))
    (evs2 : List AacEvent) (tr2 : List (List Nat))
    (hem2 : a0.emitted = []) :
    (∃ p, (webm_session e0 (b :: bs) evs tr).emitted.head? = some p ∧
      p.flags.pfInitial = true ∧ p.flags.pfHeader = true) ∧
    (∃ q, (webm_session e0 (b :: bs) evs tr).emitted.getLast? = some q ∧
      q.flags.pfFinal = true ∧ q.data_size = 0 ∧ q.data = []) ∧
    (webm_session e0 (b :: bs) evs tr).emitted.Chain'
      (fun p q => p.serial ≤ q.serial) ∧
    (∃ p, (aac_session a0 [] (AacEvent.audio n (c :: cs) :: evs2)
        tr2).emitted.head? = some p ∧ p.flags.pfInitial = true) ∧
    (∃ q, (aac_session a0 [] (AacEvent.audio n (c :: cs) :: evs2)
        tr2).emitted.getLast? = some q ∧ q.flags.pfFinal = true ∧
      q.data_size = 0 ∧ q.data = []) ∧
    (aac_session a0 [] (AacEvent.audio n (c :: cs) :: evs2)
      tr2).emitted.Chain' (fun p q => p.serial ≤ q.serial) := by
  refine ⟨webm_session_first e0 b bs evs tr hem, ?_, ?_,
    aac_session_first a0 n c cs evs2 tr2 hem2, ?_, ?_⟩
  · exact enc_write_trailer_last webm_cb webm_cb_ok
      (webm_run (enc_write_header webm_cb e0 (b :: bs)) evs) tr
  · exact (enc_write_trailer_serialMono webm_cb webm_cb_ok _ tr
      (webm_run_serialMono evs _ (enc_write_header_serialMono webm_cb
        webm_cb_ok e0 (b :: bs) (serialMono_empty e0 hem)))).1
  · exact enc_write_trailer_last aac_write_packet_wrapper aac_cb_ok
      (aac_run (enc_write_header aac_write_packet_wrapper a0 [])
        (AacEvent.audio n (c :: cs) :: evs2)) tr2
  · exact (enc_write_trailer_serialMono aac_write_packet_wrapper aac_cb_ok
      _ tr2 (aac_run_serialMono (AacEvent.audio n (c :: cs) :: evs2) _
        (enc_write_header_serialMono aac_write_packet_wrapper aac_cb_ok a0
          [] (serialMono_empty a0 hem2)))).1

/-- Concrete instantiation of C2: a minimal WebM session and a minimal AAC
session. -/
theorem C2_session_invariants_witness :
    (∃ p, (webm_session ⟨128, 10, 1, 0, 0, 0, PacketFlags.unset, PF_WEBM,
        0, []⟩ [[0]] [] []).emitted.head? = some p ∧
      p.flags.pfInitial = true ∧ p.flags.pfHeader = true) ∧
    (∃ q, (webm_session ⟨128, 10, 1, 0, 0, 0, PacketFlags.unset, PF_WEBM,
        0, []⟩ [[0]] [] []).emitted.getLast? = some q ∧
      q.flags.pfFinal = true ∧ q.data_size = 0 ∧ q.data = []) ∧
    (webm_session ⟨128, 10, 1, 0, 0, 0, PacketFlags.unset, PF_WEBM, 0, []⟩
      [[0]] [] []).emitted.Chain' (fun p q => p.serial ≤ q.serial) ∧
    (∃ p, (aac_session ⟨128, 10, 1, 0, 0, 0, PacketFlags.unset, PF_AAC,
        12, []⟩ [] [AacEvent.audio 1 [[0]]] []).emitted.head? = some p ∧
      p.flags.pfInitial = true) ∧
    (∃ q, (aac_session ⟨128, 10, 1, 0, 0, 0, PacketFlags.unset, PF_AAC,
        12, []⟩ [] [AacEvent.audio 1 [[0]]] []).emitted.getLast? = some q ∧
      q.flags.pfFinal = true ∧ q.data_size = 0 ∧ q.data = []) ∧
    (aac_session ⟨128, 10, 1, 0, 0, 0, PacketFlags.unset, PF_AAC, 12, []⟩
      [] [AacEvent.audio 1 [[0]]] []).emitted.Chain'
      (fun p q => p.serial ≤ q.serial) :=
  C2_session_invariants ⟨128, 10, 1, 0, 0, 0, PacketFlags.unset, PF_WEBM,
    0, []⟩ [0] [] [] [] rfl
    ⟨128, 10, 1, 0, 0, 0, PacketFlags.unset, PF_AAC, 12, []⟩ 1 [0] [] []
    [] rfl

theorem recorder_append_metadata2_vbr (s : Recorder) (p : EncPacket) :
    (recorder_append_metadata2 s (some p)).is_vbr =
      (s.is_vbr ||
        ((decide (p.bit_rate ≠ s.oldbitrate) ||
          decide (p.sample_rate ≠ s.oldsamplerate)) &&
         p.flags.isMpegAudio &&
         (decide (s.oldbitrate ≠ 0) && decide (s.oldsamplerate ≠ 0)))) := by
  unfold recorder_append_metadata2
  dsimp only
  split_ifs with h1 h2 h3 h2 h3 <;> simp_all

theorem recorder_gated_is_vbr (s : Recorder) (p : EncPacket) (w : Bool)
    (h : (p.flags.pfInitial && s.id3_mode) = false) :
    (recorder_gated s p w).is_vbr = s.is_vbr := by
  unfold recorder_gated
  rw [h]
  have hred : ∀ (a b : Recorder), (if (false = true) then a else b) = b :=
    fun a b => rfl
  rw [hred]
  dsimp only
  split_ifs <;> rfl

theorem recorder_step_packet_is_vbr_noninitial (s : Recorder)
    (p : EncPacket) (w : Bool) (h : p.flags.pfInitial = false) :
    (recorder_step_packet s p w).is_vbr = s.is_vbr := by
  unfold recorder_step_packet
  dsimp only
  have hg : (p.flags.pfInitial && s.id3_mode) = false := by
    rw [h]
    rfl
  split_ifs with h1 h2 h2
  · rw [(recorder_append_metadata_core (recorder_gated s p w)
      (some p)).2.2.2.2.2.2.1]
    exact recorder_gated_is_vbr s p w hg
  · exact (recorder_append_metadata_core s (some p)).2.2.2.2.2.2.1
  · exact recorder_gated_is_vbr s p w hg
  · rfl

theorem recorder_step_packet_is_vbr_below (s : Recorder) (p : EncPacket)
    (w : Bool) (h : p.serial < s.initial_serial) :
    (recorder_step_packet s p w).is_vbr = s.is_vbr := by
  unfold recorder_step_packet
  dsimp only
  split_ifs with h1 h2 h2
  · exact absurd h2 (by omega)
  · exact (recorder_append_metadata_core s (some p)).2.2.2.2.2.2.1
  · exact absurd h2 (by omega)
  · rfl

/-- Concrete `PF_INITIAL|PF_MP3` flag set. -/
def flagsMp3I : PacketFlags :=
  ⟨true, false, false, true, false, false, false, false, false, false⟩

/-- Concrete MP3 audio packet with chosen flags, bit rate and serial. -/
def pktMp3Br (flags : PacketFlags) (br : Nat) (serial : Int) : EncPacket :=
  ⟨br, 44100, 2, flags, serial, 0, 4, [1, 2, 3, 4]⟩

/-- C7 counterexample: two consecutive audio-bearing MP3 packets with
differing bit rates (128 then 192) leave `is_vbr` unset when the second is
not flagged `PF_INITIAL` -- detection only inspects segment-initial packets
(recorder.c:608).  With both packets flagged `PF_INITIAL`, the same rate
change does set `is_vbr`. -/
theorem C7_nonInitial_rate_change_not_vbr :
    (recorder_run recRecording
      [(some (pktMp3Br flagsMp3I 128 5), true, 5),
       (some (pktMp3Br flagsMp3 192 5), true, 5)]).is_vbr = false ∧
    (recorder_run recRecording
      [(some (pktMp3Br flagsMp3I 128 5), true, 5),
       (some (pktMp3Br flagsMp3I 192 5), true, 5)]).is_vbr = true ∧
    (pktMp3Br flagsMp3 192 5).flags.isMpegAudio = true ∧
    (pktMp3Br flagsMp3I 128 5).bit_rate ≠ (pktMp3Br flagsMp3 192 5).bit_rate ∧
    (pktMp3Br flagsMp3I 128 5).sample_rate =
      (pktMp3Br flagsMp3 192 5).sample_rate := by
  refine ⟨?_, ?_, by decide, by decide, by decide⟩ <;> decide

/-- The MPEG1 flag read from the first recorded MP3 header
(recorder.c:216). -/
def xingMpeg1 (hdr4 : List Nat) : Bool := (hdr4.getD 1 0) &&& 0x18 == 0x18

/-- The mono flag read from the first recorded MP3 header
(recorder.c:217). -/
def xingMono (hdr4 : List Nat) : Bool := (hdr4.getD 3 0) &&& 0xC0 == 0xC0

/-- The padding bit of the first recorded MP3 header (recorder.c:215). -/
def xingPadding (hdr4 : List Nat) : Nat :=
  if (hdr4.getD 2 0) &&& 0x2 ≠ 0 then 1 else 0

/-- `samples_per_frame` (recorder.c:218). -/
def xingSpf (hdr4 : List Nat) : Nat := if xingMpeg1 hdr4 then 1152 else 576

/-- `side_info_table[mpeg1_f][mono_f]` (recorder.c:199,220). -/
def xingOffset (hdr4 : List Nat) : Nat :=
  if xingMpeg1 hdr4 then (if xingMono hdr4 then 17 else 32)
  else (if xingMono hdr4 then 9 else 17)

/-- `framelength` (recorder.c:219), C integer division. -/
def xingFramelength (hdr4 : List Nat) (br sr : Nat) : Nat :=
  xingSpf hdr4 / 8 * br * 1000 / sr + xingPadding hdr4

/-- `total_frames` (recorder.c:241): the C `(int)` cast of
`sample_rate * length_ms / (spf * 1000.0) + 0.5`. -/
def xingTotalFrames (sr : Nat) (len_ms : Int) (spf : Nat) : Int :=
  truncQ ((sr : Rat) * (len_ms : Rat) / ((spf : Rat) * 1000) + 1 / 2)

/-- Big-endian 4-byte serialization via `fputc((x >> k) & 0xFF)`
(recorder.c:242-249). -/
def be4 (x : Nat) : List Nat :=
  [(x >>> 24) % 256, (x >>> 16) % 256, (x >>> 8) % 256, x % 256]

/-- The `while (look_ms > mi2->finish_offset_ms) mi2 = mi2->next` walk of
the seek-table loop (recorder.c:257-265); returns the suffix headed by the
segment covering `look`, `none` when the walk runs off the list (the
`return FAILED` path). -/
def xingWalk (look : Rat) : List MetadataItem2 → Option (List MetadataItem2)
  | [] => none
  | m :: rest =>
      if (m.finish_offset_ms : Rat) < look then xingWalk look rest
      else some (m :: rest)

/-- Linear interpolation of the byte position inside one segment
(recorder.c:266-267): `seg_prop * size_bytes + byte_offset`. -/
def segPos (m : MetadataItem2) (look : Rat) : Rat :=
  (look - (m.start_offset_ms : Rat)) /
      ((m.finish_offset_ms : Rat) - (m.start_offset_ms : Rat)) *
    (m.size_bytes : Rat) + (m.byte_offset : Rat)

/-- One seek-table byte (recorder.c:267): the `unsigned char` truncation of
`pos / bytes_written * 255`. -/
def xingEntry (bw : Int) (m : MetadataItem2) (look : Rat) : Nat :=
  (truncQ (segPos m look / (bw : Rat) * 255)).toNat % 256

/-- The seek-table loop (recorder.c:254-268): one entry per `seek` value
`k/100` for `k = 0..99` (the C code accumulates `seek += 0.01` from `0.0`
while `seek < 1.0`, which executes exactly 100 times), the segment walk
carried across entries. -/
def xingEntries (len_ms bw : Int) :
    List MetadataItem2 → Nat → Nat → Option (List Nat)
  | _, _, 0 => some []
  | segs, k, fuel + 1 =>
      let look : Rat := (k : Rat) / 100 * (len_ms : Rat)
      match xingWalk look segs with
      | none => none
      | some [] => none
      | some (m :: rest) =>
          match xingEntries len_ms bw (m :: rest) (k + 1) fuel with
          | none => none
          | some es => some (xingEntry bw m look :: es)

/-- The 100-entry seek table. -/
def xingSeekTable (segs : List MetadataItem2) (len_ms bw : Int) :
    Option (List Nat) :=
  xingEntries len_ms bw segs 0 100

/-- `recorder_write_xing_tag` (recorder.c:195-280) as a transformer of the
output file's byte string: a no-op when the tag is switched off or no
metadata was collected; otherwise the first MP3 header is replayed, the
side info region zero-filled, `Xing`/`Info` markers with their flags
words, the big-endian frame and byte counts, for VBR the 100-entry seek
table (with the `0xFF`-guard pad byte of recorder.c:271-272), and the
zero fill up to `framelength` (recorder.c:274-276, capped below at zero
as the C loop is skipped for negative `frame_fill`).  `hdr4` is
`first_mp3_header` (read from the recording at recorder.c:311); `none` is
the seek-table walk's `FAILED` (recorder.c:260-264); stream I/O errors are
not modelled.  `xingCore` is the fixed-size front of the tag frame: header
replay, zeroed side info, marker+flags word, frame and byte counts
(recorder.c:221-249). -/
def xingCore (marker hdr4 : List Nat) (sr : Nat) (len_ms bw : Int) :
    List Nat :=
  hdr4 ++ List.replicate (xingOffset hdr4) 0 ++ marker ++
    (be4 (xingTotalFrames sr len_ms (xingSpf hdr4)).toNat ++ be4 bw.toNat)

def recorder_write_xing_tag (self : Recorder) (hdr4 : List Nat)
    (fp : List Nat) : Option (List Nat) :=
  if !self.include_xing_tag then some fp
  else match self.mi2 with
  | [] => some fp
  | m0 :: _ =>
      let marker : List Nat :=
        if self.is_vbr then [88, 105, 110, 103, 0, 0, 0, 7]
        else [73, 110, 102, 111, 0, 0, 0, 3]
      let core : List Nat := xingCore marker hdr4 m0.sample_rate
        self.recording_length_ms self.bytes_written
      let flen := xingFramelength hdr4 m0.bit_rate m0.sample_rate
      if self.is_vbr then
        match xingSeekTable self.mi2 self.recording_length_ms
          self.bytes_written with
        | none => none
        | some tbl =>
            let body := core ++ tbl ++
              (if tbl.getD 99 0 == 255 then [0] else [])
            some (fp ++ body ++ List.replicate (flen - body.length) 0)
      else
        some (fp ++ core ++ List.replicate (flen - core.length) 0)

theorem truncQ_eq_floor (q : Rat) (h : 0 ≤ q) : truncQ q = ⌊q⌋ := by
  unfold truncQ
  rw [Int.tdiv_eq_ediv (Rat.num_nonneg.2 h)
    (by exact_mod_cast Nat.zero_le q.den)]
  exact Rat.floor_def.symm

/-- Adjacency of two metadata segments as `recorder_append_metadata2`
chains them: the previous node's finish/size are patched from the new
node's start/byte offsets (recorder.c:388-389). -/
def segChain (a b : MetadataItem2) : Prop :=
  a.finish_offset_ms = b.start_offset_ms ∧
  a.byte_offset + a.size_bytes = b.byte_offset

instance (a b : MetadataItem2) : Decidable (segChain a b) := by
  unfold segChain
  infer_instance

/-- Well-formedness of a (suffix of a) recorded segment list against the
final byte count `bw` and recording length `len`. -/
def SegsInv (len bw : Int) (segs : List MetadataItem2) : Prop :=
  segs ≠ [] ∧
  (∀ m ∈ segs, m.start_offset_ms < m.finish_offset_ms ∧ 0 ≤ m.size_bytes ∧
    0 ≤ m.byte_offset ∧ m.byte_offset + m.size_bytes ≤ bw) ∧
  List.Chain' segChain segs ∧
  (∀ lm, segs.getLast? = some lm → len ≤ lm.finish_offset_ms)

theorem xingByte_mono (bw : Int) (hbw : 0 < bw) (p1 p2 : Rat)
    (h0 : 0 ≤ p1) (h12 : p1 ≤ p2) (h2 : p2 ≤ (bw : Rat)) :
    (truncQ (p1 / (bw : Rat) * 255)).toNat % 256 ≤
      (truncQ (p2 / (bw : Rat) * 255)).toNat % 256 := by
  have hbwq : (0 : Rat) < (bw : Rat) := by exact_mod_cast hbw
  have hq1 : (0 : Rat) ≤ p1 / (bw : Rat) * 255 := by positivity
  have hq2 : (0 : Rat) ≤ p2 / (bw : Rat) * 255 := by
    have : (0 : Rat) ≤ p2 := le_trans h0 h12
    positivity
  have hmono : p1 / (bw : Rat) * 255 ≤ p2 / (bw : Rat) * 255 := by
    have hd : p1 / (bw : Rat) ≤ p2 / (bw : Rat) :=
      (div_le_div_iff_of_pos_right hbwq).2 h12
    nlinarith
  have hub : p2 / (bw : Rat) * 255 ≤ 255 := by
    have hd : p2 / (bw : Rat) ≤ 1 := (div_le_one hbwq).2 h2
    nlinarith
  rw [truncQ_eq_floor _ hq1, truncQ_eq_floor _ hq2]
  have hf12 : ⌊p1 / (bw : Rat) * 255⌋ ≤ ⌊p2 / (bw : Rat) * 255⌋ :=
    Int.floor_le_floor hmono
  have hf2 : ⌊p2 / (bw : Rat) * 255⌋ ≤ 255 := by
    have := Int.floor_le_floor hub
    simpa using this
  have ht1 : (⌊p1 / (bw : Rat) * 255⌋).toNat ≤
      (⌊p2 / (bw : Rat) * 255⌋).toNat := Int.toNat_le_toNat hf12
  have ht2 : (⌊p2 / (bw : Rat) * 255⌋).toNat ≤ 255 := by
    omega
  have ht1b : (⌊p1 / (bw : Rat) * 255⌋).toNat ≤ 255 := le_trans ht1 ht2
  rw [Nat.mod_eq_of_lt (by omega), Nat.mod_eq_of_lt (by omega)]
  exact ht1

theorem segPos_bounds (m : MetadataItem2)
    (hsf : m.start_offset_ms < m.finish_offset_ms) (hsz : 0 ≤ m.size_bytes)
    (look : Rat) (h1 : (m.start_offset_ms : Rat) ≤ look)
    (h2 : look ≤ (m.finish_offset_ms : Rat)) :
    (m.byte_offset : Rat) ≤ segPos m look ∧
    segPos m look ≤ (m.byte_offset : Rat) + (m.size_bytes : Rat) := by
  have hden : (0 : Rat) < (m.finish_offset_ms : Rat) -
      (m.start_offset_ms : Rat) := by
    have : (m.start_offset_ms : Rat) < (m.finish_offset_ms : Rat) := by
      exact_mod_cast hsf
    linarith
  have ht0 : (0 : Rat) ≤ (look - (m.start_offset_ms : Rat)) /
      ((m.finish_offset_ms : Rat) - (m.start_offset_ms : Rat)) := by
    apply div_nonneg (by linarith) (le_of_lt hden)
  have ht1 : (look - (m.start_offset_ms : Rat)) /
      ((m.finish_offset_ms : Rat) - (m.start_offset_ms : Rat)) ≤ 1 := by
    rw [div_le_one hden]
    linarith
  have hszq : (0 : Rat) ≤ (m.size_bytes : Rat) := by exact_mod_cast hsz
  unfold segPos
  constructor
  · nlinarith
  · nlinarith

theorem segPos_mono (m : MetadataItem2)
    (hsf : m.start_offset_ms < m.finish_offset_ms) (hsz : 0 ≤ m.size_bytes)
    (look1 look2 : Rat) (h : look1 ≤ look2) :
    segPos m look1 ≤ segPos m look2 := by
  have hden : (0 : Rat) < (m.finish_offset_ms : Rat) -
      (m.start_offset_ms : Rat) := by
    have : (m.start_offset_ms : Rat) < (m.finish_offset_ms : Rat) := by
      exact_mod_cast hsf
    linarith
  have hszq : (0 : Rat) ≤ (m.size_bytes : Rat) := by exact_mod_cast hsz
  unfold segPos
  have hd : (look1 - (m.start_offset_ms : Rat)) /
        ((m.finish_offset_ms : Rat) - (m.start_offset_ms : Rat)) ≤
      (look2 - (m.start_offset_ms : Rat)) /
        ((m.finish_offset_ms : Rat) - (m.start_offset_ms : Rat)) :=
    (div_le_div_iff_of_pos_right hden).2 (by linarith)
  have := mul_le_mul_of_nonneg_right hd hszq
  linarith

theorem xingWalk_spec (len bw : Int) (look : Rat)
    (segs : List MetadataItem2) (hinv : SegsInv len bw segs)
    (hhead : ∀ m0, segs.head? = some m0 →
      (m0.start_offset_ms : Rat) ≤ look)
    (hlen : look ≤ (len : Rat)) :
    ∃ m rest, xingWalk look segs = some (m :: rest) ∧
      (m.start_offset_ms : Rat) ≤ look ∧
      look ≤ (m.finish_offset_ms : Rat) ∧
      SegsInv len bw (m :: rest) ∧
      (∀ m0, segs.head? = some m0 →
        m0.byte_offset ≤ m.byte_offset ∧
        (m = m0 ∨ m0.byte_offset + m0.size_bytes ≤ m.byte_offset)) := by
  induction segs with
  | nil => exact absurd rfl hinv.1
  | cons m0 rest ih =>
      obtain ⟨hne, hmem, hchain, hlast⟩ := hinv
      by_cases hc : (m0.finish_offset_ms : Rat) < look
      · cases rest with
        | nil =>
            have h1 := hlast m0 rfl
            have h2 : look ≤ (m0.finish_offset_ms : Rat) :=
              le_trans hlen (by exact_mod_cast h1)
            exact absurd hc (not_lt.2 h2)
        | cons m1 rest2 =>
            have hcc := List.chain'_cons.1 hchain
            have hch01 : segChain m0 m1 := hcc.1
            have hinv1 : SegsInv len bw (m1 :: rest2) := by
              refine ⟨by simp, ?_, hcc.2, ?_⟩
              · intro m hm
                exact hmem m (List.mem_cons_of_mem _ hm)
              · intro lm hlm
                refine hlast lm ?_
                rw [List.getLast?_cons_cons]
                exact hlm
            have hhead1 : ∀ mh, (m1 :: rest2).head? = some mh →
                (mh.start_offset_ms : Rat) ≤ look := by
              intro mh h'
              rw [List.head?_cons] at h'
              have he := Option.some.inj h'
              subst he
              have hq : (m0.finish_offset_ms : Rat) =
                  (m1.start_offset_ms : Rat) := by exact_mod_cast hch01.1
              rw [← hq]
              exact le_of_lt hc
            obtain ⟨m, rest3, hw, hs, hf, hinv2, hoff⟩ :=
              ih hinv1 hhead1
            refine ⟨m, rest3, ?_, hs, hf, hinv2, ?_⟩
            · show xingWalk look (m0 :: m1 :: rest2) = _
              unfold xingWalk
              rw [if_pos hc]
              exact hw
            · intro mh h0'
              rw [List.head?_cons] at h0'
              have he := Option.some.inj h0'
              subst he
              have h1 := hoff m1 rfl
              have hsz0 := (hmem m0 (List.mem_cons_self _ _)).2.1
              have hcp := hch01.2
              exact ⟨by omega, Or.inr (by omega)⟩
      · refine ⟨m0, rest, ?_, hhead m0 rfl, not_lt.1 hc,
          ⟨hne, hmem, hchain, hlast⟩, ?_⟩
        · unfold xingWalk
          rw [if_neg hc]
        · intro mh h0'
          rw [List.head?_cons] at h0'
          have he := Option.some.inj h0'
          subst he
          exact ⟨le_refl _, Or.inl rfl⟩

theorem xingEntry_cross (len bw : Int) (hbw : 0 < bw)
    (m : MetadataItem2) (rest : List MetadataItem2) (look1 look2 : Rat)
    (hinv : SegsInv len bw (m :: rest))
    (h1s : (m.start_offset_ms : Rat) ≤ look1)
    (h1f : look1 ≤ (m.finish_offset_ms : Rat))
    (h12 : look1 ≤ look2) (hlen2 : look2 ≤ (len : Rat))
    (mw : MetadataItem2) (rw2 : List MetadataItem2)
    (hw : xingWalk look2 (m :: rest) = some (mw :: rw2)) :
    xingEntry bw m look1 ≤ xingEntry bw mw look2 := by
  obtain ⟨mz, restz, hww, hs2, hf2, hinv2, hoff⟩ :=
    xingWalk_spec len bw look2 (m :: rest) hinv
      (by
        intro m0 h0
        rw [List.head?_cons] at h0
        have he := Option.some.inj h0
        subst he
        exact le_trans h1s h12)
      hlen2
  rw [hww] at hw
  obtain ⟨hm, -⟩ := List.cons.inj (Option.some.inj hw)
  subst hm
  have hmm := hinv.2.1 m (List.mem_cons_self _ _)
  have hmw := hinv2.2.1 mz (List.mem_cons_self _ _)
  have hpos1 := segPos_bounds m hmm.1 hmm.2.1 look1 h1s h1f
  have hpos2 := segPos_bounds mz hmw.1 hmw.2.1 look2 hs2 hf2
  have h0q : (0 : Rat) ≤ segPos m look1 := by
    have hb : (0 : Rat) ≤ (m.byte_offset : Rat) := by
      exact_mod_cast hmm.2.2.1
    linarith [hpos1.1]
  have hubq : segPos mz look2 ≤ (bw : Rat) := by
    have hb : ((mz.byte_offset : Rat) + (mz.size_bytes : Rat)) ≤
        (bw : Rat) := by exact_mod_cast hmw.2.2.2
    linarith [hpos2.2]
  obtain ⟨hob, hcase⟩ := hoff m (by rw [List.head?_cons])
  have hple : segPos m look1 ≤ segPos mz look2 := by
    cases hcase with
    | inl he =>
        rw [he]
        exact segPos_mono m hmm.1 hmm.2.1 look1 look2 h12
    | inr hle =>
        have hcast : ((m.byte_offset : Rat) + (m.size_bytes : Rat)) ≤
            (mz.byte_offset : Rat) := by exact_mod_cast hle
        linarith [hpos1.2, hpos2.1]
  exact xingByte_mono bw hbw _ _ h0q hple hubq

theorem xingEntries_spec (len bw : Int) (hbw : 0 < bw) (hlen : 0 ≤ len) :
    ∀ (fuel k : Nat) (segs : List MetadataItem2),
      SegsInv len bw segs →
      (∀ m0, segs.head? = some m0 →
        (m0.start_offset_ms : Rat) ≤ (k : Rat) / 100 * (len : Rat)) →
      k + fuel ≤ 100 →
      ∃ es, xingEntries len bw segs k fuel = some es ∧
        es.length = fuel ∧ List.Chain' (· ≤ ·) es ∧
        (∀ e0, es.head? = some e0 →
          ∃ m r, xingWalk ((k : Rat) / 100 * (len : Rat)) segs =
            some (m :: r) ∧
            e0 = xingEntry bw m ((k : Rat) / 100 * (len : Rat))) := by
  intro fuel
  induction fuel with
  | zero =>
      intro k segs hinv hhead hk
      refine ⟨[], rfl, rfl, List.chain'_nil, ?_⟩
      intro e0 h0
      cases h0
  | succ fuel ih =>
      intro k segs hinv hhead hk
      have hlenq : (0 : Rat) ≤ (len : Rat) := by exact_mod_cast hlen
      have hkle : ∀ j : Nat, j ≤ 100 →
          (j : Rat) / 100 * (len : Rat) ≤ (len : Rat) := by
        intro j hj
        have hd : (j : Rat) / 100 ≤ 1 := by
          rw [div_le_one (by norm_num)]
          exact_mod_cast hj
        calc (j : Rat) / 100 * (len : Rat) ≤ 1 * (len : Rat) :=
              mul_le_mul_of_nonneg_right hd hlenq
          _ = (len : Rat) := one_mul _
      have hmono : ((k : Rat)) / 100 * (len : Rat) ≤
          ((k + 1 : Nat) : Rat) / 100 * (len : Rat) := by
        have hd : ((k : Rat)) / 100 ≤ ((k + 1 : Nat) : Rat) / 100 := by
          refine (div_le_div_iff_of_pos_right ?_).2 ?_
          · norm_num
          · push_cast
            linarith
        exact mul_le_mul_of_nonneg_right hd hlenq
      obtain ⟨m, rest, hw, hs, hf, hinv2, hoff⟩ :=
        xingWalk_spec len bw ((k : Rat) / 100 * (len : Rat)) segs hinv
          hhead (hkle k (by omega))
      have hhead2 : ∀ m0, (m :: rest).head? = some m0 →
          (m0.start_offset_ms : Rat) ≤
            ((k + 1 : Nat) : Rat) / 100 * (len : Rat) := by
        intro m0 h0
        rw [List.head?_cons] at h0
        have he := Option.some.inj h0
        subst he
        exact le_trans hs hmono
      obtain ⟨es, hes, hlen2, hchain2, hhd2⟩ :=
        ih (k + 1) (m :: rest) hinv2 hhead2 (by omega)
      refine ⟨xingEntry bw m ((k : Rat) / 100 * (len : Rat)) :: es, ?_,
        by simp [hlen2], ?_, ?_⟩
      · show xingEntries len bw segs k (fuel + 1) = _
        unfold xingEntries
        dsimp only
        rw [hw]
        dsimp only
        rw [hes]
      · rw [List.chain'_cons']
        refine ⟨?_, hchain2⟩
        intro y hy
        obtain ⟨m2, r2, hw2, hy2⟩ := hhd2 y hy
        rw [hy2]
        exact xingEntry_cross len bw hbw m rest _ _ hinv2 hs hf hmono
          (hkle (k + 1) (by omega)) m2 r2 hw2
      · intro e0 h0
        rw [List.head?_cons] at h0
        have he := Option.some.inj h0
        exact ⟨m, rest, hw, he.symm⟩

/-- The seek table always builds for a well-formed segment list, has
exactly 100 entries, and its byte values never decrease. -/
theorem xingSeekTable_spec (segs : List MetadataItem2) (len bw : Int)
    (hbw : 0 < bw) (hlen : 0 ≤ len) (hinv : SegsInv len bw segs)
    (hhead : ∀ m0, segs.head? = some m0 → m0.start_offset_ms ≤ 0) :
    ∃ tbl, xingSeekTable segs len bw = some tbl ∧ tbl.length = 100 ∧
      List.Chain' (· ≤ ·) tbl := by
  obtain ⟨es, hes, hl, hc, -⟩ :=
    xingEntries_spec len bw hbw hlen 100 0 segs hinv
      (by
        intro m0 h0
        have h1 : (m0.start_offset_ms : Rat) ≤ 0 := by
          exact_mod_cast hhead m0 h0
        calc (m0.start_offset_ms : Rat) ≤ 0 := h1
          _ = (0 : Rat) / 100 * (len : Rat) := by norm_num)
      (by omega)
  exact ⟨es, hes, hl, hc⟩

theorem recorder_write_xing_tag_cbr (s : Recorder) (hdr4 fp : List Nat)
    (m0 : MetadataItem2) (r : List MetadataItem2)
    (hi : s.include_xing_tag = true) (hm : s.mi2 = m0 :: r)
    (hv : s.is_vbr = false) :
    recorder_write_xing_tag s hdr4 fp = some (fp ++
      xingCore [73, 110, 102, 111, 0, 0, 0, 3] hdr4 m0.sample_rate
        s.recording_length_ms s.bytes_written ++
      List.replicate (xingFramelength hdr4 m0.bit_rate m0.sample_rate -
        (xingCore [73, 110, 102, 111, 0, 0, 0, 3] hdr4 m0.sample_rate
          s.recording_length_ms s.bytes_written).length) 0) := by
  unfold recorder_write_xing_tag
  rw [hi, hm, hv]
  rfl

theorem recorder_write_xing_tag_vbr (s : Recorder) (hdr4 fp : List Nat)
    (m0 : MetadataItem2) (r : List MetadataItem2) (tbl : List Nat)
    (hi : s.include_xing_tag = true) (hm : s.mi2 = m0 :: r)
    (hv : s.is_vbr = true)
    (ht : xingSeekTable s.mi2 s.recording_length_ms s.bytes_written =
      some tbl) :
    recorder_write_xing_tag s hdr4 fp = some (fp ++
      (xingCore [88, 105, 110, 103, 0, 0, 0, 7] hdr4 m0.sample_rate
          s.recording_length_ms s.bytes_written ++ tbl ++
        (if tbl.getD 99 0 == 255 then [0] else [])) ++
      List.replicate (xingFramelength hdr4 m0.bit_rate m0.sample_rate -
        (xingCore [88, 105, 110, 103, 0, 0, 0, 7] hdr4 m0.sample_rate
            s.recording_length_ms s.bytes_written ++ tbl ++
          (if tbl.getD 99 0 == 255 then [0] else [])).length) 0) := by
  unfold recorder_write_xing_tag
  rw [hi, hm, hv]
  rw [hm] at ht
  dsimp only
  rw [ht]
  rfl

/-- C7 (amended): `is_vbr` is raised by `recorder_append_metadata2` exactly
when the examined packet is MPEG-family audio whose (bit rate, sample rate)
pair differs from the previously recorded pair and a previous pair was
recorded (nonzero); only `PF_INITIAL`-flagged packets at or above the
attach watermark are examined at all, so rate changes on other audio
packets go undetected; at finalization a non-VBR session writes the `Info`
frame with the frame-count/byte-count summary and no seek table, while a
VBR session (well-formed metadata) writes the `Xing` frame followed by the
100-entry seek table. -/
theorem C7_vbr_detection
    (s1 : Recorder) (p1 : EncPacket)
    (s2 : Recorder) (p2 : EncPacket) (w2 : Bool)
    (h2 : p2.flags.pfInitial = false)
    (s3 : Recorder) (p3 : EncPacket) (w3 : Bool)
    (h3 : p3.serial < s3.initial_serial)
    (s4 : Recorder) (hdr4 fp4 : List Nat) (m4 : MetadataItem2)
    (r4 : List MetadataItem2)
    (hi4 : s4.include_xing_tag = true) (hm4 : s4.mi2 = m4 :: r4)
    (hv4 : s4.is_vbr = false)
    (s5 : Recorder) (hdr5 fp5 : List Nat) (m5 : MetadataItem2)
    (r5 : List MetadataItem2)
    (hi5 : s5.include_xing_tag = true) (hm5 : s5.mi2 = m5 :: r5)
    (hv5 : s5.is_vbr = true)
    (hbw5 : 0 < s5.bytes_written) (hlen5 : 0 ≤ s5.recording_length_ms)
    (hinv5 : SegsInv s5.recording_length_ms s5.bytes_written s5.mi2)
    (hhd5 : ∀ m0, s5.mi2.head? = some m0 → m0.start_offset_ms ≤ 0) :
    (recorder_append_metadata2 s1 (some p1)).is_vbr =
      (s1.is_vbr ||
        ((decide (p1.bit_rate ≠ s1.oldbitrate) ||
          decide (p1.sample_rate ≠ s1.oldsamplerate)) &&
         p1.flags.isMpegAudio &&
         (decide (s1.oldbitrate ≠ 0) && decide (s1.oldsamplerate ≠ 0)))) ∧
    (recorder_step_packet s2 p2 w2).is_vbr = s2.is_vbr ∧
    (recorder_step_packet s3 p3 w3).is_vbr = s3.is_vbr ∧
    recorder_write_xing_tag s4 hdr4 fp4 = some (fp4 ++
      xingCore [73, 110, 102, 111, 0, 0, 0, 3] hdr4 m4.sample_rate
        s4.recording_length_ms s4.bytes_written ++
      List.replicate (xingFramelength hdr4 m4.bit_rate m4.sample_rate -
        (xingCore [73, 110, 102, 111, 0, 0, 0, 3] hdr4 m4.sample_rate
          s4.recording_length_ms s4.bytes_written).length) 0) ∧
    (∃ tbl, xingSeekTable s5.mi2 s5.recording_length_ms s5.bytes_written =
        some tbl ∧ tbl.length = 100 ∧
      recorder_write_xing_tag s5 hdr5 fp5 = some (fp5 ++
        (xingCore [88, 105, 110, 103, 0, 0, 0, 7] hdr5 m5.sample_rate
            s5.recording_length_ms s5.bytes_written ++ tbl ++
          (if tbl.getD 99 0 == 255 then [0] else [])) ++
        List.replicate (xingFramelength hdr5 m5.bit_rate m5.sample_rate -
          (xingCore [88, 105, 110, 103, 0, 0, 0, 7] hdr5 m5.sample_rate
              s5.recording_length_ms s5.bytes_written ++ tbl ++
            (if tbl.getD 99 0 == 255 then [0] else [])).length) 0)) := by
  refine ⟨recorder_append_metadata2_vbr s1 p1,
    recorder_step_packet_is_vbr_noninitial s2 p2 w2 h2,
    recorder_step_packet_is_vbr_below s3 p3 w3 h3,
    recorder_write_xing_tag_cbr s4 hdr4 fp4 m4 r4 hi4 hm4 hv4, ?_⟩
  obtain ⟨tbl, ht, hl, -⟩ := xingSeekTable_spec s5.mi2
    s5.recording_length_ms s5.bytes_written hbw5 hlen5 hinv5 hhd5
  exact ⟨tbl, ht, hl,
    recorder_write_xing_tag_vbr s5 hdr5 fp5 m5 r5 tbl hi5 hm5 hv5 ht⟩

/-- One-segment and two-segment finalized metadata lists (128 kb/s for the
first minute, 192 kb/s for the second) used to instantiate the tag
writer. -/
def segA : MetadataItem2 := ⟨128, 44100, 0, 60000, 0, 960000⟩

/-- The second (192 kb/s) segment, chained to `segA`. -/
def segB : MetadataItem2 := ⟨192, 44100, 60000, 120000, 960000, 1440000⟩

/-- A finalized constant-bitrate recorder state. -/
def recCbrDone : Recorder :=
  { recorder0 with include_xing_tag := true, mi2 := [segA],
                   is_vbr := false, recording_length_ms := 60000,
                   bytes_written := 960000 }

/-- A finalized variable-bitrate recorder state (two segments, 128 then
192 kb/s). -/
def recVbrDone : Recorder :=
  { recorder0 with include_xing_tag := true, mi2 := [segA, segB],
                   is_vbr := true, recording_length_ms := 120000,
                   bytes_written := 2400000 }

/-- A representative first MP3 frame header (MPEG1, stereo, no padding). -/
def mp3Hdr : List Nat := [255, 251, 144, 68]

/-- Concrete instantiation of the amended C7 statement. -/
theorem C7_vbr_detection_witness :
    (recorder_append_metadata2 recRecording
        (some (pktMp3Br flagsMp3I 128 5))).is_vbr =
      (recRecording.is_vbr ||
        ((decide ((pktMp3Br flagsMp3I 128 5).bit_rate ≠
            recRecording.oldbitrate) ||
          decide ((pktMp3Br flagsMp3I 128 5).sample_rate ≠
            recRecording.oldsamplerate)) &&
         (pktMp3Br flagsMp3I 128 5).flags.isMpegAudio &&
         (decide (recRecording.oldbitrate ≠ 0) &&
          decide (recRecording.oldsamplerate ≠ 0)))) ∧
    (recorder_step_packet recRecording (pktMp3Br flagsMp3 192 5)
        true).is_vbr = recRecording.is_vbr ∧
    (recorder_step_packet recRecording (pktMp3Br flagsMp3I 128 3)
        true).is_vbr = recRecording.is_vbr ∧
    recorder_write_xing_tag recCbrDone mp3Hdr [7] = some ([7] ++
      xingCore [73, 110, 102, 111, 0, 0, 0, 3] mp3Hdr segA.sample_rate
        recCbrDone.recording_length_ms recCbrDone.bytes_written ++
      List.replicate (xingFramelength mp3Hdr segA.bit_rate
          segA.sample_rate -
        (xingCore [73, 110, 102, 111, 0, 0, 0, 3] mp3Hdr segA.sample_rate
          recCbrDone.recording_length_ms recCbrDone.bytes_written).length)
        0) ∧
    (∃ tbl, xingSeekTable recVbrDone.mi2 recVbrDone.recording_length_ms
        recVbrDone.bytes_written = some tbl ∧ tbl.length = 100 ∧
      recorder_write_xing_tag recVbrDone mp3Hdr [7] = some ([7] ++
        (xingCore [88, 105, 110, 103, 0, 0, 0, 7] mp3Hdr segA.sample_rate
            recVbrDone.recording_length_ms recVbrDone.bytes_written ++
          tbl ++ (if tbl.getD 99 0 == 255 then [0] else [])) ++
        List.replicate (xingFramelength mp3Hdr segA.bit_rate
            segA.sample_rate -
          (xingCore [88, 105, 110, 103, 0, 0, 0, 7] mp3Hdr
              segA.sample_rate recVbrDone.recording_length_ms
              recVbrDone.bytes_written ++ tbl ++
            (if tbl.getD 99 0 == 255 then [0] else [])).length) 0)) :=
  C7_vbr_detection recRecording (pktMp3Br flagsMp3I 128 5)
    recRecording (pktMp3Br flagsMp3 192 5) true (by decide)
    recRecording (pktMp3Br flagsMp3I 128 3) true (by decide)
    recCbrDone mp3Hdr [7] segA [] rfl rfl rfl
    recVbrDone mp3Hdr [7] segA [segB] rfl rfl rfl
    (by decide) (by decide)
    ⟨by decide, by decide,
      List.chain'_cons.2 ⟨⟨by decide, by decide⟩, List.chain'_singleton _⟩,
      by
        intro lm hlm
        cases hlm
        decide⟩
    (by
      intro m0 h0
      cases h0
      decide)

/-- C8: a finalized variable-bitrate MP3 recording with well-formed
segment metadata (such as 128 kb/s then 192 kb/s segments) gets a first
tag frame carrying the `Xing` marker (not `Info`) at its side-info offset,
followed (after the two 4-byte counts) by a 100-entry seek table whose
byte values are monotonically non-decreasing. -/
theorem C8_xing_seek_table (s : Recorder) (hdr4 fp : List Nat)
    (m0 : MetadataItem2) (r : List MetadataItem2)
    (hi : s.include_xing_tag = true) (hm : s.mi2 = m0 :: r)
    (hv : s.is_vbr = true)
    (hbw : 0 < s.bytes_written) (hlen : 0 ≤ s.recording_length_ms)
    (hinv : SegsInv s.recording_length_ms s.bytes_written s.mi2)
    (hhd : ∀ mh, s.mi2.head? = some mh → mh.start_offset_ms ≤ 0)
    (hhl : hdr4.length = 4) :
    ∃ out tbl,
      recorder_write_xing_tag s hdr4 fp = some out ∧
      tbl.length = 100 ∧ List.Chain' (· ≤ ·) tbl ∧
      (out.drop (fp.length + 4 + xingOffset hdr4)).take 8 =
        [88, 105, 110, 103, 0, 0, 0, 7] ∧
      (out.drop (fp.length + 4 + xingOffset hdr4 + 16)).take 100 = tbl := by
  obtain ⟨tbl, ht, hl, hc⟩ := xingSeekTable_spec s.mi2
    s.recording_length_ms s.bytes_written hbw hlen hinv hhd
  have hw := recorder_write_xing_tag_vbr s hdr4 fp m0 r tbl hi hm hv ht
  refine ⟨_, tbl, hw, hl, hc, ?_, ?_⟩
  · have h1 : fp ++
        (xingCore [88, 105, 110, 103, 0, 0, 0, 7] hdr4 m0.sample_rate
            s.recording_length_ms s.bytes_written ++ tbl ++
          (if tbl.getD 99 0 == 255 then [0] else [])) ++
        List.replicate (xingFramelength hdr4 m0.bit_rate m0.sample_rate -
          (xingCore [88, 105, 110, 103, 0, 0, 0, 7] hdr4 m0.sample_rate
              s.recording_length_ms s.bytes_written ++ tbl ++
            (if tbl.getD 99 0 == 255 then [0] else [])).length) 0 =
        (fp ++ hdr4 ++ List.replicate (xingOffset hdr4) 0) ++
          ([88, 105, 110, 103, 0, 0, 0, 7] ++
            ((be4 (xingTotalFrames m0.sample_rate s.recording_length_ms
                (xingSpf hdr4)).toNat ++ be4 s.bytes_written.toNat) ++
              (tbl ++ ((if tbl.getD 99 0 == 255 then [0] else []) ++
                List.replicate (xingFramelength hdr4 m0.bit_rate
                  m0.sample_rate -
                  (xingCore [88, 105, 110, 103, 0, 0, 0, 7] hdr4
                      m0.sample_rate s.recording_length_ms
                      s.bytes_written ++ tbl ++
                    (if tbl.getD 99 0 == 255 then [0] else [])).length)
                  0)))) := by
      unfold xingCore
      simp [List.append_assoc]
    rw [h1]
    have h2 : (fp ++ hdr4 ++ List.replicate (xingOffset hdr4) 0).length =
        fp.length + 4 + xingOffset hdr4 := by
      simp [hhl]
      omega
    rw [← h2, List.drop_left]
    have h3 : (8 : Nat) =
        ([88, 105, 110, 103, 0, 0, 0, 7] : List Nat).length := rfl
    rw [h3, List.take_left]
  · have h1 : fp ++
        (xingCore [88, 105, 110, 103, 0, 0, 0, 7] hdr4 m0.sample_rate
            s.recording_length_ms s.bytes_written ++ tbl ++
          (if tbl.getD 99 0 == 255 then [0] else [])) ++
        List.replicate (xingFramelength hdr4 m0.bit_rate m0.sample_rate -
          (xingCore [88, 105, 110, 103, 0, 0, 0, 7] hdr4 m0.sample_rate
              s.recording_length_ms s.bytes_written ++ tbl ++
            (if tbl.getD 99 0 == 255 then [0] else [])).length) 0 =
        (fp ++ hdr4 ++ List.replicate (xingOffset hdr4) 0 ++
            [88, 105, 110, 103, 0, 0, 0, 7] ++
            (be4 (xingTotalFrames m0.sample_rate s.recording_length_ms
                (xingSpf hdr4)).toNat ++ be4 s.bytes_written.toNat)) ++
          (tbl ++ ((if tbl.getD 99 0 == 255 then [0] else []) ++
            List.replicate (xingFramelength hdr4 m0.bit_rate
              m0.sample_rate -
              (xingCore [88, 105, 110, 103, 0, 0, 0, 7] hdr4
                  m0.sample_rate s.recording_length_ms
                  s.bytes_written ++ tbl ++
                (if tbl.getD 99 0 == 255 then [0] else [])).length)
              0)) := by
      unfold xingCore
      simp [List.append_assoc]
    rw [h1]
    have h2 : (fp ++ hdr4 ++ List.replicate (xingOffset hdr4) 0 ++
          [88, 105, 110, 103, 0, 0, 0, 7] ++
          (be4 (xingTotalFrames m0.sample_rate s.recording_length_ms
              (xingSpf hdr4)).toNat ++
            be4 s.bytes_written.toNat)).length =
        fp.length + 4 + xingOffset hdr4 + 16 := by
      simp [hhl, be4]
      omega
    rw [← h2, List.drop_left]
    have h3 : (100 : Nat) = tbl.length := hl.symm
    rw [h3, List.take_left]

/-- Concrete instantiation of C8 at the two-segment 128/192 kb/s state. -/
theorem C8_xing_seek_table_witness :
    ∃ out tbl,
      recorder_write_xing_tag recVbrDone mp3Hdr [7] = some out ∧
      tbl.length = 100 ∧ List.Chain' (· ≤ ·) tbl ∧
      (out.drop (([7] : List Nat).length + 4 + xingOffset mp3Hdr)).take 8 =
        [88, 105, 110, 103, 0, 0, 0, 7] ∧
      (out.drop (([7] : List Nat).length + 4 + xingOffset mp3Hdr +
        16)).take 100 = tbl :=
  C8_xing_seek_table recVbrDone mp3Hdr [7] segA [segB] rfl rfl rfl
    (by decide) (by decide)
    ⟨by decide, by decide,
      List.chain'_cons.2 ⟨⟨by decide, by decide⟩, List.chain'_singleton _⟩,
      by
        intro lm hlm
        cases hlm
        decide⟩
    (by
      intro m0 h0
      cases h0
      decide)
    rfl

end Idjc
